import Mathlib

/-!
# Anura: the custom-object schema (`custom_object_callable`) and the voxel editor

A shallow embedding of `src/custom_object_callable.cpp` and of the editing
core of `src/voxel_editor.cpp` (see the section on the voxel editor).

* The process-wide statics of the translation unit (`global_entries()`,
  `keys_to_slots()`, `instance_ptr` and the function-local static of
  `instance()`) together with the schema objects allocated so far form a
  `World`; every operation of the source is a function on worlds.
* A pointer to a schema object is its address, the position of the object
  in `World.heap`.
* `std::map<std::string, int>` is an association list read with `map_find`
  and written with `map_assign`; the source never iterates over its maps.
* `int` is `Int`, `size_t` is `Nat`. The conversion of `entries_.size()` to
  `int` in `add_property` is taken to preserve the value (the vector holds
  fewer than 2^31 entries).
* The fatal assertions of the source (`ASSERT_EQ`, a type string that does
  not parse) end the process: the operation returns `Except.error`.
-/

namespace Anura

/-! ## Types declared outside the translation unit -/

/-- Modelled from the spec: the class `variant_type` (variant_type.hpp is not
among the sources). The spec lists its values: the primitive kinds, nullable
unions, homogeneous sequences and named nominal types. -/
inductive variant_type where
  | any
  | int
  | bool
  | string
  | decimal
  | object
  | list
  | null_or (inner : variant_type)
  | list_of (inner : variant_type)
  | nominal (name : String)
  deriving DecidableEq, Repr

/-- A `variant_type_ptr`: a possibly null reference to a type annotation. -/
abbrev variant_type_ptr := Option variant_type

/-- A pointer to a `formula_callable_definition`: null, the address of a
schema object of this module, or a definition owned by another module. -/
inductive definition_ptr where
  | null
  | callable (addr : Nat)
  | external (handle : Nat)
  deriving DecidableEq, Repr

/-- Modelled from the spec: `formula_callable_definition::entry`
(formula_callable_definition.hpp is not among the sources). The spec gives
the entry an identifier, a type annotation and an optional non-owning
reference to a nested schema; `entry(id)` leaves the last two empty. -/
structure entry where
  id : String
  variant_type : variant_type_ptr := none
  type_definition : definition_ptr := definition_ptr.null
  deriving DecidableEq, Repr

/-- Modelled from the spec: `entry::set_variant_type`, declared with the
entry type outside the sources; the spec has it replace the entry's type
annotation. -/
def entry.set_variant_type (e : entry) (type : variant_type_ptr) : entry :=
  { e with variant_type := type }

/-- What the translation unit takes from its surroundings: the enumerator
`NUM_CUSTOM_OBJECT_PROPERTIES` of custom_object_callable.hpp, the parser
`parse_variant_type` (`none` when the string is rejected), the types returned
by `variant_type::get_custom_object()` and `variant_type::get_builtin(name)`,
and the pointer held by `game_logic::get_library_definition()`. -/
structure Env where
  NUM_CUSTOM_OBJECT_PROPERTIES : Nat
  parse_variant_type : String → Option variant_type
  get_custom_object : variant_type_ptr
  get_builtin : String → variant_type_ptr
  get_library_definition : definition_ptr

/-! ## Containers -/

/-- The element access `v[i] = f(v[i])` of a `std::vector`. The source only
indexes inside the vector; outside it the model leaves the vector as it is. -/
def update_at {α : Type} : List α → Nat → (α → α) → List α
  | [], _, _ => []
  | x :: xs, 0, f => f x :: xs
  | x :: xs, n + 1, f => x :: update_at xs n f

/-- The lookup `m.find(key)` of a `std::map<std::string, int>`: the mapped
value, or `none` for `m.end()`. -/
def map_find : List (String × Int) → String → Option Int
  | [], _ => none
  | (k, v) :: rest, key => if k = key then some v else map_find rest key

/-- The assignment `m[key] = value` of a `std::map<std::string, int>`: the
binding of `key` is overwritten when there is one and created otherwise. -/
def map_assign : List (String × Int) → String → Int → List (String × Int)
  | [], key, value => [(key, value)]
  | (k, v) :: rest, key, value =>
    if k = key then (key, value) :: rest else (k, v) :: map_assign rest key value

/-! ## The built-in table -/

/-- The local `struct Property` of the source. -/
structure Property where
  id : String
  type : String
  deriving DecidableEq, Repr

/-- The table `CustomObjectProperties` of the constructor, row for row. -/
def CustomObjectProperties : List Property := [
  Property.mk "value" "any",
  Property.mk "_data" "any",
  Property.mk "consts" "any",
  Property.mk "type" "any",
  Property.mk "active" "any",
  Property.mk "lib" "any",

  Property.mk "time_in_animation" "int",
  Property.mk "time_in_animation_delta" "int",
  Property.mk "frame_in_animation" "int",
  Property.mk "level" "any",

  Property.mk "animation" "string",
  Property.mk "available_animations" "[string]",

  Property.mk "hitpoints" "int",
  Property.mk "max_hitpoints" "int",
  Property.mk "mass" "int",
  Property.mk "label" "string",
  Property.mk "x" "int",
  Property.mk "y" "int",
  Property.mk "xy" "[int]",
  Property.mk "z" "int",

  Property.mk "relative_x" "int",
  Property.mk "relative_y" "int",
  Property.mk "spawned_by" "null|custom_obj",
  Property.mk "spawned_children" "[custom_obj]",

  Property.mk "parent" "null|custom_obj",
  Property.mk "pivot" "string",
  Property.mk "zorder" "int",
  Property.mk "zsub_order" "int",

  Property.mk "previous_y" "int",
  Property.mk "x1" "int",
  Property.mk "x2" "int",
  Property.mk "y1" "int",
  Property.mk "y2" "int",
  Property.mk "w" "int",
  Property.mk "h" "int",
  Property.mk "mid_x" "int",
  Property.mk "mid_y" "int",
  Property.mk "mid_xy" "int",
  Property.mk "midpoint_x" "int",
  Property.mk "midpoint_y" "int",
  Property.mk "midpoint_xy" "int",

  Property.mk "solid_rect" "object",
  Property.mk "solid_mid_x" "int",
  Property.mk "solid_mid_y" "int",
  Property.mk "solid_mid_xy" "int",

  Property.mk "img_mid_x" "int",
  Property.mk "img_mid_y" "int",
  Property.mk "img_mid_xy" "int",
  Property.mk "img_w" "int",
  Property.mk "img_h" "int",
  Property.mk "img_wh" "int",
  Property.mk "front" "int",
  Property.mk "back" "int",
  Property.mk "cycle" "int",
  Property.mk "facing" "int",

  Property.mk "upside_down" "int",
  Property.mk "up" "int",
  Property.mk "down" "int",
  Property.mk "velocity_x" "int",
  Property.mk "velocity_y" "int",
  Property.mk "velocity_xy" "int",

  Property.mk "velocity_magnitude" "decimal",
  Property.mk "velocity_angle" "decimal",

  Property.mk "accel_x" "int",
  Property.mk "accel_y" "int",
  Property.mk "accel_xy" "int",
  Property.mk "gravity_shift" "int",
  Property.mk "platform_motion_x" "int",

  Property.mk "registry" "object",
  Property.mk "globals" "object",
  Property.mk "vars" "object",
  Property.mk "tmp" "object",
  Property.mk "group" "int",
  Property.mk "rotate" "decimal",

  Property.mk "me" "any",
  Property.mk "self" "any",

  Property.mk "red" "int",
  Property.mk "green" "int",
  Property.mk "blue" "int",
  Property.mk "alpha" "int",
  Property.mk "text_alpha" "int",
  Property.mk "damage" "int",
  Property.mk "hit_by" "null|custom_obj",

  Property.mk "distortion" "null|object",
  Property.mk "is_standing" "bool",
  Property.mk "standing_info" "null|object",

  Property.mk "near_cliff_edge" "bool",
  Property.mk "distance_to_cliff" "int",

  Property.mk "slope_standing_on" "int",
  Property.mk "underwater" "bool",

  Property.mk "previous_water_bounds" "[int]",
  Property.mk "water_bounds" "null|[int]",
  Property.mk "water_object" "null|custom_obj",

  Property.mk "driver" "null|custom_obj",
  Property.mk "is_human" "bool",
  Property.mk "invincible" "bool",

  Property.mk "sound_volume" "int",
  Property.mk "destroyed" "bool",
  Property.mk "is_standing_on_platform" "null|bool|custom_obj",
  Property.mk "standing_on" "null|custom_obj",

  Property.mk "shader" "null|object",
  Property.mk "effects" "any",
  Property.mk "variations" "[string]",

  Property.mk "attached_objects" "[custom_obj]",
  Property.mk "call_stack" "[string]",
  Property.mk "lights" "[object]",

  Property.mk "solid_dimensions_in" "[int]",
  Property.mk "solid_dimensions_not_in" "[int]",

  Property.mk "collide_dimensions_in" "[int]",
  Property.mk "collide_dimensions_not_in" "[int]",

  Property.mk "brightness" "int",
  Property.mk "current_generator" "object",
  Property.mk "tags" "object",
  Property.mk "draw_area" "any",
  Property.mk "scale" "decimal",

  Property.mk "activation_area" "null|[int]",
  Property.mk "clip_area" "null|[int]",

  Property.mk "always_active" "bool",
  Property.mk "activation_border" "int",
  Property.mk "fall_through_platforms" "any",
  Property.mk "has_feet" "bool",

  Property.mk "x_schedule" "any",
  Property.mk "y_schedule" "any",
  Property.mk "rotation_schedule" "any",
  Property.mk "schedule_speed" "any",

  Property.mk "schedule_expires" "any",

  Property.mk "platform_area" "null|[int]",
  Property.mk "platform_offsets" "[int]",
  Property.mk "custom_draw" "list",

  Property.mk "uv_array" "[decimal]",
  Property.mk "xy_array" "[decimal]",
  Property.mk "uv_segments" "[int]",

  Property.mk "draw_primitives" "[object]",
  Property.mk "event_handlers" "any",

  Property.mk "use_absolute_screen_coordinates" "bool",

  Property.mk "widgets" "any",
  Property.mk "textv" "any",
  Property.mk "body" "any",
  Property.mk "paused" "any",
  Property.mk "mouseover_delay" "any",
  Property.mk "mouseover_area" "any",

  Property.mk "ctrl_up" "any",
  Property.mk "ctrl_down" "any",
  Property.mk "ctrl_left" "any",
  Property.mk "ctrl_right" "any",

  Property.mk "ctrl_attack" "any",
  Property.mk "ctrl_jump" "any",
  Property.mk "ctrl_tongue" "any"
]

/-- Modelled from the spec: the enumerators `CUSTOM_OBJECT_ME`, `_SELF`,
`_LEVEL`, `_PARENT` and `_LIB` of custom_object_callable.hpp (not among the
sources). The spec designates these slots by name and numbers a slot by its
position in the table, so each is the position of the row of that name. -/
def CUSTOM_OBJECT_LIB : Nat := 5

/-- See `CUSTOM_OBJECT_LIB`: the row named "level". -/
def CUSTOM_OBJECT_LEVEL : Nat := 9

/-- See `CUSTOM_OBJECT_LIB`: the row named "parent". -/
def CUSTOM_OBJECT_PARENT : Nat := 24

/-- See `CUSTOM_OBJECT_LIB`: the row named "me". -/
def CUSTOM_OBJECT_ME : Nat := 74

/-- See `CUSTOM_OBJECT_LIB`: the row named "self". -/
def CUSTOM_OBJECT_SELF : Nat := 75

/-! ## Schema objects and the process state -/

/-- The data members of a `custom_object_callable`: `entries_`, `properties_`
and the type name kept by the base class (written by `set_type_name`). -/
structure custom_object_callable where
  type_name : String := ""
  entries_ : List entry := []
  properties_ : List (String × Int) := []
  deriving DecidableEq, Repr

/-- The state of the process as far as this_ translation unit is concerned. -/
structure World where
  global_entries : List entry := []
  keys_to_slots : List (String × Int) := []
  instance_ptr : Option Nat := none
  obj : Option Nat := none
  heap : List custom_object_callable := []
  deriving DecidableEq, Repr

/-- The process before anything of this_ module has run. -/
def World.init : World := {}

/-- The fatal outcomes of a construction. -/
inductive Fatal where
  | count_mismatch
  | malformed_type (type : String)
  deriving DecidableEq, Repr

/-! ## The constructor and `instance()` -/

/-- The first loop of the constructor: one `push_back(entry(id))` followed by
`set_variant_type(parse_variant_type(type))` per row. -/
def populate_entries (env : Env) : List Property → List entry → Except Fatal (List entry)
  | [], entries => Except.ok entries
  | p :: rows, entries =>
    match env.parse_variant_type p.type with
    | none => Except.error (Fatal.malformed_type p.type)
    | some t =>
      populate_entries env rows (entries ++ [(entry.mk p.id none definition_ptr.null).set_variant_type (some t)])

/-- The second loop of the constructor, from position `n` on:
`keys_to_slots()[global_entries()[n].id] = n`. -/
def populate_keys : List entry → Nat → List (String × Int) → List (String × Int)
  | [], _, keys => keys
  | e :: rest, n, keys => populate_keys rest (n + 1) (map_assign keys e.id (Int.ofNat n))

/-- The block guarded by `global_entries().empty()`. -/
def populate_globals (env : Env) (w : World) : Except Fatal World :=
  if w.global_entries.isEmpty then
    match populate_entries env CustomObjectProperties w.global_entries with
    | Except.error f => Except.error f
    | Except.ok entries =>
      let keys := populate_keys entries 0 w.keys_to_slots
      let entries := update_at entries CUSTOM_OBJECT_ME (fun e => e.set_variant_type env.get_custom_object)
      let entries := update_at entries CUSTOM_OBJECT_SELF (fun e => e.set_variant_type env.get_custom_object)
      let builtin := env.get_builtin "level"
      let entries := update_at entries CUSTOM_OBJECT_LEVEL (fun e => e.set_variant_type builtin)
      Except.ok { w with global_entries := entries, keys_to_slots := keys }
  else Except.ok w

/-- The constructor `custom_object_callable(is_singleton)`, run by a `new`
expression; `get_instance` stands for the call `instance()` of the source.
The object lives at the next free address, its members start out empty. The
result is the address of the object and the world after the construction. -/
def custom_object_callable.construct (env : Env)
    (get_instance : World → Except Fatal (Nat × World))
    (is_singleton : Bool) (w : World) : Except Fatal (Nat × World) :=
  let this_ := w.heap.length
  let w := { w with heap := w.heap ++ [{}] }
  let w := if is_singleton then
      { w with instance_ptr := some this_,
               heap := update_at w.heap this_ (fun o => { o with type_name := "custom_obj" }) }
    else w
  if env.NUM_CUSTOM_OBJECT_PROPERTIES ≠ CustomObjectProperties.length then
    Except.error Fatal.count_mismatch
  else
    match populate_globals env w with
    | Except.error f => Except.error f
    | Except.ok w =>
      match (if is_singleton then Except.ok (this_, w) else get_instance w) with
      | Except.error f => Except.error f
      | Except.ok (parent, w) =>
        let entries := update_at w.global_entries CUSTOM_OBJECT_PARENT
          (fun e => { e with type_definition := definition_ptr.callable parent })
        let entries := update_at entries CUSTOM_OBJECT_LIB
          (fun e => { e with type_definition := env.get_library_definition })
        let heap := update_at w.heap this_ (fun o => { o with entries_ := entries })
        Except.ok (this_, { w with global_entries := entries, heap := heap })

/-- The expression `new custom_object_callable(true)`. With `is_singleton`
set the constructor does not evaluate `instance()`, so the function passed
for it is never run. -/
def custom_object_callable.new_singleton (env : Env) (w : World) : Except Fatal (Nat × World) :=
  custom_object_callable.construct env (fun w1 => Except.ok (w1.heap.length, w1)) true w

/-- The static `custom_object_callable::instance()`: the object `instance_ptr`
points to when it is set, and otherwise the function-local static `obj`,
constructed on the first pass. -/
def custom_object_callable.instance_ (env : Env) (w : World) : Except Fatal (Nat × World) :=
  match w.instance_ptr with
  | some p => Except.ok (p, w)
  | none =>
    match w.obj with
    | some o => Except.ok (o, w)
    | none =>
      match custom_object_callable.new_singleton env w with
      | Except.error f => Except.error f
      | Except.ok (o, w) => Except.ok (o, { w with obj := some o })

/-- The expression `new custom_object_callable(is_singleton)`. -/
def custom_object_callable.new (env : Env) (is_singleton : Bool) (w : World) :
    Except Fatal (Nat × World) :=
  custom_object_callable.construct env (custom_object_callable.instance_ env) is_singleton w

/-! ## The member functions -/

/-- The member `set_object_type(type)`. -/
def custom_object_callable.set_object_type (self : custom_object_callable)
    (type : variant_type_ptr) : custom_object_callable :=
  let entries := update_at self.entries_ CUSTOM_OBJECT_ME (fun e => e.set_variant_type type)
  { self with entries_ := update_at entries CUSTOM_OBJECT_SELF (fun e => e.set_variant_type type) }

/-- The static `get_key_slot(key)`. -/
def get_key_slot (w : World) (key : String) : Int :=
  match map_find w.keys_to_slots key with
  | none => -1
  | some slot => slot

/-- The member `get_slot(key)`. -/
def custom_object_callable.get_slot (w : World) (self : custom_object_callable)
    (key : String) : Int :=
  match map_find self.properties_ key with
  | none => get_key_slot w key
  | some slot => slot

/-- The member `get_entry(slot)` (both overloads): `none` is the null
pointer, `some e` the entry the returned pointer refers to. -/
def custom_object_callable.get_entry (self : custom_object_callable) (slot : Int) :
    Option entry :=
  if slot < 0 ∨ slot ≥ Int.ofNat self.entries_.length then none
  else self.entries_[slot.toNat]?

/-- The member `add_property(id, type)`. -/
def custom_object_callable.add_property (self : custom_object_callable)
    (id : String) (type : variant_type_ptr) : custom_object_callable :=
  let properties := map_assign self.properties_ id (Int.ofNat self.entries_.length)
  let entries := self.entries_ ++ [entry.mk id none definition_ptr.null]
  { self with properties_ := properties,
              entries_ := update_at entries (entries.length - 1) (fun e => e.set_variant_type type) }

/-! ## Sequences of operations -/

/-- The calls a client of the module can make: a `new` expression, the
static `instance()`, and the two mutating members on the object at an
address. -/
inductive Op where
  | create (is_singleton : Bool)
  | get_instance
  | set_object_type (self : Nat) (type : variant_type_ptr)
  | add_property (self : Nat) (id : String) (type : variant_type_ptr)
  deriving DecidableEq, Repr

/-- One call on the process state. A member call addresses an object that
has been constructed; at an address without an object the model leaves the
state as it is. -/
def step (env : Env) (w : World) : Op → Except Fatal World
  | Op.create is_singleton =>
    match custom_object_callable.new env is_singleton w with
    | Except.error f => Except.error f
    | Except.ok (_, w1) => Except.ok w1
  | Op.get_instance =>
    match custom_object_callable.instance_ env w with
    | Except.error f => Except.error f
    | Except.ok (_, w1) => Except.ok w1
  | Op.set_object_type self type =>
    Except.ok { w with heap := update_at w.heap self (fun o => o.set_object_type type) }
  | Op.add_property self id type =>
    Except.ok { w with heap := update_at w.heap self (fun o => o.add_property id type) }

/-- A sequence of calls, first to last. -/
def run (env : Env) : List Op → World → Except Fatal World
  | [], w => Except.ok w
  | op :: ops, w =>
    match step env w op with
    | Except.error f => Except.error f
    | Except.ok w1 => run env ops w1

/-- The process states a client can bring about. -/
def Reachable (env : Env) (w : World) : Prop :=
  ∃ ops, run env ops World.init = Except.ok w

/-! ## A sample environment -/

/-- The reading of a type string by the stand-in parser of the examples: the
primitive names and one level of `[T]` and `null|T` over them; any other
string is taken as the name of a nominal type. -/
def sample_type (s : String) : variant_type :=
  if s = "any" then variant_type.any
  else if s = "int" then variant_type.int
  else if s = "bool" then variant_type.bool
  else if s = "string" then variant_type.string
  else if s = "decimal" then variant_type.decimal
  else if s = "object" then variant_type.object
  else if s = "list" then variant_type.list
  else if s = "[int]" then variant_type.list_of variant_type.int
  else if s = "[string]" then variant_type.list_of variant_type.string
  else if s = "[decimal]" then variant_type.list_of variant_type.decimal
  else if s = "[object]" then variant_type.list_of variant_type.object
  else if s = "[custom_obj]" then variant_type.list_of (variant_type.nominal "custom_obj")
  else if s = "null|object" then variant_type.null_or variant_type.object
  else if s = "null|custom_obj" then variant_type.null_or (variant_type.nominal "custom_obj")
  else if s = "null|[int]" then variant_type.null_or (variant_type.list_of variant_type.int)
  else variant_type.nominal s

/-- A stand-in for the external parser in examples; it accepts every string. -/
def sample_parse_variant_type (s : String) : Option variant_type :=
  some (sample_type s)

/-- An environment for examples: the enumerator agrees with the table. -/
def sample_env : Env where
  NUM_CUSTOM_OBJECT_PROPERTIES := 148
  parse_variant_type := sample_parse_variant_type
  get_custom_object := some (variant_type.nominal "custom_obj")
  get_builtin := fun name => some (variant_type.nominal name)
  get_library_definition := definition_ptr.external 0

/-! ## Names used in the statements -/

/-- The identifiers of the rows of the table, in order. -/
def base_ids : List String := CustomObjectProperties.map Property.id

/-- The name-to-slot map the second loop of the constructor builds from an
empty map: it depends on the identifiers of the rows only. -/
def base_keys : List (String × Int) :=
  populate_keys (CustomObjectProperties.map (fun p => entry.mk p.id none definition_ptr.null)) 0 []

/-- The statics are as the first construction leaves them, up to the types
and nested definitions of the entries. -/
def Populated (w : World) : Prop :=
  w.global_entries.map entry.id = base_ids ∧ w.keys_to_slots = base_keys

/-- The entries of a schema start with the built-in rows, in order. -/
def BaseFirst (o : custom_object_callable) : Prop :=
  ∃ rest, o.entries_.map entry.id = base_ids ++ rest

/-- The invariant of the process: nothing has been constructed, or the
statics are populated and every schema starts with the built-in rows. -/
def Inv (w : World) : Prop :=
  (w.global_entries = [] ∧ w.keys_to_slots = [] ∧ w.heap = []) ∨
  (Populated w ∧ ∀ o ∈ w.heap, BaseFirst o)

/-- The environment lets a construction go through: the enumerator agrees
with the table and the parser accepts the type string of every row. -/
def Env.consistent (env : Env) : Prop :=
  env.NUM_CUSTOM_OBJECT_PROPERTIES = CustomObjectProperties.length ∧
  ∀ p ∈ CustomObjectProperties, ∃ t, env.parse_variant_type p.type = some t

/-- What a call standing for `instance()` may do: keep the statics populated
and add complete schemas with an empty overlay at the end of the heap. -/
def GoodCall (get_instance : World → Except Fatal (Nat × World)) : Prop :=
  ∀ w1 p w2, Populated w1 → get_instance w1 = Except.ok (p, w2) →
    Populated w2 ∧ ∃ added, w2.heap = w1.heap ++ added ∧
      ∀ x ∈ added, BaseFirst x ∧ x.properties_ = []

/-- The effect of one call on the schema at address `a`: a member call on
that very object changes it, any other call leaves it alone. -/
def apply_op (a : Nat) (o : custom_object_callable) : Op → custom_object_callable
  | Op.create _ => o
  | Op.get_instance => o
  | Op.set_object_type self type => if self = a then o.set_object_type type else o
  | Op.add_property self id type => if self = a then o.add_property id type else o

/-- The effect of a sequence of calls on the schema at address `a`. -/
def apply_ops (a : Nat) : List Op → custom_object_callable → custom_object_callable
  | [], o => o
  | op :: ops, o => apply_ops a ops (apply_op a o op)

/-- A sample history: two schemas are constructed one after the other, the
first of them before `instance()` has ever run. -/
def sample_ops : List Op := [Op.create false, Op.create false]

/-- The process after the sample history. -/
def sample_world : World :=
  match run sample_env sample_ops World.init with
  | Except.ok w => w
  | Except.error _ => World.init

/-- The first schema of the sample history, at address 0. -/
def sample_schema : custom_object_callable :=
  match sample_world.heap[0]? with
  | some o => o
  | none => {}

/-- The second schema of the sample history, at address 2 (address 1 holds
the singleton that the first construction brought about). -/
def other_schema : custom_object_callable :=
  match sample_world.heap[2]? with
  | some o => o
  | none => {}

/-- The process after `add_property("x", null)` on the first schema of the
sample history: a built-in name is added as a custom property. -/
def shadowed_world : World :=
  match step sample_env sample_world (Op.add_property 0 "x" none) with
  | Except.ok w => w
  | Except.error _ => sample_world

/-- The first schema after that call. -/
def shadowing_schema : custom_object_callable :=
  match shadowed_world.heap[0]? with
  | some o => o
  | none => {}

/-- The constructor up to the `ASSERT_EQ`: the storage of the object is
allocated with empty members and the block `if(is_singleton)` has run. -/
def construct_begin (is_singleton : Bool) (w : World) : World :=
  if is_singleton then
    { w with instance_ptr := some w.heap.length,
             heap := update_at (w.heap ++ [{}]) w.heap.length
               (fun o => { o with type_name := "custom_obj" }) }
  else { w with heap := w.heap ++ [{}] }

/-- The last three statements of the constructor for the object at `this_`:
the nested definitions of the "parent" and "lib" entries of `global_entries()`
are set and the entries are copied into the object. -/
def construct_end (env : Env) (this_ parent : Nat) (w : World) : World :=
  let entries := update_at w.global_entries CUSTOM_OBJECT_PARENT
    (fun e => { e with type_definition := definition_ptr.callable parent })
  let entries := update_at entries CUSTOM_OBJECT_LIB
    (fun e => { e with type_definition := env.get_library_definition })
  { w with global_entries := entries,
           heap := update_at w.heap this_ (fun o => { o with entries_ := entries }) }

/-- The type the constructor leaves in the built-in entry of row `p` at
position `i`: the custom-object type for "me" and "self", the builtin type
registered as "level" for "level", the parsed type string of the row
otherwise. -/
def builtin_type (env : Env) (i : Nat) (p : Property) : variant_type_ptr :=
  if i = CUSTOM_OBJECT_ME ∨ i = CUSTOM_OBJECT_SELF then env.get_custom_object
  else if i = CUSTOM_OBJECT_LEVEL then env.get_builtin "level"
  else env.parse_variant_type p.type

/-- The built-in entries of the base registry carry the types the first
construction gave them. -/
def Typed (env : Env) (w : World) : Prop :=
  ∀ i p, CustomObjectProperties[i]? = some p →
    w.global_entries[i]?.map entry.variant_type = some (builtin_type env i p)

/-- The address holds a schema that was constructed as the singleton (the
constructor names such an object "custom_obj"). -/
def IsSingleton (heap : List custom_object_callable) (p : Nat) : Prop :=
  ∃ o, heap[p]? = some o ∧ o.type_name = "custom_obj"

/-- The pointers `instance_ptr` and `obj` refer to schemas constructed as
the singleton, and `instance_ptr` is set once `obj` is. -/
def PointersOk (w : World) : Prop :=
  (∀ p, w.instance_ptr = some p → IsSingleton w.heap p) ∧
  (∀ p, w.obj = some p → IsSingleton w.heap p ∧ ∃ q, w.instance_ptr = some q)

/-- An environment whose enumerator disagrees with the table. -/
def stale_env : Env := { sample_env with NUM_CUSTOM_OBJECT_PROPERTIES := 169 }

/-- The process after the first construction ever, of a schema that is not
the singleton, in the sample environment. -/
def first_world : World :=
  match custom_object_callable.new sample_env false World.init with
  | Except.ok (_, w) => w
  | Except.error _ => World.init

/-- The process after two calls of `set_object_type` on the first schema of
the sample history, with two different types. -/
def rebound_world : World :=
  match run sample_env
    [Op.set_object_type 0 (some (variant_type.nominal "frog")),
      Op.set_object_type 0 (some (variant_type.nominal "toad"))] sample_world with
  | Except.ok w => w
  | Except.error _ => sample_world

/-- The first schema after these two calls. -/
def rebound_schema : custom_object_callable :=
  match rebound_world.heap[0]? with
  | some o => o
  | none => {}

/-- Two states of the base registry hold the same entries up to the nested
definitions of the "parent" and "lib" entries: same ids, same types, and
every other entry identical. -/
def SameBase (before after : List entry) : Prop :=
  after.map entry.id = before.map entry.id ∧
  after.map entry.variant_type = before.map entry.variant_type ∧
  ∀ j, j ≠ CUSTOM_OBJECT_PARENT → j ≠ CUSTOM_OBJECT_LIB → after[j]? = before[j]?

/-- Every value of a schema's overlay map is the index of an entry of that
name, above the built-in rows. -/
def OverlaySound (o : custom_object_callable) : Prop :=
  ∀ key v, map_find o.properties_ key = some v →
    ∃ i : Nat, v = Int.ofNat i ∧ CustomObjectProperties.length ≤ i ∧
      o.entries_[i]?.map entry.id = some key

/-- The process after another schema has been constructed as the singleton
on top of the sample history. -/
def resingled_world : World :=
  match custom_object_callable.new sample_env true sample_world with
  | Except.ok (_, w) => w
  | Except.error _ => sample_world

/-! ## The declared grammar of type strings -/

/-- Modelled from the spec: the primitive type names of the declared grammar
of type strings (the parser, `parse_variant_type`, is not among the sources),
with the annotation each stands for. -/
def primitive_types : List (List Char × variant_type) :=
  [(['a', 'n', 'y'], variant_type.any),
   (['i', 'n', 't'], variant_type.int),
   (['b', 'o', 'o', 'l'], variant_type.bool),
   (['s', 't', 'r', 'i', 'n', 'g'], variant_type.string),
   (['d', 'e', 'c', 'i', 'm', 'a', 'l'], variant_type.decimal),
   (['o', 'b', 'j', 'e', 'c', 't'], variant_type.object),
   (['l', 'i', 's', 't'], variant_type.list)]

/-- Modelled from the spec: a bare nominal identifier of the declared
grammar, taken as a letter or underscore followed by letters, digits and
underscores. -/
def is_identifier : List Char → Bool
  | [] => false
  | c :: rest =>
    (c.isAlpha || c == '_') && rest.all (fun d => d.isAlphanum || d == '_')

/-- Modelled from the spec: the declared grammar of type strings,
`primitive name | "[" inner "]" | "null|" inner | bare nominal identifier`. -/
inductive Derivable : List Char → Prop where
  | primitive (s : List Char) (t : variant_type) (h : (s, t) ∈ primitive_types) : Derivable s
  | sequence (inner : List Char) (h : Derivable inner) : Derivable ('[' :: (inner ++ [']']))
  | nullable (inner : List Char) (h : Derivable inner) :
      Derivable ('n' :: 'u' :: 'l' :: 'l' :: '|' :: inner)
  | nominal (s : List Char) (h : is_identifier s = true) : Derivable s

/-- The primitive annotation a string names, if it is a primitive name. -/
def primitive_of (s : List Char) : Option variant_type :=
  (primitive_types.find? (fun p => p.1 == s)).map Prod.snd

/-- The text between a leading `[` and a trailing `]`. -/
def inside_brackets : List Char → Option (List Char)
  | [] => none
  | c :: rest => if c = '[' ∧ rest.getLast? = some ']' then some rest.dropLast else none

/-- The text after a leading `null|`. -/
def after_null : List Char → Option (List Char)
  | c1 :: c2 :: c3 :: c4 :: c5 :: inner =>
    if c1 = 'n' ∧ c2 = 'u' ∧ c3 = 'l' ∧ c4 = 'l' ∧ c5 = '|' then some inner else none
  | _ => none

/-- Modelled from the spec: the parser of the declared grammar on the
characters of a type string, `none` standing for `MalformedTypeSyntax`. Each
level of nesting uses one unit of `fuel`. -/
def parse_chars : Nat → List Char → Option variant_type
  | 0, _ => none
  | fuel + 1, s =>
    match primitive_of s with
    | some t => some t
    | none =>
      match inside_brackets s with
      | some inner => (parse_chars fuel inner).map variant_type.list_of
      | none =>
        match after_null s with
        | some inner => (parse_chars fuel inner).map variant_type.null_or
        | none => if is_identifier s then some (variant_type.nominal (String.mk s)) else none

/-- Modelled from the spec: `parse(type_string)`, with fuel for more levels
of nesting than the string has characters. -/
def parse_type_string (s : String) : Option variant_type :=
  parse_chars (s.length + 1) s.toList

/-- An environment whose parser accepts exactly the declared grammar. -/
def spec_env : Env := { sample_env with parse_variant_type := parse_type_string }

/-! ## The voxel editor (`voxel_editor.cpp`)

`int` is `Int`; an `int` operation that can leave the range of `int` is
wrapped around with `wrap32` (two's complement, what the machine operation
yields where the C++ standard leaves the overflow undefined), and a division
is defined for the divisors the machine accepts. The types of
voxel_model.hpp, which is not among the sources, are given as far as this
file uses them. The GUI side of the editor (widgets, drawing, `init()`,
which rebuilds the widgets) reads and writes none of the members modelled
here and is left out. -/

/-- The smallest `int`. -/
def INT_MIN : Int := -2147483648

/-- The largest `int`. -/
def INT_MAX : Int := 2147483647

/-- The `int` an arithmetic result is stored as: the result itself within the
range of `int`, the result wrapped around outside it. -/
def wrap32 (n : Int) : Int := (n + 2147483648) % 4294967296 - 2147483648

/-- The `int` division `a / b`, truncating towards zero; `none` where the
machine division traps (a zero divisor, `INT_MIN / -1`). -/
def int_div (a b : Int) : Option Int :=
  if b = 0 ∨ (a = INT_MIN ∧ b = -1) then none else some (Int.tdiv a b)

/-- A `VoxelPos`: a vector of three `int` coordinates. -/
structure VoxelPos where
  x : Int
  y : Int
  z : Int
  deriving DecidableEq, Repr

/-- The component read `pos[n]`. The source reads components 0, 1 and 2
only; any other index gives 0 here. -/
def VoxelPos.get (p : VoxelPos) (n : Int) : Int :=
  if n = 0 then p.x else if n = 1 then p.y else if n = 2 then p.z else 0

/-- The component write `pos[n] = v`. The source writes components 0, 1 and
2 only; any other index leaves the vector as it is here. -/
def VoxelPos.set (p : VoxelPos) (n : Int) (v : Int) : VoxelPos :=
  if n = 0 then { p with x := v } else if n = 1 then { p with y := v }
  else if n = 2 then { p with z := v } else p

/-- A `Voxel`, as far as this file uses it: its colour and the number of
the layer it belongs to. -/
structure Voxel where
  color : Nat
  nlayer : Int
  deriving DecidableEq, Repr

/-- A `VoxelMap`, a `std::map` from positions to voxels, as the list of its
pairs (`VoxelPair`). -/
abbrev VoxelMap := List (VoxelPos × Voxel)

/-- The lookup `m.find(pos)`: the voxel at `pos`, or `none` for `m.end()`. -/
def vmap_find : VoxelMap → VoxelPos → Option Voxel
  | [], _ => none
  | (k, v) :: rest, pos => if k = pos then some v else vmap_find rest pos

/-- The assignment `m[pos] = voxel`. -/
def vmap_assign : VoxelMap → VoxelPos → Voxel → VoxelMap
  | [], pos, voxel => [(pos, voxel)]
  | (k, v) :: rest, pos, voxel =>
    if k = pos then (pos, voxel) :: rest else (k, v) :: vmap_assign rest pos voxel

/-- The removal `m.erase(pos)`. -/
def vmap_erase (m : VoxelMap) (pos : VoxelPos) : VoxelMap :=
  m.filter (fun p => !(p.1 == pos))

/-- The insertion `m.insert(p)`, which keeps an existing voxel at the
position. -/
def vmap_insert (m : VoxelMap) (p : VoxelPos × Voxel) : VoxelMap :=
  match vmap_find m p.1 with
  | some _ => m
  | none => m ++ [p]

/-- A `Layer`, as far as this file uses it: its name and its voxels. -/
structure Layer where
  name : String
  map : VoxelMap
  deriving DecidableEq, Repr

/-- The members of the `voxel_editor` that its commands read and write. -/
structure EditorData where
  current_layer_ : Int
  layers_ : List Layer
  voxels_ : VoxelMap
  cursor_ : Option VoxelPos
  symmetric_ : Bool
  deriving DecidableEq, Repr

/-- The `struct Command`: two closures run on the editor; `none` is a failed
assertion. The closures built in this file call `set_voxel`, `delete_voxel`
and the like, never `undo`, `redo` or `execute_command`, so they act on the
data of the editor and leave the two stacks alone. -/
structure Command where
  redo : EditorData → Option EditorData
  undo : EditorData → Option EditorData

/-- The `voxel_editor`: its data and the stacks `undo_` and `redo_`, the
back of a vector being the end of the list. -/
structure voxel_editor where
  data : EditorData
  undo_ : List Command
  redo_ : List Command

/-- The accessor `layer()`, with its assertion
`current_layer_ >= 0 && current_layer_ < layers_.size()`. -/
def EditorData.layer (d : EditorData) : Option Layer :=
  if 0 ≤ d.current_layer_ ∧ d.current_layer_ < Int.ofNat d.layers_.length then
    d.layers_[d.current_layer_.toNat]?
  else none

/-- A write `layer().map = f(layer().map)` through the accessor. -/
def EditorData.with_layer_map (d : EditorData) (f : VoxelMap → VoxelMap) :
    Option EditorData :=
  if 0 ≤ d.current_layer_ ∧ d.current_layer_ < Int.ofNat d.layers_.length then
    let layers := update_at d.layers_ d.current_layer_.toNat (fun l => { l with map := f l.map })
    some { d with layers_ := layers }
  else none

/-- The inner loop of `build_voxels` for one layer: every pair is inserted
with its `nlayer` set. -/
def insert_layer (nlayer : Int) : VoxelMap → VoxelMap → VoxelMap
  | [], voxels => voxels
  | p :: rest, voxels =>
    insert_layer nlayer rest (vmap_insert voxels (p.1, { p.2 with nlayer := nlayer }))

/-- The outer loop of `build_voxels`, from layer number `nlayer` on. -/
def insert_layers : List Layer → Int → VoxelMap → VoxelMap
  | [], _, voxels => voxels
  | layer :: rest, nlayer, voxels =>
    insert_layers rest (wrap32 (nlayer + 1)) (insert_layer nlayer layer.map voxels)

/-- The member `build_voxels()`. -/
def EditorData.build_voxels (d : EditorData) : EditorData :=
  { d with voxels_ := insert_layers d.layers_ 0 [] }

/-- The position `set_voxel` and `delete_voxel` mirror to in symmetric mode:
`opposite_pos[0] = -1*opposite_pos[0] - 1`. -/
def opposite_pos (pos : VoxelPos) : VoxelPos :=
  pos.set 0 (wrap32 (wrap32 (-1 * pos.get 0) - 1))

/-- The member `set_voxel(pos, voxel)`. -/
def EditorData.set_voxel (d : EditorData) (pos : VoxelPos) (voxel : Voxel) :
    Option EditorData :=
  match d.with_layer_map (fun m => vmap_assign m pos voxel) with
  | none => none
  | some d1 =>
    match (if d1.symmetric_ then
        d1.with_layer_map (fun m => vmap_assign m (opposite_pos pos) voxel)
      else some d1) with
    | none => none
    | some d2 => some d2.build_voxels

/-- The member `delete_voxel(pos)`. -/
def EditorData.delete_voxel (d : EditorData) (pos : VoxelPos) : Option EditorData :=
  match d.with_layer_map (fun m => vmap_erase m pos) with
  | none => none
  | some d1 =>
    match (if d1.symmetric_ then
        d1.with_layer_map (fun m => vmap_erase m (opposite_pos pos))
      else some d1) with
    | none => none
    | some d2 => some d2.build_voxels

/-- The member `execute_command(cmd)`. -/
def voxel_editor.execute_command (e : voxel_editor) (cmd : Command) : Option voxel_editor :=
  match cmd.redo e.data with
  | none => none
  | some d => some { data := d, undo_ := e.undo_ ++ [cmd], redo_ := [] }

/-- The member `undo()`. -/
def voxel_editor.undo (e : voxel_editor) : Option voxel_editor :=
  match e.undo_.getLast? with
  | none => some e
  | some cmd =>
    match cmd.undo e.data with
    | none => none
    | some d => some { data := d, undo_ := e.undo_.dropLast, redo_ := e.redo_ ++ [cmd] }

/-- The member `redo()`. -/
def voxel_editor.redo (e : voxel_editor) : Option voxel_editor :=
  match e.redo_.getLast? with
  | none => some e
  | some cmd =>
    match cmd.redo e.data with
    | none => none
    | some d => some { data := d, undo_ := e.undo_ ++ [cmd], redo_ := e.redo_.dropLast }

/-- The free function `pencil_voxel()` on the editor `get_editor()` returns;
`blank` is a default-constructed `Voxel`, `current_color` the colour selected
in the colour picker. -/
def pencil_voxel (blank : Voxel) (current_color : Nat) (e : voxel_editor) :
    Option voxel_editor :=
  match e.data.cursor_ with
  | none => some e
  | some cursor =>
    let voxel : Voxel := { blank with color := current_color }
    match e.data.layer with
    | none => none
    | some layer =>
      let current := vmap_find layer.map cursor
      let old_voxel : Voxel := match current with
        | some v => v
        | none => blank
      let currently_has_voxel : Bool := current.isSome
      match e.execute_command
          { redo := fun d => d.set_voxel cursor voxel,
            undo := fun d =>
              if currently_has_voxel then d.set_voxel cursor old_voxel
              else d.delete_voxel cursor } with
      | none => none
      | some e1 =>
        match e1.data.set_voxel cursor voxel with
        | none => none
        | some d => some { e1 with data := d }

/-- The inner loop of `get_selected_voxel`: the flag `is_equal` for the
position `q` of a voxel, false when `pos[n] != q[n]` for an `n != facing`. -/
def is_equal (pos : VoxelPos) (facing : Int) (q : VoxelPos) : Bool :=
  [(0 : Int), 1, 2].all (fun n => !(n != facing && pos.get n != q.get n))

/-- The member `get_selected_voxel(pos, facing, reverse)`: one pass of the
loop body, on the local variables `result`, `found` and `best_value`. -/
def selected_voxel_step (pos : VoxelPos) (facing : Int) (flip : Int)
    (st : VoxelPos × Bool × Int) (p : VoxelPos × Voxel) : VoxelPos × Bool × Int :=
  if !is_equal pos facing p.1 then st
  else
    let value := wrap32 (flip * p.1.get facing)
    if st.2.1 == false || decide (value ≥ st.2.2) then (p.1, true, value) else st

/-- The member `get_selected_voxel(pos, facing, reverse)` over the voxels
`voxels_` of the editor. -/
def get_selected_voxel (voxels_ : VoxelMap) (pos : VoxelPos) (facing : Int)
    (reverse : Bool) : VoxelPos :=
  let flip : Int := if reverse then -1 else 1
  (voxels_.foldl (selected_voxel_step pos facing flip) (pos, false, 0)).1

/-- The location and size a `gui::widget` holds (`x()`, `y()`, `width()`,
`height()`). -/
structure widget_area where
  x : Int
  y : Int
  width : Int
  height : Int
  deriving DecidableEq, Repr

/-- The members of a `perspective_renderer` the functions below use, with
the area of its `gui::widget` base. -/
structure perspective_renderer where
  area : widget_area
  vector_ : List Int
  facing_ : Int
  voxel_width_ : Int
  invert_y_ : Int
  deriving DecidableEq, Repr

/-- The constructor `perspective_renderer(xdir, ydir, zdir)`; `facing_` keeps
its indeterminate initial value when all three directions are zero. -/
def perspective_renderer.create (area : widget_area) (indeterminate : Int)
    (xdir ydir zdir : Int) : perspective_renderer :=
  let facing : Int :=
    if xdir ≠ 0 then 0 else if ydir ≠ 0 then 1 else if zdir ≠ 0 then 2 else indeterminate
  { area := area, vector_ := [xdir, ydir, zdir], facing_ := facing, voxel_width_ := 20,
    invert_y_ := if facing ≠ 1 then wrap32 (1 * -1) else 1 }

/-- The member `zoom_in()`. -/
def perspective_renderer.zoom_in (r : perspective_renderer) : perspective_renderer :=
  if r.voxel_width_ < 80 then { r with voxel_width_ := wrap32 (r.voxel_width_ * 2) } else r

/-- The member `zoom_out()`. -/
def perspective_renderer.zoom_out (r : perspective_renderer) : perspective_renderer :=
  if r.voxel_width_ > 5 then { r with voxel_width_ := Int.tdiv r.voxel_width_ 2 } else r

/-- The member `normalize_pos(pos)`: the loop over `dimensions = {0, 2, 1}`
writes through the pointer `out`, here the index of the next component. -/
def perspective_renderer.normalize_pos (r : perspective_renderer) (pos : VoxelPos) :
    VoxelPos :=
  ([(0 : Int), 2, 1].foldl
    (fun (st : VoxelPos × Int) (dimension : Int) =>
      if dimension ≠ r.facing_ then (st.1.set st.2 (pos.get dimension), st.2 + 1) else st)
    ((VoxelPos.mk 0 0 0).set 2 0, 0)).1

/-- The member `denormalize_pos(pos2d)`: the loop over
`dimensions = {0, 2, 1}` reads through the pointer `p`, here the index of the
next component. -/
def perspective_renderer.denormalize_pos (r : perspective_renderer) (pos2d : VoxelPos) :
    VoxelPos :=
  ([(0 : Int), 2, 1].foldl
    (fun (st : VoxelPos × Int) (dimension : Int) =>
      if dimension ≠ r.facing_ then (st.1.set dimension (pos2d.get st.2), st.2 + 1)
      else (st.1.set dimension 0, st.2))
    (VoxelPos.mk 0 0 0, 0)).1

/-- The member `get_mouse_pos(mousex, mousey)`; `none` when one of its two
divisions by `voxel_width_` is not defined. -/
def perspective_renderer.get_mouse_pos (r : perspective_renderer) (mousex mousey : Int) :
    Option VoxelPos :=
  let xpos := wrap32 (mousex - wrap32 (r.area.x + Int.tdiv r.area.width 2))
  let ypos := wrap32 (mousey - wrap32 (r.area.y + Int.tdiv r.area.height 2))
  let xpos := if xpos < 0 then wrap32 (xpos - r.voxel_width_) else xpos
  let ypos := if ypos > 0 then wrap32 (ypos + r.voxel_width_) else ypos
  match int_div xpos r.voxel_width_, int_div ypos r.voxel_width_ with
  | some xselect, some yselect =>
    some (((VoxelPos.mk 0 0 0).set 0 xselect).set 1 (wrap32 (yselect * r.invert_y_)) |>.set 2 0)
  | _, _ => none

/-- A call of one of the two zoom members. -/
inductive ZoomCall where
  | zoom_in
  | zoom_out
  deriving DecidableEq, Repr

/-- A sequence of zoom calls on a renderer, first to last. -/
def apply_zoom_calls : List ZoomCall → perspective_renderer → perspective_renderer
  | [], r => r
  | ZoomCall.zoom_in :: calls, r => apply_zoom_calls calls r.zoom_in
  | ZoomCall.zoom_out :: calls, r => apply_zoom_calls calls r.zoom_out

/-- The positions `q` that agree with `pos` on the two coordinates other
than `facing`. -/
def agrees_off_facing (pos : VoxelPos) (facing : Int) (q : VoxelPos) : Prop :=
  ∀ n : Int, (n = 0 ∨ n = 1 ∨ n = 2) → n ≠ facing → pos.get n = q.get n

/-- An editor with one layer that holds one voxel, the cursor on that voxel. -/
def sample_editor : voxel_editor :=
  { data := { current_layer_ := 0,
              layers_ := [Layer.mk "default" [(VoxelPos.mk 1 2 3, Voxel.mk 7 0)]],
              voxels_ := [(VoxelPos.mk 1 2 3, Voxel.mk 7 0)],
              cursor_ := some (VoxelPos.mk 1 2 3),
              symmetric_ := false },
    undo_ := [],
    redo_ := [] }

/-- A command that draws a voxel at (4, 5, 6) and erases it again. -/
def sample_command : Command :=
  { redo := fun d => d.set_voxel (VoxelPos.mk 4 5 6) (Voxel.mk 9 0),
    undo := fun d => d.delete_voxel (VoxelPos.mk 4 5 6) }

/-- The editor `sample_editor` after `execute_command(sample_command)`. -/
def drawn_editor : voxel_editor :=
  match sample_editor.execute_command sample_command with
  | some e => e
  | none => sample_editor

/-- Two voxels in the column x = 0, y = 0, the first at the least `int`. -/
def deep_voxels : VoxelMap :=
  [(VoxelPos.mk 0 0 (-2147483648), Voxel.mk 1 0), (VoxelPos.mk 0 0 5, Voxel.mk 1 0)]

/-- Three voxels, two of them in the column x = 0, y = 0. -/
def column_voxels : VoxelMap :=
  [(VoxelPos.mk 0 0 (-3), Voxel.mk 1 0), (VoxelPos.mk 0 0 5, Voxel.mk 1 0),
   (VoxelPos.mk 1 0 9, Voxel.mk 1 0)]

/-- The process after `add_property("foo", null)` twice in a row on the first
schema of the sample history. -/
def readded_world : World :=
  match run sample_env [Op.add_property 0 "foo" none, Op.add_property 0 "foo" none]
      sample_world with
  | Except.ok w => w
  | Except.error _ => sample_world

/-- The first schema after those two calls. -/
def readded_schema : custom_object_callable :=
  match readded_world.heap[0]? with
  | some o => o
  | none => {}

/-! ## Containers: basic facts -/

theorem length_update_at {α : Type} (l : List α) (i : Nat) (f : α → α) :
    (update_at l i f).length = l.length := by
  induction l generalizing i with
  | nil => rfl
  | cons x xs ih =>
    cases i with
    | zero => rfl
    | succ n => simp [update_at, ih]

theorem getElem?_update_at {α : Type} (l : List α) (i j : Nat) (f : α → α) :
    (update_at l i f)[j]? = if j = i then l[j]?.map f else l[j]? := by
  induction l generalizing i j with
  | nil => simp [update_at]
  | cons x xs ih =>
    cases i with
    | zero =>
      cases j with
      | zero => simp [update_at]
      | succ m => simp [update_at]
    | succ n =>
      cases j with
      | zero => simp [update_at]
      | succ m => simp [update_at, ih]

theorem getElem?_update_at_self {α : Type} (l : List α) (i : Nat) (f : α → α) :
    (update_at l i f)[i]? = l[i]?.map f := by
  simp [getElem?_update_at]

theorem getElem?_update_at_ne {α : Type} (l : List α) (i j : Nat) (f : α → α) (h : j ≠ i) :
    (update_at l i f)[j]? = l[j]? := by
  simp [getElem?_update_at, h]

theorem map_update_at {α β : Type} (g : α → β) (f : α → α) (h : ∀ x, g (f x) = g x)
    (l : List α) (i : Nat) : (update_at l i f).map g = l.map g := by
  induction l generalizing i with
  | nil => rfl
  | cons x xs ih =>
    cases i with
    | zero => simp [update_at, h]
    | succ n => simp [update_at, ih]

theorem update_at_append_length {α : Type} (l : List α) (x : α) (r : List α) (f : α → α) :
    update_at (l ++ x :: r) l.length f = l ++ f x :: r := by
  induction l with
  | nil => rfl
  | cons y ys ih => simp [update_at, ih]

theorem update_at_append_left {α : Type} (l r : List α) (i : Nat) (f : α → α)
    (h : i < l.length) : update_at (l ++ r) i f = update_at l i f ++ r := by
  induction l generalizing i with
  | nil => simp at h
  | cons y ys ih =>
    cases i with
    | zero => rfl
    | succ n =>
      have hn : n < ys.length := by simpa using h
      simp [update_at, ih n hn]

theorem map_find_assign (m : List (String × Int)) (key : String) (value : Int) (k : String) :
    map_find (map_assign m key value) k = if k = key then some value else map_find m k := by
  induction m with
  | nil =>
    by_cases h : key = k
    · simp [map_assign, map_find, h]
    · have h2 : ¬ k = key := fun e => h e.symm
      simp [map_assign, map_find, h, h2]
  | cons kv rest ih =>
    obtain ⟨k1, v1⟩ := kv
    by_cases h1 : k1 = key
    · by_cases h : key = k
      · simp [map_assign, map_find, h1, h]
      · have h2 : ¬ k = key := fun e => h e.symm
        simp [map_assign, map_find, h1, h, h2]
    · by_cases h : k1 = k
      · have h2 : ¬ k = key := fun e => h1 (h.trans e)
        simp [map_assign, map_find, h1, h, h2]
      · simp [map_assign, map_find, h1, h, ih]


theorem length_table : CustomObjectProperties.length = 148 := rfl

theorem length_base_ids : base_ids.length = 148 := by
  simp [base_ids, length_table]

theorem populate_entries_ids (env : Env) (rows : List Property) (acc es : List entry)
    (h : populate_entries env rows acc = Except.ok es) :
    es.map entry.id = acc.map entry.id ++ rows.map Property.id := by
  induction rows generalizing acc with
  | nil =>
    simp only [populate_entries, Except.ok.injEq] at h
    simp [h]
  | cons p rows ih =>
    simp only [populate_entries] at h
    split at h
    · cases h
    · have := ih _ h
      simp [this, entry.set_variant_type]

theorem populate_entries_ok (env : Env) (rows : List Property) (acc : List entry)
    (h : ∀ p ∈ rows, ∃ t, env.parse_variant_type p.type = some t) :
    ∃ es, populate_entries env rows acc = Except.ok es := by
  induction rows generalizing acc with
  | nil => exact ⟨acc, rfl⟩
  | cons p rows ih =>
    obtain ⟨t, ht⟩ := h p (List.mem_cons_self _ _)
    simp only [populate_entries, ht]
    exact ih _ (fun q hq => h q (List.mem_cons_of_mem _ hq))

theorem populate_keys_congr (es es2 : List entry) (n : Nat) (m : List (String × Int))
    (h : es.map entry.id = es2.map entry.id) :
    populate_keys es n m = populate_keys es2 n m := by
  induction es generalizing es2 n m with
  | nil =>
    cases es2 with
    | nil => rfl
    | cons e r => simp at h
  | cons e r ih =>
    cases es2 with
    | nil => simp at h
    | cons e2 r2 =>
      simp only [List.map_cons, List.cons.injEq] at h
      simp only [populate_keys, h.1]
      exact ih r2 _ _ h.2

theorem populate_keys_find (es : List entry) (n : Nat) (m : List (String × Int))
    (key : String) (v : Int) (h : map_find (populate_keys es n m) key = some v) :
    map_find m key = some v ∨ ((n : Int) ≤ v ∧ v < (n : Int) + es.length) := by
  induction es generalizing n m with
  | nil => exact Or.inl h
  | cons e r ih =>
    simp only [populate_keys] at h
    rcases ih _ _ h with h1 | h1
    · rw [map_find_assign] at h1
      split at h1
      · right
        simp only [Option.some.injEq] at h1
        subst h1
        simp only [List.length_cons, Int.ofNat_eq_coe]
        omega
      · exact Or.inl h1
    · right
      simp only [List.length_cons]
      push_cast at h1 ⊢
      omega


theorem base_ids_ne_nil : base_ids ≠ [] := by
  intro h
  have := length_base_ids
  rw [h] at this
  simp at this

theorem set_variant_type_id (t : variant_type_ptr) (e : entry) :
    (e.set_variant_type t).id = e.id := rfl

theorem populate_globals_spec (env : Env) (w w1 : World)
    (hw : (w.global_entries = [] ∧ w.keys_to_slots = []) ∨ Populated w)
    (h : populate_globals env w = Except.ok w1) :
    Populated w1 ∧ w1.heap = w.heap ∧ w1.instance_ptr = w.instance_ptr ∧ w1.obj = w.obj := by
  unfold populate_globals at h
  rcases hw with ⟨hg, hk⟩ | hp
  · rw [hg, hk] at h
    simp only [List.isEmpty_nil, if_true] at h
    split at h
    · cases h
    · rename_i es hes
      simp only [Except.ok.injEq] at h
      subst h
      have hids := populate_entries_ids env _ _ _ hes
      simp only [List.map_nil, List.nil_append] at hids
      refine ⟨⟨?_, ?_⟩, rfl, rfl, rfl⟩
      · simp only [map_update_at entry.id _ (set_variant_type_id _)]
        exact hids
      · exact populate_keys_congr _ _ _ _ (by simpa [base_ids] using hids)
  · have hne : w.global_entries.isEmpty = false := by
      cases hge : w.global_entries with
      | nil =>
        have := hp.1
        rw [hge] at this
        exact absurd this.symm base_ids_ne_nil
      | cons e r => rfl
    rw [hne] at h
    simp only [Bool.false_eq_true, if_false, Except.ok.injEq] at h
    subst h
    exact ⟨hp, rfl, rfl, rfl⟩

theorem populate_globals_ok (env : Env) (w : World) (henv : env.consistent) :
    ∃ w1, populate_globals env w = Except.ok w1 := by
  unfold populate_globals
  split
  · obtain ⟨es, hes⟩ := populate_entries_ok env CustomObjectProperties w.global_entries henv.2
    rw [hes]
    exact ⟨_, rfl⟩
  · exact ⟨_, rfl⟩

theorem construct_spec (env : Env) (get_instance : World → Except Fatal (Nat × World))
    (is_singleton : Bool) (w w1 : World) (a : Nat)
    (hw : (w.global_entries = [] ∧ w.keys_to_slots = []) ∨ Populated w)
    (hcall : GoodCall get_instance)
    (h : custom_object_callable.construct env get_instance is_singleton w = Except.ok (a, w1)) :
    Populated w1 ∧ a = w.heap.length ∧ ∃ o added, w1.heap = w.heap ++ o :: added ∧
      BaseFirst o ∧ o.properties_ = [] ∧ o.entries_ = w1.global_entries ∧
      ∀ x ∈ added, BaseFirst x ∧ x.properties_ = [] := by
  unfold custom_object_callable.construct at h
  simp only [] at h
  split at h
  · cases h
  · split at h
    · cases h
    · rename_i wg hwg
      split at h
      · cases h
      · rename_i parent w2 hcallres
        simp only [Except.ok.injEq, Prod.mk.injEq] at h
        obtain ⟨ha, hw1⟩ := h
        subst hw1
        have key : Populated w2 ∧ ∃ o0 added, w2.heap = w.heap ++ o0 :: added ∧
            o0.properties_ = [] ∧ ∀ x ∈ added, BaseFirst x ∧ x.properties_ = [] := by
          cases is_singleton with
          | true =>
            simp only [if_true, Except.ok.injEq, Prod.mk.injEq] at hcallres hwg
            obtain ⟨-, hw2⟩ := hcallres
            subst hw2
            obtain ⟨hp, hh, -, -⟩ := (fun hh => populate_globals_spec env _ _ hh hwg) hw
            refine ⟨hp, { type_name := "custom_obj" }, [], ?_, ?_, by simp⟩
            · rw [hh]
              exact update_at_append_length w.heap _ [] _
            · rfl
          | false =>
            simp only [Bool.false_eq_true, if_false] at hcallres hwg
            obtain ⟨hp, hh, -, -⟩ := (fun hh => populate_globals_spec env _ _ hh hwg) hw
            obtain ⟨hp2, added, hadd, hgood⟩ := hcall _ _ _ hp hcallres
            refine ⟨hp2, {}, added, ?_, ?_, hgood⟩
            · rw [hadd, hh]
              simp
            · rfl
        obtain ⟨hp2, o0, added, hheap, hprops, hgood⟩ := key
        have hids : (update_at (update_at w2.global_entries CUSTOM_OBJECT_PARENT
            (fun e => { e with type_definition := definition_ptr.callable parent }))
            CUSTOM_OBJECT_LIB
            (fun e => { e with type_definition := env.get_library_definition })).map entry.id
            = base_ids := by
          have h1 := map_update_at entry.id
            (fun e : entry => { e with type_definition := definition_ptr.callable parent })
            (fun _ => rfl) w2.global_entries CUSTOM_OBJECT_PARENT
          have h2 := map_update_at entry.id
            (fun e : entry => { e with type_definition := env.get_library_definition })
            (fun _ => rfl) (update_at w2.global_entries CUSTOM_OBJECT_PARENT
              (fun e => { e with type_definition := definition_ptr.callable parent }))
            CUSTOM_OBJECT_LIB
          rw [h2, h1]
          exact hp2.1
        refine ⟨⟨hids, hp2.2⟩, ha.symm, ?_⟩
        simp only [hheap, update_at_append_length]
        refine ⟨_, added, rfl, ⟨[], ?_⟩, hprops, rfl, hgood⟩
        simpa using hids

theorem construct_ok (env : Env) (get_instance : World → Except Fatal (Nat × World))
    (is_singleton : Bool) (w : World) (henv : env.consistent)
    (hw : (w.global_entries = [] ∧ w.keys_to_slots = []) ∨ Populated w)
    (hcall : ∀ w1, Populated w1 → ∃ r, get_instance w1 = Except.ok r) :
    ∃ r, custom_object_callable.construct env get_instance is_singleton w = Except.ok r := by
  unfold custom_object_callable.construct
  simp only []
  rw [if_neg (by simpa using henv.1)]
  obtain ⟨wg, hwg⟩ := populate_globals_ok env
    (if is_singleton = true then
        { w with instance_ptr := some w.heap.length,
                 heap := update_at (w.heap ++ [{}]) w.heap.length
                   (fun o => { o with type_name := "custom_obj" }) }
      else { w with heap := w.heap ++ [{}] }) henv
  have hpop : Populated wg := by
    refine (populate_globals_spec env _ _ ?_ hwg).1
    cases is_singleton <;> simpa using hw
  rw [hwg]
  simp only []
  cases is_singleton with
  | true => exact ⟨_, rfl⟩
  | false =>
    obtain ⟨⟨p, w2⟩, hr⟩ := hcall wg hpop
    simp only [Bool.false_eq_true, if_false, hr]
    exact ⟨_, rfl⟩


theorem populated_or_empty_of_inv (w : World) (h : Inv w) :
    (w.global_entries = [] ∧ w.keys_to_slots = []) ∨ Populated w := by
  rcases h with ⟨h1, h2, -⟩ | ⟨h1, -⟩
  · exact Or.inl ⟨h1, h2⟩
  · exact Or.inr h1

theorem goodCall_const : GoodCall (fun w1 => Except.ok (w1.heap.length, w1)) := by
  intro w1 p w2 hp h
  simp only [Except.ok.injEq, Prod.mk.injEq] at h
  obtain ⟨-, h2⟩ := h
  subst h2
  exact ⟨hp, [], by simp, by simp⟩

theorem new_singleton_spec (env : Env) (w w1 : World) (a : Nat)
    (hw : (w.global_entries = [] ∧ w.keys_to_slots = []) ∨ Populated w)
    (h : custom_object_callable.new_singleton env w = Except.ok (a, w1)) :
    Populated w1 ∧ a = w.heap.length ∧ ∃ o added, w1.heap = w.heap ++ o :: added ∧
      BaseFirst o ∧ o.properties_ = [] ∧ o.entries_ = w1.global_entries ∧
      ∀ x ∈ added, BaseFirst x ∧ x.properties_ = [] :=
  construct_spec env _ true w w1 a hw goodCall_const h

theorem new_singleton_ok (env : Env) (w : World) (henv : env.consistent)
    (hw : (w.global_entries = [] ∧ w.keys_to_slots = []) ∨ Populated w) :
    ∃ r, custom_object_callable.new_singleton env w = Except.ok r :=
  construct_ok env _ true w henv hw (fun _ _ => ⟨_, rfl⟩)

theorem instance_ok (env : Env) (w : World) (henv : env.consistent)
    (hw : (w.global_entries = [] ∧ w.keys_to_slots = []) ∨ Populated w) :
    ∃ r, custom_object_callable.instance_ env w = Except.ok r := by
  unfold custom_object_callable.instance_
  split
  · exact ⟨_, rfl⟩
  · split
    · exact ⟨_, rfl⟩
    · obtain ⟨⟨o, w3⟩, hr⟩ := new_singleton_ok env w henv hw
      rw [hr]
      exact ⟨_, rfl⟩

/-- The effect of `instance()` on the heap when the statics may still be
empty: complete schemas are added at the end. -/
theorem instance_spec (env : Env) (w w1 : World) (a : Nat)
    (hw : (w.global_entries = [] ∧ w.keys_to_slots = []) ∨ Populated w)
    (h : custom_object_callable.instance_ env w = Except.ok (a, w1)) :
    (w1 = w ∨ Populated w1) ∧ ∃ added, w1.heap = w.heap ++ added ∧
      ∀ x ∈ added, BaseFirst x ∧ x.properties_ = [] := by
  unfold custom_object_callable.instance_ at h
  split at h
  · simp only [Except.ok.injEq, Prod.mk.injEq] at h
    obtain ⟨-, h2⟩ := h
    subst h2
    exact ⟨Or.inl rfl, [], by simp, by simp⟩
  · split at h
    · simp only [Except.ok.injEq, Prod.mk.injEq] at h
      obtain ⟨-, h2⟩ := h
      subst h2
      exact ⟨Or.inl rfl, [], by simp, by simp⟩
    · split at h
      · cases h
      · rename_i o w3 hnew
        simp only [Except.ok.injEq, Prod.mk.injEq] at h
        obtain ⟨-, h2⟩ := h
        subst h2
        obtain ⟨hp3, -, o1, added, hheap, hb, hprops, -, hgood⟩ :=
          new_singleton_spec env w w3 o hw hnew
        refine ⟨Or.inr hp3, o1 :: added, hheap, ?_⟩
        intro x hx
        rcases List.mem_cons.mp hx with hx | hx
        · subst hx
          exact ⟨hb, hprops⟩
        · exact hgood x hx

theorem goodCall_instance (env : Env) : GoodCall (custom_object_callable.instance_ env) := by
  intro w1 p w2 hp h
  obtain ⟨h1, h2⟩ := instance_spec env w1 w2 p (Or.inr hp) h
  refine ⟨?_, h2⟩
  rcases h1 with h1 | h1
  · rw [h1]
    exact hp
  · exact h1

theorem new_spec (env : Env) (is_singleton : Bool) (w w1 : World) (a : Nat)
    (hw : (w.global_entries = [] ∧ w.keys_to_slots = []) ∨ Populated w)
    (h : custom_object_callable.new env is_singleton w = Except.ok (a, w1)) :
    Populated w1 ∧ a = w.heap.length ∧ ∃ o added, w1.heap = w.heap ++ o :: added ∧
      BaseFirst o ∧ o.properties_ = [] ∧ o.entries_ = w1.global_entries ∧
      ∀ x ∈ added, BaseFirst x ∧ x.properties_ = [] :=
  construct_spec env _ is_singleton w w1 a hw (goodCall_instance env) h

theorem new_ok (env : Env) (is_singleton : Bool) (w : World) (henv : env.consistent)
    (hw : (w.global_entries = [] ∧ w.keys_to_slots = []) ∨ Populated w) :
    ∃ r, custom_object_callable.new env is_singleton w = Except.ok r :=
  construct_ok env _ is_singleton w henv hw
    (fun w1 hp => instance_ok env w1 henv (Or.inr hp))


/-! ## The member functions: basic facts -/

theorem add_property_entries (o : custom_object_callable) (id : String) (type : variant_type_ptr) :
    (o.add_property id type).entries_ = o.entries_ ++ [entry.mk id type definition_ptr.null] := by
  unfold custom_object_callable.add_property
  simp only [List.length_append, List.length_singleton, Nat.add_sub_cancel]
  exact update_at_append_length o.entries_ _ [] _

theorem add_property_properties (o : custom_object_callable) (id : String)
    (type : variant_type_ptr) :
    (o.add_property id type).properties_ =
      map_assign o.properties_ id (Int.ofNat o.entries_.length) := rfl

theorem set_object_type_properties (o : custom_object_callable) (type : variant_type_ptr) :
    (o.set_object_type type).properties_ = o.properties_ := rfl

theorem set_object_type_length (o : custom_object_callable) (type : variant_type_ptr) :
    (o.set_object_type type).entries_.length = o.entries_.length := by
  simp [custom_object_callable.set_object_type, length_update_at]

theorem set_object_type_ids (o : custom_object_callable) (type : variant_type_ptr) :
    (o.set_object_type type).entries_.map entry.id = o.entries_.map entry.id := by
  unfold custom_object_callable.set_object_type
  simp only []
  rw [map_update_at entry.id _ (set_variant_type_id type),
    map_update_at entry.id _ (set_variant_type_id type)]

theorem set_object_type_getElem? (o : custom_object_callable) (type : variant_type_ptr)
    (j : Nat) :
    (o.set_object_type type).entries_[j]? =
      if j = CUSTOM_OBJECT_ME ∨ j = CUSTOM_OBJECT_SELF then
        o.entries_[j]?.map (fun e => e.set_variant_type type)
      else o.entries_[j]? := by
  unfold custom_object_callable.set_object_type
  simp only [getElem?_update_at]
  have hne : ¬ CUSTOM_OBJECT_ME = CUSTOM_OBJECT_SELF := by decide
  have hne2 : ¬ CUSTOM_OBJECT_SELF = CUSTOM_OBJECT_ME := by decide
  by_cases h1 : j = CUSTOM_OBJECT_ME
  · subst h1
    simp [hne]
  · by_cases h2 : j = CUSTOM_OBJECT_SELF
    · subst h2
      simp [hne2]
    · simp [h1, h2]

theorem baseFirst_set_object_type (o : custom_object_callable) (type : variant_type_ptr)
    (h : BaseFirst o) : BaseFirst (o.set_object_type type) := by
  obtain ⟨rest, hr⟩ := h
  exact ⟨rest, by rw [set_object_type_ids, hr]⟩

theorem baseFirst_add_property (o : custom_object_callable) (id : String)
    (type : variant_type_ptr) (h : BaseFirst o) : BaseFirst (o.add_property id type) := by
  obtain ⟨rest, hr⟩ := h
  exact ⟨rest ++ [id], by simp [add_property_entries, hr]⟩

theorem baseFirst_apply_op (a : Nat) (o : custom_object_callable) (op : Op)
    (h : BaseFirst o) : BaseFirst (apply_op a o op) := by
  cases op with
  | create b => exact h
  | get_instance => exact h
  | set_object_type self type =>
    simp only [apply_op]
    split
    · exact baseFirst_set_object_type o type h
    · exact h
  | add_property self id type =>
    simp only [apply_op]
    split
    · exact baseFirst_add_property o id type h
    · exact h

theorem baseFirst_length (o : custom_object_callable) (h : BaseFirst o) :
    CustomObjectProperties.length ≤ o.entries_.length := by
  obtain ⟨rest, hr⟩ := h
  have := congrArg List.length hr
  simp only [List.length_map, List.length_append, length_base_ids] at this
  rw [length_table]
  omega

theorem baseFirst_getElem? (o : custom_object_callable) (h : BaseFirst o) (i : Nat)
    (hi : i < CustomObjectProperties.length) :
    o.entries_[i]?.map entry.id = base_ids[i]? := by
  obtain ⟨rest, hr⟩ := h
  rw [← List.getElem?_map, hr, List.getElem?_append_left]
  rw [length_base_ids, ← length_table]
  exact hi

/-! ## The process: frame and invariant -/

theorem mem_update_at {α : Type} (l : List α) (i : Nat) (f : α → α) (x : α)
    (h : x ∈ update_at l i f) : x ∈ l ∨ ∃ y ∈ l, x = f y := by
  induction l generalizing i with
  | nil => simp [update_at] at h
  | cons y ys ih =>
    cases i with
    | zero =>
      simp only [update_at, List.mem_cons] at h
      rcases h with h | h
      · exact Or.inr ⟨y, by simp, h⟩
      · exact Or.inl (by simp [h])
    | succ n =>
      simp only [update_at, List.mem_cons] at h
      rcases h with h | h
      · exact Or.inl (by simp [h])
      · rcases ih n h with h1 | ⟨z, hz, hx⟩
        · exact Or.inl (by simp [h1])
        · exact Or.inr ⟨z, by simp [hz], hx⟩

theorem getElem?_append_of_some {α : Type} (l r : List α) (a : Nat) (x : α)
    (h : l[a]? = some x) : (l ++ r)[a]? = some x := by
  have hlt : a < l.length := by
    by_contra hc
    rw [List.getElem?_eq_none (by omega)] at h
    cases h
  rw [List.getElem?_append_left hlt]
  exact h

/-- One call changes the schema at an address only through `apply_op`. -/
theorem step_heap (env : Env) (w w1 : World) (op : Op) (hw : Inv w)
    (h : step env w op = Except.ok w1) (a : Nat) (o : custom_object_callable)
    (ho : w.heap[a]? = some o) : w1.heap[a]? = some (apply_op a o op) := by
  cases op with
  | create b =>
    simp only [step] at h
    split at h
    · cases h
    · rename_i a1 w2 hnew
      simp only [Except.ok.injEq] at h
      subst h
      obtain ⟨-, -, o1, added, hheap, -⟩ :=
        new_spec env b w w2 a1 (populated_or_empty_of_inv w hw) hnew
      rw [hheap]
      exact getElem?_append_of_some _ _ _ _ ho
  | get_instance =>
    simp only [step] at h
    split at h
    · cases h
    · rename_i a1 w2 hnew
      simp only [Except.ok.injEq] at h
      subst h
      obtain ⟨-, added, hheap, -⟩ :=
        instance_spec env w w2 a1 (populated_or_empty_of_inv w hw) hnew
      rw [hheap]
      exact getElem?_append_of_some _ _ _ _ ho
  | set_object_type self type =>
    simp only [step, Except.ok.injEq] at h
    subst h
    simp only [getElem?_update_at, apply_op]
    by_cases hs : a = self
    · subst hs
      simp [ho]
    · have hs2 : ¬ self = a := fun e => hs e.symm
      simp [hs, hs2, ho]
  | add_property self id type =>
    simp only [step, Except.ok.injEq] at h
    subst h
    simp only [getElem?_update_at, apply_op]
    by_cases hs : a = self
    · subst hs
      simp [ho]
    · have hs2 : ¬ self = a := fun e => hs e.symm
      simp [hs, hs2, ho]

theorem step_inv (env : Env) (w w1 : World) (op : Op) (hw : Inv w)
    (h : step env w op = Except.ok w1) : Inv w1 := by
  have hold : ∀ o ∈ w.heap, BaseFirst o := by
    rcases hw with ⟨-, -, h3⟩ | ⟨-, h3⟩
    · rw [h3]
      simp
    · exact h3
  cases op with
  | create b =>
    simp only [step] at h
    split at h
    · cases h
    · rename_i a1 w2 hnew
      simp only [Except.ok.injEq] at h
      subst h
      obtain ⟨hp, -, o1, added, hheap, hb, -, -, hgood⟩ :=
        new_spec env b w w2 a1 (populated_or_empty_of_inv w hw) hnew
      refine Or.inr ⟨hp, ?_⟩
      intro x hx
      rw [hheap] at hx
      rcases List.mem_append.mp hx with hx | hx
      · exact hold x hx
      · rcases List.mem_cons.mp hx with hx | hx
        · rw [hx]
          exact hb
        · exact (hgood x hx).1
  | get_instance =>
    simp only [step] at h
    split at h
    · cases h
    · rename_i a1 w2 hnew
      simp only [Except.ok.injEq] at h
      subst h
      obtain ⟨hp, added, hheap, hgood⟩ :=
        instance_spec env w w2 a1 (populated_or_empty_of_inv w hw) hnew
      rcases hp with hp | hp
      · rw [hp]
        exact hw
      · refine Or.inr ⟨hp, ?_⟩
        intro x hx
        rw [hheap] at hx
        rcases List.mem_append.mp hx with hx | hx
        · exact hold x hx
        · exact (hgood x hx).1
  | set_object_type self type =>
    simp only [step, Except.ok.injEq] at h
    subst h
    rcases hw with ⟨h1, h2, h3⟩ | ⟨hp, h3⟩
    · exact Or.inl ⟨h1, h2, by simp [h3, update_at]⟩
    · refine Or.inr ⟨hp, ?_⟩
      intro x hx
      rcases mem_update_at _ _ _ _ hx with hx | ⟨y, hy, hxy⟩
      · exact h3 x hx
      · rw [hxy]
        exact baseFirst_set_object_type y type (h3 y hy)
  | add_property self id type =>
    simp only [step, Except.ok.injEq] at h
    subst h
    rcases hw with ⟨h1, h2, h3⟩ | ⟨hp, h3⟩
    · exact Or.inl ⟨h1, h2, by simp [h3, update_at]⟩
    · refine Or.inr ⟨hp, ?_⟩
      intro x hx
      rcases mem_update_at _ _ _ _ hx with hx | ⟨y, hy, hxy⟩
      · exact h3 x hx
      · rw [hxy]
        exact baseFirst_add_property y id type (h3 y hy)

theorem step_ok (env : Env) (w : World) (op : Op) (henv : env.consistent) (hw : Inv w) :
    ∃ w1, step env w op = Except.ok w1 := by
  cases op with
  | create b =>
    obtain ⟨⟨a, w1⟩, hr⟩ := new_ok env b w henv (populated_or_empty_of_inv w hw)
    exact ⟨w1, by simp [step, hr]⟩
  | get_instance =>
    obtain ⟨⟨a, w1⟩, hr⟩ := instance_ok env w henv (populated_or_empty_of_inv w hw)
    exact ⟨w1, by simp [step, hr]⟩
  | set_object_type self type => exact ⟨_, rfl⟩
  | add_property self id type => exact ⟨_, rfl⟩

theorem inv_init : Inv World.init := Or.inl ⟨rfl, rfl, rfl⟩

theorem run_inv (env : Env) (ops : List Op) (w w1 : World) (hw : Inv w)
    (h : run env ops w = Except.ok w1) : Inv w1 := by
  induction ops generalizing w with
  | nil =>
    simp only [run, Except.ok.injEq] at h
    rw [← h]
    exact hw
  | cons op ops ih =>
    simp only [run] at h
    split at h
    · cases h
    · rename_i w2 hstep
      exact ih w2 (step_inv env w w2 op hw hstep) h

theorem run_heap (env : Env) (ops : List Op) (w w1 : World) (hw : Inv w)
    (h : run env ops w = Except.ok w1) (a : Nat) (o : custom_object_callable)
    (ho : w.heap[a]? = some o) : w1.heap[a]? = some (apply_ops a ops o) := by
  induction ops generalizing w o with
  | nil =>
    simp only [run, Except.ok.injEq] at h
    rw [← h]
    exact ho
  | cons op ops ih =>
    simp only [run] at h
    split at h
    · cases h
    · rename_i w2 hstep
      exact ih w2 (step_inv env w w2 op hw hstep) h _ (step_heap env w w2 op hw hstep a o ho)

theorem run_ok (env : Env) (ops : List Op) (w : World) (henv : env.consistent) (hw : Inv w) :
    ∃ w1, run env ops w = Except.ok w1 := by
  induction ops generalizing w with
  | nil => exact ⟨w, rfl⟩
  | cons op ops ih =>
    obtain ⟨w2, hstep⟩ := step_ok env w op henv hw
    simp only [run, hstep]
    exact ih w2 (step_inv env w w2 op hw hstep)

theorem inv_of_reachable (env : Env) (w : World) (h : Reachable env w) : Inv w := by
  obtain ⟨ops, hops⟩ := h
  exact run_inv env ops World.init w inv_init hops

theorem baseFirst_of_reachable (env : Env) (w : World) (h : Reachable env w) (a : Nat)
    (o : custom_object_callable) (ho : w.heap[a]? = some o) : Populated w ∧ BaseFirst o := by
  have hmem : o ∈ w.heap := List.getElem?_mem ho
  rcases inv_of_reachable env w h with ⟨-, -, h3⟩ | ⟨hp, h3⟩
  · rw [h3] at hmem
    simp at hmem
  · exact ⟨hp, h3 o hmem⟩


/-! ## The sample history -/

theorem sample_parse_total (s : String) : ∃ t, sample_parse_variant_type s = some t :=
  ⟨sample_type s, rfl⟩

theorem sample_env_consistent : sample_env.consistent :=
  ⟨rfl, fun p _ => sample_parse_total p.type⟩

set_option maxRecDepth 100000 in
theorem sample_run : run sample_env sample_ops World.init = Except.ok sample_world := rfl

theorem sample_reachable : Reachable sample_env sample_world := ⟨sample_ops, sample_run⟩

set_option maxRecDepth 100000 in
theorem sample_schema_at : sample_world.heap[0]? = some sample_schema := rfl

set_option maxRecDepth 100000 in
theorem other_schema_at : sample_world.heap[2]? = some other_schema := rfl

/-! ## Slot resolution -/

/-- C1: `get_slot(name)` returns the index recorded under `name` in the
schema's own overlay map `properties_` when the name is a key of it; otherwise
it returns `get_key_slot(name)` of the base registry, which is the index
recorded in `keys_to_slots` and -1 when the name is in neither map. -/
theorem get_slot_overlay_then_base (w : World) (self : custom_object_callable)
    (name : String) :
    self.get_slot w name =
      (match map_find self.properties_ name, map_find w.keys_to_slots name with
        | some slot, _ => slot
        | none, some slot => slot
        | none, none => -1) ∧
    self.get_slot w name = (map_find self.properties_ name).getD (get_key_slot w name) := by
  unfold custom_object_callable.get_slot get_key_slot
  cases map_find self.properties_ name <;> cases map_find w.keys_to_slots name <;> simp

/-- C2: `get_entry(slot)` is total. It returns no entry exactly when
`slot < 0` or `slot >= entries_.size()`, and the entry stored at index `slot`
otherwise; in particular `get_entry(-1)` and `get_entry(entries_.size())`
return no entry. -/
theorem get_entry_bounds_checked (self : custom_object_callable) (slot : Int) :
    (self.get_entry slot = none ↔ (slot < 0 ∨ slot ≥ Int.ofNat self.entries_.length)) ∧
    (∀ i : Fin self.entries_.length,
      self.get_entry (Int.ofNat i.val) = some (self.entries_.get i)) ∧
    self.get_entry (-1) = none ∧
    self.get_entry (Int.ofNat self.entries_.length) = none := by
  refine ⟨?_, ?_, ?_, ?_⟩
  · unfold custom_object_callable.get_entry
    constructor
    · intro h
      by_contra hc
      rw [if_neg hc] at h
      rw [List.getElem?_eq_none_iff] at h
      simp only [Int.ofNat_eq_coe] at hc
      omega
    · intro h
      rw [if_pos h]
  · intro i
    unfold custom_object_callable.get_entry
    have hi := i.isLt
    rw [if_neg (by simp only [Int.ofNat_eq_coe]; omega)]
    simp only [Int.ofNat_eq_coe, Int.toNat_ofNat]
    rw [List.getElem?_eq_getElem hi]
    rfl
  · unfold custom_object_callable.get_entry
    rw [if_pos (Or.inl (by decide))]
  · unfold custom_object_callable.get_entry
    rw [if_pos (Or.inr (le_refl _))]


/-! ## Extension -/

theorem get_key_slot_congr (w w1 : World) (h : w1.keys_to_slots = w.keys_to_slots)
    (key : String) : get_key_slot w1 key = get_key_slot w key := by
  unfold get_key_slot
  rw [h]

theorem get_slot_congr (w w1 : World) (h : w1.keys_to_slots = w.keys_to_slots)
    (o : custom_object_callable) (key : String) : o.get_slot w1 key = o.get_slot w key := by
  unfold custom_object_callable.get_slot
  rw [get_key_slot_congr w w1 h]

theorem get_entry_ofNat (o : custom_object_callable) (i : Nat) :
    o.get_entry (Int.ofNat i) = o.entries_[i]? := by
  unfold custom_object_callable.get_entry
  by_cases h : i < o.entries_.length
  · rw [if_neg (by simp only [Int.ofNat_eq_coe]; omega)]
    simp
  · rw [if_pos (Or.inr (by simp only [Int.ofNat_eq_coe]; omega))]
    rw [List.getElem?_eq_none (by omega)]

theorem get_slot_add_property (w : World) (o : custom_object_callable) (name : String)
    (type : variant_type_ptr) (m : String) :
    (o.add_property name type).get_slot w m =
      if m = name then Int.ofNat o.entries_.length else o.get_slot w m := by
  unfold custom_object_callable.get_slot
  rw [add_property_properties, map_find_assign]
  by_cases h : m = name
  · simp [h]
  · simp [h]

theorem getElem?_add_property_new (o : custom_object_callable) (name : String)
    (type : variant_type_ptr) :
    (o.add_property name type).entries_[o.entries_.length]? =
      some (entry.mk name type definition_ptr.null) := by
  rw [add_property_entries]
  simp

theorem step_add_property (env : Env) (w : World) (a : Nat) (name : String)
    (type : variant_type_ptr) (o : custom_object_callable) (ho : w.heap[a]? = some o) :
    ∃ w1, step env w (Op.add_property a name type) = Except.ok w1 ∧
      w1.heap[a]? = some (o.add_property name type) ∧
      w1.keys_to_slots = w.keys_to_slots ∧ w1.global_entries = w.global_entries ∧
      ∀ b, b ≠ a → w1.heap[b]? = w.heap[b]? := by
  refine ⟨_, rfl, ?_, rfl, rfl, ?_⟩
  · simp [getElem?_update_at_self, ho]
  · intro b hb
    exact getElem?_update_at_ne _ _ _ _ hb

theorem step_set_object_type (env : Env) (w : World) (a : Nat)
    (type : variant_type_ptr) (o : custom_object_callable) (ho : w.heap[a]? = some o) :
    ∃ w1, step env w (Op.set_object_type a type) = Except.ok w1 ∧
      w1.heap[a]? = some (o.set_object_type type) ∧
      w1.keys_to_slots = w.keys_to_slots ∧ w1.global_entries = w.global_entries ∧
      ∀ b, b ≠ a → w1.heap[b]? = w.heap[b]? := by
  refine ⟨_, rfl, ?_, rfl, rfl, ?_⟩
  · simp [getElem?_update_at_self, ho]
  · intro b hb
    exact getElem?_update_at_ne _ _ _ _ hb

/-- C3: in every process state a client can bring about, for the schema at
any address, every name that is not the name of a built-in row and every
type `T`: the call `add_property(name, T)` goes through, afterwards
`get_slot(name)` returns a slot that is at least the number of rows of the
built-in table, and `get_entry` of that slot is the entry with id `name` and
type `T`. -/
theorem add_property_then_resolve (env : Env) (w : World) (hr : Reachable env w) (a : Nat)
    (o : custom_object_callable) (ho : w.heap[a]? = some o) (name : String)
    (_hname : name ∉ CustomObjectProperties.map Property.id) (T : variant_type_ptr) :
    ∃ w1 o1, step env w (Op.add_property a name T) = Except.ok w1 ∧
      w1.heap[a]? = some o1 ∧
      Int.ofNat CustomObjectProperties.length ≤ o1.get_slot w1 name ∧
      ∃ e, o1.get_entry (o1.get_slot w1 name) = some e ∧ e.id = name ∧ e.variant_type = T := by
  obtain ⟨w1, hstep, hheap, hkeys, -, -⟩ := step_add_property env w a name T o ho
  have hlen := baseFirst_length o (baseFirst_of_reachable env w hr a o ho).2
  refine ⟨w1, _, hstep, hheap, ?_, entry.mk name T definition_ptr.null, ?_, rfl, rfl⟩
  · rw [get_slot_add_property, if_pos rfl]
    exact Int.ofNat_le.mpr hlen
  · rw [get_slot_add_property, if_pos rfl, get_entry_ofNat]
    exact getElem?_add_property_new o name T

set_option maxRecDepth 100000 in
/-- C3, witness: "custom_field" with the parsed annotation of "int" on the
first schema of the sample history. -/
theorem add_property_then_resolve_witness :
    ∃ w1 o1, step sample_env sample_world
        (Op.add_property 0 "custom_field" (sample_env.parse_variant_type "int")) = Except.ok w1 ∧
      w1.heap[0]? = some o1 ∧
      Int.ofNat CustomObjectProperties.length ≤ o1.get_slot w1 "custom_field" ∧
      ∃ e, o1.get_entry (o1.get_slot w1 "custom_field") = some e ∧ e.id = "custom_field" ∧
        e.variant_type = sample_env.parse_variant_type "int" :=
  add_property_then_resolve sample_env sample_world sample_reachable 0 sample_schema
    sample_schema_at "custom_field" (by decide) (sample_env.parse_variant_type "int")


theorem apply_op_entries (a : Nat) (o : custom_object_callable) (op : Op) :
    o.entries_.length ≤ (apply_op a o op).entries_.length ∧
    ((apply_op a o op).entries_.take o.entries_.length).map entry.id =
      o.entries_.map entry.id := by
  cases op with
  | create b => simp [apply_op]
  | get_instance => simp [apply_op]
  | set_object_type self type =>
    simp only [apply_op]
    split
    · refine ⟨by rw [set_object_type_length], ?_⟩
      rw [← set_object_type_length o type, List.take_length, set_object_type_ids]
    · simp
  | add_property self id type =>
    simp only [apply_op]
    split
    · rw [add_property_entries]
      simp
    · simp

/-- C4: `add_property` is strictly additive. On a schema with `k` entries,
`add_property(name, T)` leaves `k + 1` entries, the new entry sits at index
`k`, and the first `k` entries are the entries before the call, unchanged in
id, type and nested definition. No call a client can make (a construction,
`instance()`, `set_object_type` or `add_property` on any schema) removes an
entry of a schema or changes the id of one of its entries. -/
theorem add_property_strictly_additive (o : custom_object_callable) (name : String)
    (T : variant_type_ptr) :
    (o.add_property name T).entries_.length = o.entries_.length + 1 ∧
    (∃ e, (o.add_property name T).entries_[o.entries_.length]? = some e ∧ e.id = name ∧
      e.variant_type = T) ∧
    (o.add_property name T).entries_.take o.entries_.length = o.entries_ ∧
    (∀ (env : Env) (w w1 : World) (op : Op) (a : Nat), Reachable env w →
      w.heap[a]? = some o → step env w op = Except.ok w1 →
      ∃ o1, w1.heap[a]? = some o1 ∧ o.entries_.length ≤ o1.entries_.length ∧
        (o1.entries_.take o.entries_.length).map entry.id = o.entries_.map entry.id) := by
  refine ⟨?_, ⟨_, getElem?_add_property_new o name T, rfl, rfl⟩, ?_, ?_⟩
  · rw [add_property_entries]
    simp
  · rw [add_property_entries]
    simp
  · intro env w w1 op a hr ho hstep
    exact ⟨_, step_heap env w w1 op (inv_of_reachable env w hr) hstep a o ho,
      apply_op_entries a o op⟩

/-- C4, witness: a second `add_property` on the first schema of the sample
history keeps its entries. -/
theorem add_property_strictly_additive_witness :
    ∃ w1, step sample_env sample_world (Op.add_property 0 "custom_field" none) = Except.ok w1 ∧
      ∃ o1, w1.heap[0]? = some o1 ∧
        sample_schema.entries_.length ≤ o1.entries_.length ∧
        (o1.entries_.take sample_schema.entries_.length).map entry.id =
          sample_schema.entries_.map entry.id :=
  ⟨_, rfl, (add_property_strictly_additive sample_schema "custom_field" none).2.2.2
    sample_env sample_world _ (Op.add_property 0 "custom_field" none) 0
    sample_reachable sample_schema_at rfl⟩


theorem populated_of_inv (w : World) (h : Inv w) (a : Nat) (o : custom_object_callable)
    (ho : w.heap[a]? = some o) : Populated w ∧ BaseFirst o := by
  have hmem : o ∈ w.heap := List.getElem?_mem ho
  rcases h with ⟨-, -, h3⟩ | ⟨hp, h3⟩
  · rw [h3] at hmem
    simp at hmem
  · exact ⟨hp, h3 o hmem⟩

theorem get_key_slot_lt (w : World) (hp : Populated w) (key : String) :
    get_key_slot w key < Int.ofNat CustomObjectProperties.length := by
  unfold get_key_slot
  rw [hp.2]
  cases hfind : map_find base_keys key with
  | none =>
    rw [length_table]
    decide
  | some v =>
    rcases populate_keys_find _ 0 [] key v hfind with h | h
    · simp [map_find] at h
    · simp only [List.length_map, Int.ofNat_eq_coe] at h ⊢
      omega

theorem get_key_slot_ge (w : World) (hp : Populated w) (key : String) :
    -1 ≤ get_key_slot w key := by
  unfold get_key_slot
  rw [hp.2]
  cases hfind : map_find base_keys key with
  | none => decide
  | some v =>
    rcases populate_keys_find _ 0 [] key v hfind with h | h
    · simp [map_find] at h
    · simp only [Int.ofNat_eq_coe] at h ⊢
      omega

theorem apply_ops_find (a : Nat) (name : String) (ops : List Op)
    (hops : ∀ T2, Op.add_property a name T2 ∉ ops) (o : custom_object_callable) :
    map_find (apply_ops a ops o).properties_ name = map_find o.properties_ name := by
  induction ops generalizing o with
  | nil => rfl
  | cons op ops ih =>
    simp only [apply_ops]
    rw [ih (fun T2 h => hops T2 (List.mem_cons_of_mem _ h))]
    cases op with
    | create b => rfl
    | get_instance => rfl
    | set_object_type self type =>
      simp only [apply_op]
      split <;> rfl
    | add_property self id type =>
      simp only [apply_op]
      split
      · rename_i hs
        rw [add_property_properties, map_find_assign]
        have hne : ¬ name = id := by
          intro e
          apply hops type
          rw [e, ← hs]
          exact List.mem_cons_self _ _
        rw [if_neg hne]
      · rfl

theorem apply_ops_getElem? (a : Nat) (ops : List Op) (o : custom_object_callable) (k : Nat)
    (e : entry) (hk : o.entries_[k]? = some e) (h1 : k ≠ CUSTOM_OBJECT_ME)
    (h2 : k ≠ CUSTOM_OBJECT_SELF) : (apply_ops a ops o).entries_[k]? = some e := by
  induction ops generalizing o with
  | nil => exact hk
  | cons op ops ih =>
    simp only [apply_ops]
    apply ih
    cases op with
    | create b => exact hk
    | get_instance => exact hk
    | set_object_type self type =>
      simp only [apply_op]
      split
      · rw [set_object_type_getElem?, if_neg (by simp [h1, h2])]
        exact hk
      · exact hk
    | add_property self id type =>
      simp only [apply_op]
      split
      · rw [add_property_entries]
        exact getElem?_append_of_some _ _ _ _ hk
      · exact hk

theorem apply_op_find_sound (a : Nat) (name : String) (k : Nat) (op : Op)
    (o : custom_object_callable)
    (h : ∃ i, map_find o.properties_ name = some (Int.ofNat i) ∧ k ≤ i ∧
      o.entries_[i]?.map entry.id = some name) :
    ∃ i, map_find (apply_op a o op).properties_ name = some (Int.ofNat i) ∧ k ≤ i ∧
      (apply_op a o op).entries_[i]?.map entry.id = some name := by
  obtain ⟨i, hfind, hki, hid⟩ := h
  cases op with
  | create b => exact ⟨i, hfind, hki, hid⟩
  | get_instance => exact ⟨i, hfind, hki, hid⟩
  | set_object_type self type =>
    simp only [apply_op]
    split
    · refine ⟨i, hfind, hki, ?_⟩
      rw [← List.getElem?_map, set_object_type_ids, List.getElem?_map]
      exact hid
    · exact ⟨i, hfind, hki, hid⟩
  | add_property self id type =>
    simp only [apply_op]
    split
    · obtain ⟨e, he, -⟩ := Option.map_eq_some'.mp hid
      have hlt : i < o.entries_.length := by
        by_contra hc
        rw [List.getElem?_eq_none (by omega)] at he
        cases he
      by_cases hn : name = id
      · refine ⟨o.entries_.length, ?_, by omega, ?_⟩
        · rw [add_property_properties, map_find_assign, if_pos hn]
        · rw [getElem?_add_property_new, hn]
          rfl
      · refine ⟨i, ?_, hki, ?_⟩
        · rw [add_property_properties, map_find_assign, if_neg hn]
          exact hfind
        · rw [add_property_entries, getElem?_append_of_some _ _ _ _ he, ← he]
          exact hid
    · exact ⟨i, hfind, hki, hid⟩

theorem apply_ops_find_sound (a : Nat) (name : String) (k : Nat) (ops : List Op)
    (o : custom_object_callable)
    (h : ∃ i, map_find o.properties_ name = some (Int.ofNat i) ∧ k ≤ i ∧
      o.entries_[i]?.map entry.id = some name) :
    ∃ i, map_find (apply_ops a ops o).properties_ name = some (Int.ofNat i) ∧ k ≤ i ∧
      (apply_ops a ops o).entries_[i]?.map entry.id = some name := by
  induction ops generalizing o with
  | nil => exact h
  | cons op ops ih => exact ih _ (apply_op_find_sound a name k op o h)

set_option maxRecDepth 100000 in
/-- C5, counterexample: `add_property("foo", null)` on the first schema of the
sample history appends its entry at index 148; after a second
`add_property("foo", null)` on that schema, `get_slot("foo")` returns 149, the
index of the entry the second call appended, and not 148. -/
theorem readd_moves_slot :
    sample_world.heap[0]? = some sample_schema ∧
    sample_schema.entries_.length = 148 ∧
    (sample_schema.add_property "foo" none).get_slot sample_world "foo" = 148 ∧
    run sample_env [Op.add_property 0 "foo" none, Op.add_property 0 "foo" none]
      sample_world = Except.ok readded_world ∧
    readded_world.heap[0]? = some readded_schema ∧
    (readded_schema.get_entry 148).map entry.id = some "foo" ∧
    readded_schema.get_slot readded_world "foo" = 149 := by
  refine ⟨rfl, rfl, ?_, rfl, rfl, ?_, ?_⟩ <;> decide

/-- C5, amended: in every process state a client can bring about, for the
schema at any address and every name, built-in or not: after
`add_property(name, T)`
and any further calls, `get_slot(name)` on that schema returns the index of
an entry of that name appended to this schema, at or above the index of the
entry appended by the call, and never `get_key_slot(name)` of the base
registry. As long as `add_property` is not called again with the same name on
the same schema, it returns exactly the index at which the call appended its
entry (the entry count before the call), and that entry has type `T`. -/
theorem add_property_overlay_wins (env : Env) (w : World) (hr : Reachable env w) (a : Nat)
    (o : custom_object_callable) (ho : w.heap[a]? = some o) (name : String)
    (T : variant_type_ptr) (ops : List Op)
    (w2 : World) (hrun : run env (Op.add_property a name T :: ops) w = Except.ok w2) :
    ∃ o2, w2.heap[a]? = some o2 ∧
      Int.ofNat o.entries_.length ≤ o2.get_slot w2 name ∧
      (∃ e, o2.get_entry (o2.get_slot w2 name) = some e ∧ e.id = name) ∧
      o2.get_slot w2 name ≠ get_key_slot w2 name ∧
      ((∀ T2, Op.add_property a name T2 ∉ ops) →
        o2.get_slot w2 name = Int.ofNat o.entries_.length ∧
        ∃ e, o2.get_entry (o2.get_slot w2 name) = some e ∧ e.id = name ∧
          e.variant_type = T) := by
  have hinv := inv_of_reachable env w hr
  have hheap := run_heap env _ w w2 hinv hrun a o ho
  have hinv2 := run_inv env _ w w2 hinv hrun
  have hlen := baseFirst_length o (populated_of_inv w hinv a o ho).2
  rw [length_table] at hlen
  simp only [apply_ops, apply_op, if_true] at hheap
  have hlt := get_key_slot_lt w2 (populated_of_inv w2 hinv2 a _ hheap).1 name
  rw [length_table] at hlt
  obtain ⟨i, hfind, hki, hid⟩ := apply_ops_find_sound a name o.entries_.length ops
    (o.add_property name T)
    ⟨o.entries_.length, by rw [add_property_properties, map_find_assign, if_pos rfl], le_refl _,
      by rw [getElem?_add_property_new]; rfl⟩
  have hslot : (apply_ops a ops (o.add_property name T)).get_slot w2 name = Int.ofNat i := by
    unfold custom_object_callable.get_slot
    rw [hfind]
  obtain ⟨e, he, hei⟩ := Option.map_eq_some'.mp hid
  refine ⟨_, hheap, ?_, ⟨e, ?_, hei⟩, ?_, ?_⟩
  · rw [hslot]
    exact Int.ofNat_le.mpr hki
  · rw [hslot, get_entry_ofNat]
    exact he
  · rw [hslot]
    simp only [Int.ofNat_eq_coe] at hlt ⊢
    omega
  · intro hops
    have hslot2 : (apply_ops a ops (o.add_property name T)).get_slot w2 name =
        Int.ofNat o.entries_.length := by
      unfold custom_object_callable.get_slot
      rw [apply_ops_find a name ops hops, add_property_properties, map_find_assign, if_pos rfl]
    refine ⟨hslot2, entry.mk name T definition_ptr.null, ?_, rfl, rfl⟩
    rw [hslot2, get_entry_ofNat]
    apply apply_ops_getElem? a ops _ _ _ (getElem?_add_property_new o name T)
    · unfold CUSTOM_OBJECT_ME
      omega
    · unfold CUSTOM_OBJECT_SELF
      omega

/-- C5, amended, witness: the built-in name "x" added to the first schema of the
sample history, followed by other calls. -/
theorem add_property_overlay_wins_witness :
    ∃ w2, run sample_env
        [Op.add_property 0 "x" none, Op.set_object_type 0 none,
          Op.add_property 0 "y" none, Op.add_property 2 "x" none] sample_world = Except.ok w2 ∧
      ∃ o2, w2.heap[0]? = some o2 ∧
        o2.get_slot w2 "x" = Int.ofNat sample_schema.entries_.length ∧
        ∃ e, o2.get_entry (o2.get_slot w2 "x") = some e ∧ e.id = "x" ∧ e.variant_type = none :=
  ⟨_, rfl, by
    obtain ⟨o2, h1, -, -, -, h5⟩ := add_property_overlay_wins sample_env sample_world
      sample_reachable 0 sample_schema sample_schema_at "x" none
      [Op.set_object_type 0 none, Op.add_property 0 "y" none, Op.add_property 2 "x" none] _ rfl
    exact ⟨o2, h1, h5 (by intro T2; simp)⟩⟩

theorem populate_keys_keeps (es : List entry) (n : Nat) (m : List (String × Int))
    (key : String) (h : ∃ v, map_find m key = some v) :
    ∃ v, map_find (populate_keys es n m) key = some v := by
  induction es generalizing n m with
  | nil => exact h
  | cons e r ih =>
    simp only [populate_keys]
    apply ih
    rw [map_find_assign]
    split
    · exact ⟨_, rfl⟩
    · exact h

theorem populate_keys_covers (es : List entry) (n : Nat) (m : List (String × Int))
    (key : String) (h : key ∈ es.map entry.id) :
    ∃ v, map_find (populate_keys es n m) key = some v := by
  induction es generalizing n m with
  | nil => simp at h
  | cons e r ih =>
    simp only [populate_keys]
    simp only [List.map_cons, List.mem_cons] at h
    rcases h with h | h
    · apply populate_keys_keeps
      rw [map_find_assign, if_pos h]
      exact ⟨_, rfl⟩
    · exact ih _ _ h

theorem get_key_slot_builtin (w : World) (hp : Populated w) (key : String)
    (hkey : key ∈ CustomObjectProperties.map Property.id) : 0 ≤ get_key_slot w key := by
  unfold get_key_slot
  rw [hp.2]
  obtain ⟨v, hv⟩ := populate_keys_covers
    (CustomObjectProperties.map (fun p => entry.mk p.id none definition_ptr.null)) 0 [] key
    (by rw [List.map_map]; exact hkey)
  have hv2 : map_find base_keys key = some v := hv
  rw [hv2]
  rcases populate_keys_find _ 0 [] key v hv with h | h
  · simp [map_find] at h
  · show 0 ≤ v
    omega

set_option maxRecDepth 100000 in
/-- C6, counterexample: on the first schema of the sample history the
built-in name "x" resolves to its built-in slot 16; after
`add_property("x", null)` it resolves to the appended slot 148 and the entry
sequence has changed. -/
theorem add_property_builtin_not_ignored :
    "x" ∈ CustomObjectProperties.map Property.id ∧
    sample_schema.get_slot sample_world "x" = 16 ∧
    (sample_schema.add_property "x" none).get_slot sample_world "x" = 148 ∧
    (sample_schema.add_property "x" none).entries_ ≠ sample_schema.entries_ := by
  refine ⟨by decide, by decide, by decide, ?_⟩
  intro h
  have := congrArg List.length h
  rw [add_property_entries] at this
  simp at this

/-- C6, amended: `add_property` called with a name that collides with a
built-in name goes through and is not ignored. It appends an entry of that
name and type after the existing entries and records the name in the overlay:
`get_slot` of the colliding name returns the appended index, above its
built-in slot, while `get_key_slot` of every name and `get_slot` of every
other name are the same after the call as before it. -/
theorem add_property_builtin_shadows (env : Env) (w : World) (hr : Reachable env w) (a : Nat)
    (o : custom_object_callable) (ho : w.heap[a]? = some o) (name : String)
    (hname : name ∈ CustomObjectProperties.map Property.id) (T : variant_type_ptr) :
    ∃ w1 o1, step env w (Op.add_property a name T) = Except.ok w1 ∧
      w1.heap[a]? = some o1 ∧
      (∃ e, o1.entries_ = o.entries_ ++ [e] ∧ e.id = name ∧ e.variant_type = T) ∧
      o1.get_slot w1 name = Int.ofNat o.entries_.length ∧
      0 ≤ get_key_slot w1 name ∧ get_key_slot w1 name < o1.get_slot w1 name ∧
      (∀ m, get_key_slot w1 m = get_key_slot w m) ∧
      (∀ m, m ≠ name → o1.get_slot w1 m = o.get_slot w m) := by
  obtain ⟨w1, hstep, hheap, hkeys, -, -⟩ := step_add_property env w a name T o ho
  obtain ⟨hp, hb⟩ := baseFirst_of_reachable env w hr a o ho
  have hlen := baseFirst_length o hb
  have hslot : (o.add_property name T).get_slot w1 name = Int.ofNat o.entries_.length := by
    rw [get_slot_add_property, if_pos rfl]
  refine ⟨w1, _, hstep, hheap, ⟨_, add_property_entries o name T, rfl, rfl⟩, hslot, ?_, ?_,
    get_key_slot_congr w w1 hkeys, ?_⟩
  · rw [get_key_slot_congr w w1 hkeys]
    exact get_key_slot_builtin w hp name hname
  · rw [hslot, get_key_slot_congr w w1 hkeys]
    have := get_key_slot_lt w hp name
    simp only [Int.ofNat_eq_coe] at this ⊢
    omega
  · intro m hm
    rw [get_slot_add_property, if_neg hm]
    exact get_slot_congr w w1 hkeys o m

/-- C6, amended, witness: the built-in name "x" on the first schema of the
sample history. -/
theorem add_property_builtin_shadows_witness :
    ∃ w1 o1, step sample_env sample_world (Op.add_property 0 "x" none) = Except.ok w1 ∧
      w1.heap[0]? = some o1 ∧
      (∃ e, o1.entries_ = sample_schema.entries_ ++ [e] ∧ e.id = "x" ∧
        e.variant_type = none) ∧
      o1.get_slot w1 "x" = Int.ofNat sample_schema.entries_.length ∧
      0 ≤ get_key_slot w1 "x" ∧ get_key_slot w1 "x" < o1.get_slot w1 "x" ∧
      (∀ m, get_key_slot w1 m = get_key_slot sample_world m) ∧
      (∀ m, m ≠ "x" → o1.get_slot w1 m = sample_schema.get_slot sample_world m) :=
  add_property_builtin_shadows sample_env sample_world sample_reachable 0 sample_schema
    sample_schema_at "x" (by decide) none

/-! ## The base rows -/

/-- C7: in every process state reached from the start by constructions,
`instance()`, `set_object_type` and `add_property` calls, every schema has at
least as many entries as the built-in table has rows, the base registry has
exactly that many, and for every index below that number the schema's entry
and the base registry's entry at the index have the same id, the id of the
row. -/
theorem base_rows_first (env : Env) (ops : List Op) (w : World)
    (hrun : run env ops World.init = Except.ok w) (a : Nat) (o : custom_object_callable)
    (ho : w.heap[a]? = some o) :
    CustomObjectProperties.length ≤ o.entries_.length ∧
    w.global_entries.length = CustomObjectProperties.length ∧
    ∀ i, i < CustomObjectProperties.length →
      ∃ e g p, o.entries_[i]? = some e ∧ w.global_entries[i]? = some g ∧
        CustomObjectProperties[i]? = some p ∧ e.id = g.id ∧ e.id = p.id := by
  obtain ⟨hp, hb⟩ := baseFirst_of_reachable env w ⟨ops, hrun⟩ a o ho
  have hlen := baseFirst_length o hb
  have hglen : w.global_entries.length = CustomObjectProperties.length := by
    have := congrArg List.length hp.1
    simpa [base_ids] using this
  refine ⟨hlen, hglen, ?_⟩
  intro i hi
  have h1 := baseFirst_getElem? o hb i hi
  have h2 : w.global_entries[i]?.map entry.id = base_ids[i]? := by
    rw [← List.getElem?_map, hp.1]
  have h3 : base_ids[i]? = some (CustomObjectProperties[i]).id := by
    simp [base_ids, List.getElem?_map, List.getElem?_eq_getElem hi]
  rw [h3] at h1 h2
  obtain ⟨e, he, hei⟩ := Option.map_eq_some'.mp h1
  obtain ⟨g, hg, hgi⟩ := Option.map_eq_some'.mp h2
  exact ⟨e, g, CustomObjectProperties[i], he, hg, List.getElem?_eq_getElem hi,
    hei.trans hgi.symm, hei⟩

set_option maxRecDepth 100000 in
/-- C7, witness: a history with a construction, a `set_object_type`, an
`add_property` and a second construction; the schema at address 0. -/
theorem base_rows_first_witness :
    ∃ w o, run sample_env
        [Op.create false, Op.set_object_type 0 (some (variant_type.nominal "frog")),
          Op.add_property 0 "custom_field" (some variant_type.int), Op.create true]
        World.init = Except.ok w ∧ w.heap[0]? = some o ∧
      CustomObjectProperties.length ≤ o.entries_.length ∧
      w.global_entries.length = CustomObjectProperties.length ∧
      ∀ i, i < CustomObjectProperties.length →
        ∃ e g p, o.entries_[i]? = some e ∧ w.global_entries[i]? = some g ∧
          CustomObjectProperties[i]? = some p ∧ e.id = g.id ∧ e.id = p.id :=
  ⟨_, _, rfl, rfl, base_rows_first sample_env
    [Op.create false, Op.set_object_type 0 (some (variant_type.nominal "frog")),
      Op.add_property 0 "custom_field" (some variant_type.int), Op.create true] _ rfl 0 _ rfl⟩


/-! ## Several schemas -/

set_option maxRecDepth 100000 in
/-- C8, counterexample: two schemas built from the same base registry, the
first of which has been given the built-in name "x" as a custom property,
resolve "x" to different slots (148 and 16). -/
theorem builtin_slot_differs_when_shadowed :
    "x" ∈ CustomObjectProperties.map Property.id ∧
    run sample_env (sample_ops ++ [Op.add_property 0 "x" none]) World.init =
      Except.ok shadowed_world ∧
    shadowed_world.heap[0]? = some shadowing_schema ∧
    shadowed_world.heap[2]? = some other_schema ∧
    shadowing_schema.get_slot shadowed_world "x" = 148 ∧
    other_schema.get_slot shadowed_world "x" = 16 ∧
    shadowing_schema.get_slot shadowed_world "x" ≠ other_schema.get_slot shadowed_world "x" := by
  refine ⟨by decide, rfl, rfl, rfl, by decide, by decide, by decide⟩

/-- C8, amended: in every process state a client can bring about, for any two
schemas A and B and every built-in name `n` that is a key of neither
schema's overlay map (it has not been passed to `add_property` on A or B),
`get_slot(A, n) = get_slot(B, n)`: both are the built-in slot
`get_key_slot(n)`, a slot below the number of rows. -/
theorem builtin_slots_agree (env : Env) (w : World) (hr : Reachable env w) (a b : Nat)
    (A B : custom_object_callable) (hA : w.heap[a]? = some A) (_hB : w.heap[b]? = some B)
    (n : String) (hn : n ∈ CustomObjectProperties.map Property.id)
    (hAn : map_find A.properties_ n = none) (hBn : map_find B.properties_ n = none) :
    A.get_slot w n = B.get_slot w n ∧ A.get_slot w n = get_key_slot w n ∧
    0 ≤ get_key_slot w n ∧ get_key_slot w n < Int.ofNat CustomObjectProperties.length := by
  obtain ⟨hp, -⟩ := baseFirst_of_reachable env w hr a A hA
  have h1 : A.get_slot w n = get_key_slot w n := by
    unfold custom_object_callable.get_slot
    rw [hAn]
  have h2 : B.get_slot w n = get_key_slot w n := by
    unfold custom_object_callable.get_slot
    rw [hBn]
  exact ⟨h1.trans h2.symm, h1, get_key_slot_builtin w hp n hn, get_key_slot_lt w hp n⟩

set_option maxRecDepth 100000 in
/-- C8, amended, witness: the built-in name "me" on the two schemas of the
process in which the first has "x" as a custom property. -/
theorem builtin_slots_agree_witness :
    shadowing_schema.get_slot shadowed_world "me" = other_schema.get_slot shadowed_world "me" ∧
    shadowing_schema.get_slot shadowed_world "me" = get_key_slot shadowed_world "me" ∧
    0 ≤ get_key_slot shadowed_world "me" ∧
    get_key_slot shadowed_world "me" < Int.ofNat CustomObjectProperties.length :=
  builtin_slots_agree sample_env shadowed_world
    ⟨sample_ops ++ [Op.add_property 0 "x" none], rfl⟩ 0 2 shadowing_schema other_schema
    rfl rfl "me" (by decide) (by decide) (by decide)

/-- C9: for any two distinct addresses `a` and `b`, the schema B at `b`,
every name and type passed to `add_property` on the schema at `a`, every name
`m` and every integer `s`: the call goes through and `get_slot(B, m)` and
`get_entry(B, s)` return after it what they returned before it. -/
theorem add_property_no_leak (env : Env) (w : World) (a b : Nat) (hab : b ≠ a)
    (B : custom_object_callable) (hB : w.heap[b]? = some B) (name : String)
    (T : variant_type_ptr) :
    ∃ w1 B1, step env w (Op.add_property a name T) = Except.ok w1 ∧
      w1.heap[b]? = some B1 ∧
      (∀ m, B1.get_slot w1 m = B.get_slot w m) ∧
      (∀ s, B1.get_entry s = B.get_entry s) := by
  refine ⟨_, B, rfl, ?_, ?_, fun _ => rfl⟩
  · rw [← hB]
    exact getElem?_update_at_ne _ _ _ _ hab
  · intro m
    exact get_slot_congr w _ rfl B m

/-- C9, witness: `add_property` on the first schema of the sample history,
seen from the second. -/
theorem add_property_no_leak_witness :
    ∃ w1 B1, step sample_env sample_world
        (Op.add_property 0 "custom_field" (some variant_type.int)) = Except.ok w1 ∧
      w1.heap[2]? = some B1 ∧
      (∀ m, B1.get_slot w1 m = other_schema.get_slot sample_world m) ∧
      (∀ s, B1.get_entry s = other_schema.get_entry s) :=
  add_property_no_leak sample_env sample_world 0 2 (by decide) other_schema other_schema_at
    "custom_field" (some variant_type.int)


/-! ## Rebinding the object type -/

set_option maxRecDepth 100000 in
theorem base_keys_me : map_find base_keys "me" = some (Int.ofNat CUSTOM_OBJECT_ME) := rfl

set_option maxRecDepth 100000 in
theorem base_keys_self : map_find base_keys "self" = some (Int.ofNat CUSTOM_OBJECT_SELF) :=
  rfl

set_option maxRecDepth 100000 in
theorem base_ids_me : base_ids[CUSTOM_OBJECT_ME]? = some "me" := rfl

set_option maxRecDepth 100000 in
theorem base_ids_self : base_ids[CUSTOM_OBJECT_SELF]? = some "self" := rfl

theorem get_key_slot_me (w : World) (hp : Populated w) :
    get_key_slot w "me" = Int.ofNat CUSTOM_OBJECT_ME := by
  unfold get_key_slot
  rw [hp.2, base_keys_me]

theorem get_key_slot_self (w : World) (hp : Populated w) :
    get_key_slot w "self" = Int.ofNat CUSTOM_OBJECT_SELF := by
  unfold get_key_slot
  rw [hp.2, base_keys_self]

theorem set_object_type_entry (o : custom_object_callable) (hb : BaseFirst o)
    (T : variant_type_ptr) (k : Nat) (name : String)
    (hk : k = CUSTOM_OBJECT_ME ∨ k = CUSTOM_OBJECT_SELF) (hname : base_ids[k]? = some name) :
    ∃ e, (o.set_object_type T).get_entry (Int.ofNat k) = some e ∧ e.id = name ∧
      e.variant_type = T := by
  have hlt : k < CustomObjectProperties.length := by
    rw [length_table]
    rcases hk with hk | hk <;> rw [hk] <;> decide
  have h1 := baseFirst_getElem? o hb k hlt
  rw [hname] at h1
  obtain ⟨e0, he0, hid⟩ := Option.map_eq_some'.mp h1
  refine ⟨e0.set_variant_type T, ?_, hid, rfl⟩
  rw [get_entry_ofNat, set_object_type_getElem?, if_pos hk, he0]
  rfl

/-- C10: in every process state a client can bring about, for the schema at
any address and every type `T`: `set_object_type(T)` goes through; afterwards
the entry at the slot of "me" and the entry at the slot of "self" (the slots
`get_key_slot` gives these names, `CUSTOM_OBJECT_ME` and `CUSTOM_OBJECT_SELF`)
are the entries of these names with type `T`, and `get_slot` returns for
every name, "me" and "self" among them, the index it returned before. On a
schema that has not been given "me" or "self" as a custom property these
indices are the two built-in slots. -/
theorem set_object_type_rebinds (env : Env) (w : World) (hr : Reachable env w) (a : Nat)
    (o : custom_object_callable) (ho : w.heap[a]? = some o) (T : variant_type_ptr) :
    ∃ w1 o1, step env w (Op.set_object_type a T) = Except.ok w1 ∧
      w1.heap[a]? = some o1 ∧
      get_key_slot w1 "me" = Int.ofNat CUSTOM_OBJECT_ME ∧
      get_key_slot w1 "self" = Int.ofNat CUSTOM_OBJECT_SELF ∧
      (∃ e, o1.get_entry (get_key_slot w1 "me") = some e ∧ e.id = "me" ∧
        e.variant_type = T) ∧
      (∃ e, o1.get_entry (get_key_slot w1 "self") = some e ∧ e.id = "self" ∧
        e.variant_type = T) ∧
      (∀ name, o1.get_slot w1 name = o.get_slot w name) ∧
      (map_find o.properties_ "me" = none → o1.get_slot w1 "me" = get_key_slot w1 "me") ∧
      (map_find o.properties_ "self" = none →
        o1.get_slot w1 "self" = get_key_slot w1 "self") := by
  obtain ⟨w1, hstep, hheap, hkeys, -, -⟩ := step_set_object_type env w a T o ho
  obtain ⟨hp, hb⟩ := baseFirst_of_reachable env w hr a o ho
  have hme : get_key_slot w1 "me" = Int.ofNat CUSTOM_OBJECT_ME := by
    rw [get_key_slot_congr w w1 hkeys]
    exact get_key_slot_me w hp
  have hself : get_key_slot w1 "self" = Int.ofNat CUSTOM_OBJECT_SELF := by
    rw [get_key_slot_congr w w1 hkeys]
    exact get_key_slot_self w hp
  refine ⟨w1, _, hstep, hheap, hme, hself, ?_, ?_, ?_, ?_, ?_⟩
  · rw [hme]
    exact set_object_type_entry o hb T _ "me" (Or.inl rfl) base_ids_me
  · rw [hself]
    exact set_object_type_entry o hb T _ "self" (Or.inr rfl) base_ids_self
  · intro name
    rw [get_slot_congr w w1 hkeys]
    rfl
  · intro h
    unfold custom_object_callable.get_slot
    rw [set_object_type_properties, h]
  · intro h
    unfold custom_object_callable.get_slot
    rw [set_object_type_properties, h]

set_option maxRecDepth 100000 in
/-- C10, witness: the first schema of the sample history rebound to a
nominal type. -/
theorem set_object_type_rebinds_witness :
    ∃ w1 o1, step sample_env sample_world
        (Op.set_object_type 0 (some (variant_type.nominal "frog"))) = Except.ok w1 ∧
      w1.heap[0]? = some o1 ∧
      get_key_slot w1 "me" = Int.ofNat CUSTOM_OBJECT_ME ∧
      get_key_slot w1 "self" = Int.ofNat CUSTOM_OBJECT_SELF ∧
      (∃ e, o1.get_entry (get_key_slot w1 "me") = some e ∧ e.id = "me" ∧
        e.variant_type = some (variant_type.nominal "frog")) ∧
      (∃ e, o1.get_entry (get_key_slot w1 "self") = some e ∧ e.id = "self" ∧
        e.variant_type = some (variant_type.nominal "frog")) ∧
      (∀ name, o1.get_slot w1 name = sample_schema.get_slot sample_world name) ∧
      o1.get_slot w1 "me" = get_key_slot w1 "me" ∧
      o1.get_slot w1 "self" = get_key_slot w1 "self" := by
  obtain ⟨w1, o1, h1, h2, h3, h4, h5, h6, h7, h8, h9⟩ :=
    set_object_type_rebinds sample_env sample_world sample_reachable 0 sample_schema
      sample_schema_at (some (variant_type.nominal "frog"))
  exact ⟨w1, o1, h1, h2, h3, h4, h5, h6, h7, h8 (by decide), h9 (by decide)⟩


/-! ## The constructor, phase by phase -/

theorem construct_unfold (env : Env) (get_instance : World → Except Fatal (Nat × World))
    (is_singleton : Bool) (w : World) :
    custom_object_callable.construct env get_instance is_singleton w =
      if env.NUM_CUSTOM_OBJECT_PROPERTIES ≠ CustomObjectProperties.length then
        Except.error Fatal.count_mismatch
      else
        match populate_globals env (construct_begin is_singleton w) with
        | Except.error f => Except.error f
        | Except.ok wg =>
          match (if is_singleton then Except.ok (w.heap.length, wg) else get_instance wg) with
          | Except.error f => Except.error f
          | Except.ok (parent, w2) =>
            Except.ok (w.heap.length, construct_end env w.heap.length parent w2) := by
  cases is_singleton <;> rfl

/-- Success of the constructor, phase by phase. -/
theorem construct_phases (env : Env) (get_instance : World → Except Fatal (Nat × World))
    (is_singleton : Bool) (w w1 : World) (a : Nat)
    (h : custom_object_callable.construct env get_instance is_singleton w = Except.ok (a, w1)) :
    env.NUM_CUSTOM_OBJECT_PROPERTIES = CustomObjectProperties.length ∧ a = w.heap.length ∧
    ∃ wg parent w2, populate_globals env (construct_begin is_singleton w) = Except.ok wg ∧
      (if is_singleton then Except.ok (w.heap.length, wg) else get_instance wg) =
        Except.ok (parent, w2) ∧
      w1 = construct_end env w.heap.length parent w2 := by
  rw [construct_unfold] at h
  split at h
  · cases h
  · rename_i hnum
    split at h
    · cases h
    · rename_i wg hwg
      split at h
      · cases h
      · rename_i parent w2 hcall
        simp only [Except.ok.injEq, Prod.mk.injEq] at h
        exact ⟨by simpa using hnum, h.1.symm, wg, parent, w2, hwg, hcall, h.2.symm⟩

theorem populate_globals_of_ne_nil (env : Env) (w : World) (h : w.global_entries ≠ []) :
    populate_globals env w = Except.ok w := by
  unfold populate_globals
  have : w.global_entries.isEmpty = false := by
    cases hg : w.global_entries with
    | nil => exact absurd hg h
    | cons e r => rfl
  rw [this]
  rfl

theorem populate_globals_frame (env : Env) (w w1 : World)
    (h : populate_globals env w = Except.ok w1) :
    w1.heap = w.heap ∧ w1.instance_ptr = w.instance_ptr ∧ w1.obj = w.obj := by
  unfold populate_globals at h
  split at h
  · split at h
    · cases h
    · simp only [Except.ok.injEq] at h
      subst h
      exact ⟨rfl, rfl, rfl⟩
  · simp only [Except.ok.injEq] at h
    subst h
    exact ⟨rfl, rfl, rfl⟩

theorem populate_entries_error (env : Env) (rows : List Property) (acc : List entry)
    (f : Fatal) (h : populate_entries env rows acc = Except.error f) :
    ∃ s, f = Fatal.malformed_type s := by
  induction rows generalizing acc with
  | nil => cases h
  | cons p rows ih =>
    simp only [populate_entries] at h
    split at h
    · simp only [Except.error.injEq] at h
      exact ⟨_, h.symm⟩
    · exact ih _ h

theorem populate_globals_error (env : Env) (w : World) (f : Fatal)
    (h : populate_globals env w = Except.error f) : ∃ s, f = Fatal.malformed_type s := by
  unfold populate_globals at h
  split at h
  · split at h
    · rename_i f1 hf1
      simp only [Except.error.injEq] at h
      subst h
      exact populate_entries_error env _ _ _ hf1
    · cases h
  · cases h


theorem construct_end_global_ne_nil (env : Env) (this_ parent : Nat) (w : World)
    (h : w.global_entries ≠ []) : (construct_end env this_ parent w).global_entries ≠ [] := by
  intro hc
  have hl := congrArg List.length hc
  simp only [construct_end, length_update_at, List.length_nil] at hl
  exact h (List.length_eq_zero.mp hl)

theorem construct_begin_globals (is_singleton : Bool) (w : World) :
    (construct_begin is_singleton w).global_entries = w.global_entries ∧
    (construct_begin is_singleton w).keys_to_slots = w.keys_to_slots ∧
    (construct_begin is_singleton w).obj = w.obj := by
  cases is_singleton <;> exact ⟨rfl, rfl, rfl⟩

/-- A construction on a populated registry does not write the name-to-slot
map, whatever the call standing for `instance()` is, as long as that call
does not. -/
theorem construct_keys (env : Env) (get_instance : World → Except Fatal (Nat × World))
    (is_singleton : Bool) (w w1 : World) (a : Nat) (hne : w.global_entries ≠ [])
    (hcall : ∀ wg p w2, wg.global_entries ≠ [] → get_instance wg = Except.ok (p, w2) →
      w2.keys_to_slots = wg.keys_to_slots ∧ w2.global_entries ≠ [])
    (h : custom_object_callable.construct env get_instance is_singleton w = Except.ok (a, w1)) :
    w1.keys_to_slots = w.keys_to_slots ∧ w1.global_entries ≠ [] := by
  obtain ⟨-, -, wg, parent, w2, hwg, hcallres, hw1⟩ :=
    construct_phases env get_instance is_singleton w w1 a h
  have hb := construct_begin_globals is_singleton w
  have hne0 : (construct_begin is_singleton w).global_entries ≠ [] := by
    rw [hb.1]
    exact hne
  rw [populate_globals_of_ne_nil env _ hne0] at hwg
  simp only [Except.ok.injEq] at hwg
  subst hwg
  have key : w2.keys_to_slots = w.keys_to_slots ∧ w2.global_entries ≠ [] := by
    cases is_singleton with
    | true =>
      simp only [if_true, Except.ok.injEq, Prod.mk.injEq] at hcallres
      rw [← hcallres.2]
      exact ⟨hb.2.1, hne0⟩
    | false =>
      simp only [Bool.false_eq_true, if_false] at hcallres
      obtain ⟨h1, h2⟩ := hcall _ _ _ hne0 hcallres
      exact ⟨h1.trans hb.2.1, h2⟩
  subst hw1
  exact ⟨key.1, construct_end_global_ne_nil env _ _ _ key.2⟩

theorem instance_keys (env : Env) (w w1 : World) (p : Nat) (hne : w.global_entries ≠ [])
    (h : custom_object_callable.instance_ env w = Except.ok (p, w1)) :
    w1.keys_to_slots = w.keys_to_slots ∧ w1.global_entries ≠ [] := by
  unfold custom_object_callable.instance_ at h
  split at h
  · simp only [Except.ok.injEq, Prod.mk.injEq] at h
    rw [← h.2]
    exact ⟨rfl, hne⟩
  · split at h
    · simp only [Except.ok.injEq, Prod.mk.injEq] at h
      rw [← h.2]
      exact ⟨rfl, hne⟩
    · split at h
      · cases h
      · rename_i o w3 hnew
        simp only [Except.ok.injEq, Prod.mk.injEq] at h
        rw [← h.2]
        exact construct_keys env _ true w w3 o hne
          (fun wg p w2 hg hc => by
            simp only [Except.ok.injEq, Prod.mk.injEq] at hc
            rw [← hc.2]
            exact ⟨rfl, hg⟩) hnew

theorem step_keys (env : Env) (w w1 : World) (op : Op) (hne : w.global_entries ≠ [])
    (h : step env w op = Except.ok w1) :
    w1.keys_to_slots = w.keys_to_slots ∧ w1.global_entries ≠ [] := by
  cases op with
  | create b =>
    simp only [step] at h
    split at h
    · cases h
    · rename_i a w2 hnew
      simp only [Except.ok.injEq] at h
      subst h
      exact construct_keys env _ b w w2 a hne
        (fun wg p w3 hg hc => instance_keys env wg w3 p hg hc) hnew
  | get_instance =>
    simp only [step] at h
    split at h
    · cases h
    · rename_i a w2 hnew
      simp only [Except.ok.injEq] at h
      subst h
      exact instance_keys env w w2 a hne hnew
  | set_object_type self type =>
    simp only [step, Except.ok.injEq] at h
    subst h
    exact ⟨rfl, hne⟩
  | add_property self id type =>
    simp only [step, Except.ok.injEq] at h
    subst h
    exact ⟨rfl, hne⟩

/-! ## The frame of `set_object_type` and the stability of the slots -/

/-- C11: `set_object_type(T)` on the schema at an address changes nothing but
the type of that schema's own "me" and "self" entries: these two entries
become what `set_variant_type(T)` makes of them, every other entry of the
schema, the id and nested definition of every entry, the entry count, the
overlay map and the type name are unchanged, and so are the base registry,
the name-to-slot map, the singleton pointers and every other schema. -/
theorem set_object_type_frame (env : Env) (w : World) (a : Nat)
    (o : custom_object_callable) (ho : w.heap[a]? = some o) (T : variant_type_ptr) :
    ∃ w1 o1, step env w (Op.set_object_type a T) = Except.ok w1 ∧
      w1.heap[a]? = some o1 ∧
      o1.entries_[CUSTOM_OBJECT_ME]? =
        o.entries_[CUSTOM_OBJECT_ME]?.map (fun e => e.set_variant_type T) ∧
      o1.entries_[CUSTOM_OBJECT_SELF]? =
        o.entries_[CUSTOM_OBJECT_SELF]?.map (fun e => e.set_variant_type T) ∧
      (∀ j, j ≠ CUSTOM_OBJECT_ME → j ≠ CUSTOM_OBJECT_SELF →
        o1.entries_[j]? = o.entries_[j]?) ∧
      o1.entries_.map entry.id = o.entries_.map entry.id ∧
      o1.entries_.map entry.type_definition = o.entries_.map entry.type_definition ∧
      o1.entries_.length = o.entries_.length ∧
      o1.properties_ = o.properties_ ∧ o1.type_name = o.type_name ∧
      w1.global_entries = w.global_entries ∧ w1.keys_to_slots = w.keys_to_slots ∧
      w1.instance_ptr = w.instance_ptr ∧ w1.obj = w.obj ∧
      w1.heap.length = w.heap.length ∧
      (∀ b, b ≠ a → w1.heap[b]? = w.heap[b]?) := by
  refine ⟨_, o.set_object_type T, rfl, ?_, ?_, ?_, ?_, set_object_type_ids o T, ?_,
    set_object_type_length o T, rfl, rfl, rfl, rfl, rfl, rfl, ?_, ?_⟩
  · simp [getElem?_update_at_self, ho]
  · rw [set_object_type_getElem?, if_pos (Or.inl rfl)]
  · rw [set_object_type_getElem?, if_pos (Or.inr rfl)]
  · intro j h1 h2
    rw [set_object_type_getElem?, if_neg (by simp [h1, h2])]
  · unfold custom_object_callable.set_object_type
    simp only []
    rw [map_update_at entry.type_definition (fun e => e.set_variant_type T) (fun _ => rfl),
      map_update_at entry.type_definition (fun e => e.set_variant_type T) (fun _ => rfl)]
  · exact length_update_at _ _ _
  · intro b hb
    exact getElem?_update_at_ne _ _ _ _ hb

/-- C11, witness: `set_object_type` on the first schema of the sample
history; the second schema, at address 2, is untouched. -/
theorem set_object_type_frame_witness :
    ∃ w1, step sample_env sample_world
        (Op.set_object_type 0 (some (variant_type.nominal "frog"))) = Except.ok w1 ∧
      w1.global_entries = sample_world.global_entries ∧
      w1.heap[2]? = some other_schema := by
  obtain ⟨w1, o1, h1, -, -, -, -, -, -, -, -, -, h2, -, -, -, -, h3⟩ :=
    set_object_type_frame sample_env sample_world 0 sample_schema sample_schema_at
      (some (variant_type.nominal "frog"))
  exact ⟨w1, h1, h2, (h3 2 (by decide)).trans other_schema_at⟩

/-- C12: once the base registry has been populated (`global_entries()` is not
empty), no sequence of calls (constructions, singleton or not, `instance()`,
`set_object_type`, `add_property` on any schema) writes the name-to-slot map:
`get_key_slot(name)` returns for every name after the calls what it returned
before them. -/
theorem get_key_slot_stable (env : Env) (w : World) (hne : w.global_entries ≠ [])
    (ops : List Op) (w2 : World) (hrun : run env ops w = Except.ok w2) :
    w2.keys_to_slots = w.keys_to_slots ∧ w2.global_entries ≠ [] ∧
    ∀ name, get_key_slot w2 name = get_key_slot w name := by
  induction ops generalizing w with
  | nil =>
    simp only [run, Except.ok.injEq] at hrun
    subst hrun
    exact ⟨rfl, hne, fun _ => rfl⟩
  | cons op ops ih =>
    simp only [run] at hrun
    split at hrun
    · cases hrun
    · rename_i w1 hstep
      obtain ⟨hk, hn⟩ := step_keys env w w1 op hne hstep
      obtain ⟨h1, h2, h3⟩ := ih w1 hn hrun
      exact ⟨h1.trans hk, h2, fun name => (h3 name).trans (get_key_slot_congr w w1 hk name)⟩

set_option maxRecDepth 100000 in
/-- C12, witness: further calls of every kind after the sample history. -/
theorem get_key_slot_stable_witness :
    ∃ w2, run sample_env
        [Op.create true, Op.add_property 0 "x" none, Op.get_instance,
          Op.set_object_type 2 none, Op.create false] sample_world = Except.ok w2 ∧
      w2.keys_to_slots = sample_world.keys_to_slots ∧ w2.global_entries ≠ [] ∧
      ∀ name, get_key_slot w2 name = get_key_slot sample_world name :=
  ⟨_, rfl, get_key_slot_stable sample_env sample_world (by decide)
    [Op.create true, Op.add_property 0 "x" none, Op.get_instance,
      Op.set_object_type 2 none, Op.create false] _ rfl⟩


/-! ## Slots are positions -/

theorem populate_keys_not_mem (es : List entry) (n : Nat) (m : List (String × Int))
    (key : String) (h : key ∉ es.map entry.id) :
    map_find (populate_keys es n m) key = map_find m key := by
  induction es generalizing n m with
  | nil => rfl
  | cons e r ih =>
    simp only [List.map_cons, List.mem_cons, not_or] at h
    simp only [populate_keys]
    rw [ih _ _ h.2, map_find_assign, if_neg h.1]

theorem populate_keys_getElem (es : List entry) (n : Nat) (m : List (String × Int))
    (hnd : (es.map entry.id).Nodup) (i : Nat) (e : entry) (hi : es[i]? = some e) :
    map_find (populate_keys es n m) e.id = some (Int.ofNat (n + i)) := by
  induction es generalizing n m i with
  | nil => simp at hi
  | cons e0 r ih =>
    simp only [List.map_cons, List.nodup_cons] at hnd
    simp only [populate_keys]
    cases i with
    | zero =>
      simp only [List.getElem?_cons_zero, Option.some.injEq] at hi
      subst hi
      rw [populate_keys_not_mem _ _ _ _ hnd.1, map_find_assign, if_pos rfl]
      rfl
    | succ j =>
      simp only [List.getElem?_cons_succ] at hi
      rw [ih (n + 1) _ hnd.2 j hi]
      congr 2
      omega

set_option maxRecDepth 100000 in
theorem base_ids_nodup : base_ids.Nodup := by decide

theorem base_keys_getElem (i : Nat) (p : Property) (h : CustomObjectProperties[i]? = some p) :
    map_find base_keys p.id = some (Int.ofNat i) := by
  have h1 := populate_keys_getElem
    (CustomObjectProperties.map (fun p => entry.mk p.id none definition_ptr.null)) 0 []
    (by rw [List.map_map]; exact base_ids_nodup) i (entry.mk p.id none definition_ptr.null)
    (by rw [List.getElem?_map, h]; rfl)
  rw [Nat.zero_add] at h1
  exact h1

theorem base_keys_not_mem (name : String) (h : name ∉ base_ids) :
    map_find base_keys name = none :=
  populate_keys_not_mem _ 0 [] name (by rw [List.map_map]; exact h)

/-- C13: in every process state a client can bring about, for a schema with
no custom properties and for the static `get_key_slot`: the ids of the rows
of the built-in table are pairwise distinct; for every row index `i`,
resolving the id of row `i` returns exactly `i`; and for every name that is
the id of no row the result is -1, no slot. -/
theorem builtin_slot_is_position (env : Env) (w : World) (hr : Reachable env w) (a : Nat)
    (o : custom_object_callable) (ho : w.heap[a]? = some o) (hprops : o.properties_ = []) :
    (CustomObjectProperties.map Property.id).Nodup ∧
    (∀ i p, CustomObjectProperties[i]? = some p →
      get_key_slot w p.id = Int.ofNat i ∧ o.get_slot w p.id = Int.ofNat i) ∧
    (∀ name, name ∉ CustomObjectProperties.map Property.id →
      get_key_slot w name = -1 ∧ o.get_slot w name = -1) := by
  obtain ⟨hp, -⟩ := baseFirst_of_reachable env w hr a o ho
  have hslot : ∀ name, o.get_slot w name = get_key_slot w name := by
    intro name
    unfold custom_object_callable.get_slot
    rw [hprops]
    rfl
  refine ⟨base_ids_nodup, ?_, ?_⟩
  · intro i p hip
    have hk : get_key_slot w p.id = Int.ofNat i := by
      unfold get_key_slot
      rw [hp.2, base_keys_getElem i p hip]
    exact ⟨hk, (hslot p.id).trans hk⟩
  · intro name hname
    have hk : get_key_slot w name = -1 := by
      unfold get_key_slot
      rw [hp.2, base_keys_not_mem name hname]
    exact ⟨hk, (hslot name).trans hk⟩

set_option maxRecDepth 100000 in
/-- C13, witness: on the first schema of the sample history "value" resolves
to slot 0, "x" to slot 16 and "nonexistent_attr" to no slot. -/
theorem builtin_slot_is_position_witness :
    sample_schema.get_slot sample_world "value" = 0 ∧
    get_key_slot sample_world "value" = 0 ∧
    sample_schema.get_slot sample_world "x" = 16 ∧
    sample_schema.get_slot sample_world "nonexistent_attr" = -1 ∧
    get_key_slot sample_world "nonexistent_attr" = -1 := by
  obtain ⟨-, h1, h2⟩ := builtin_slot_is_position sample_env sample_world sample_reachable 0
    sample_schema sample_schema_at rfl
  exact ⟨(h1 0 (Property.mk "value" "any") rfl).2, (h1 0 (Property.mk "value" "any") rfl).1,
    (h1 16 (Property.mk "x" "int") rfl).2,
    (h2 "nonexistent_attr" (by decide)).2, (h2 "nonexistent_attr" (by decide)).1⟩


/-! ## The types of the built-in entries -/

theorem populate_entries_types (env : Env) (rows : List Property) (acc es : List entry)
    (h : populate_entries env rows acc = Except.ok es) :
    es.map entry.variant_type =
      acc.map entry.variant_type ++ rows.map (fun p => env.parse_variant_type p.type) := by
  induction rows generalizing acc with
  | nil =>
    simp only [populate_entries, Except.ok.injEq] at h
    simp [h]
  | cons p rows ih =>
    simp only [populate_entries] at h
    split at h
    · cases h
    · rename_i t ht
      have := ih _ h
      simp [this, entry.set_variant_type, ht]

theorem getElem?_update_at_type (l : List entry) (k i : Nat) (f : entry → entry)
    (hf : ∀ e, (f e).variant_type = e.variant_type) :
    (update_at l k f)[i]?.map entry.variant_type = l[i]?.map entry.variant_type := by
  rw [getElem?_update_at]
  split
  · cases l[i]? with
    | none => rfl
    | some e => simp [hf]
  · rfl

theorem construct_end_typed (env : Env) (this_ parent : Nat) (w : World)
    (h : Typed env w) : Typed env (construct_end env this_ parent w) := by
  intro i p hip
  have h1 := getElem?_update_at_type w.global_entries CUSTOM_OBJECT_PARENT i
    (fun e => { e with type_definition := definition_ptr.callable parent }) (fun _ => rfl)
  have h2 := getElem?_update_at_type
    (update_at w.global_entries CUSTOM_OBJECT_PARENT
      (fun e => { e with type_definition := definition_ptr.callable parent }))
    CUSTOM_OBJECT_LIB i
    (fun e => { e with type_definition := env.get_library_definition }) (fun _ => rfl)
  exact (h2.trans h1).trans (h i p hip)

theorem construct_begin_typed (env : Env) (is_singleton : Bool) (w : World)
    (h : w.global_entries = [] ∨ Typed env w) :
    (construct_begin is_singleton w).global_entries = [] ∨
      Typed env (construct_begin is_singleton w) := by
  cases is_singleton <;> exact h

theorem populate_globals_typed (env : Env) (w w1 : World)
    (hw : w.global_entries = [] ∨ Typed env w)
    (h : populate_globals env w = Except.ok w1) : Typed env w1 := by
  by_cases hne : w.global_entries = []
  · unfold populate_globals at h
    rw [hne] at h
    simp only [List.isEmpty_nil, if_true] at h
    split at h
    · cases h
    · rename_i es hes
      simp only [Except.ok.injEq] at h
      subst h
      have htypes := populate_entries_types env _ _ _ hes
      simp only [List.map_nil, List.nil_append] at htypes
      intro i p hip
      have hbase : es[i]?.map entry.variant_type = some (env.parse_variant_type p.type) := by
        rw [← List.getElem?_map, htypes, List.getElem?_map, hip]
        rfl
      obtain ⟨e, he, hev⟩ := Option.map_eq_some'.mp hbase
      simp only [getElem?_update_at, he, builtin_type]
      have d1 : ¬ CUSTOM_OBJECT_LEVEL = CUSTOM_OBJECT_ME := by decide
      have d2 : ¬ CUSTOM_OBJECT_LEVEL = CUSTOM_OBJECT_SELF := by decide
      have d3 : ¬ CUSTOM_OBJECT_SELF = CUSTOM_OBJECT_ME := by decide
      have d4 : ¬ CUSTOM_OBJECT_SELF = CUSTOM_OBJECT_LEVEL := by decide
      have d5 : ¬ CUSTOM_OBJECT_ME = CUSTOM_OBJECT_SELF := by decide
      have d6 : ¬ CUSTOM_OBJECT_ME = CUSTOM_OBJECT_LEVEL := by decide
      by_cases h1 : i = CUSTOM_OBJECT_LEVEL
      · subst h1
        simp [d1, d2, entry.set_variant_type]
      · by_cases h2 : i = CUSTOM_OBJECT_SELF
        · subst h2
          simp [d3, d4, entry.set_variant_type]
        · by_cases h3 : i = CUSTOM_OBJECT_ME
          · subst h3
            simp [d5, d6, entry.set_variant_type]
          · simp [h1, h2, h3, hev]
  · rw [populate_globals_of_ne_nil env w hne] at h
    simp only [Except.ok.injEq] at h
    subst h
    rcases hw with hw | hw
    · exact absurd hw hne
    · exact hw

theorem construct_typed (env : Env) (get_instance : World → Except Fatal (Nat × World))
    (is_singleton : Bool) (w w1 : World) (a : Nat)
    (hw : w.global_entries = [] ∨ Typed env w)
    (hcall : ∀ wg p w2, Typed env wg → get_instance wg = Except.ok (p, w2) → Typed env w2)
    (h : custom_object_callable.construct env get_instance is_singleton w = Except.ok (a, w1)) :
    Typed env w1 := by
  obtain ⟨-, -, wg, parent, w2, hwg, hcallres, hw1⟩ :=
    construct_phases env get_instance is_singleton w w1 a h
  have hg := populate_globals_typed env _ wg (construct_begin_typed env is_singleton w hw) hwg
  have h2 : Typed env w2 := by
    cases is_singleton with
    | true =>
      simp only [if_true, Except.ok.injEq, Prod.mk.injEq] at hcallres
      rw [← hcallres.2]
      exact hg
    | false =>
      simp only [Bool.false_eq_true, if_false] at hcallres
      exact hcall _ _ _ hg hcallres
  subst hw1
  exact construct_end_typed env _ _ _ h2

theorem instance_typed (env : Env) (w w1 : World) (p : Nat)
    (hw : w.global_entries = [] ∨ Typed env w)
    (h : custom_object_callable.instance_ env w = Except.ok (p, w1)) :
    w1.global_entries = [] ∨ Typed env w1 := by
  unfold custom_object_callable.instance_ at h
  split at h
  · simp only [Except.ok.injEq, Prod.mk.injEq] at h
    rw [← h.2]
    exact hw
  · split at h
    · simp only [Except.ok.injEq, Prod.mk.injEq] at h
      rw [← h.2]
      exact hw
    · split at h
      · cases h
      · rename_i o w3 hnew
        simp only [Except.ok.injEq, Prod.mk.injEq] at h
        rw [← h.2]
        right
        exact construct_typed env _ true w w3 o hw
          (fun wg p w2 hg hc => by
            simp only [Except.ok.injEq, Prod.mk.injEq] at hc
            rw [← hc.2]
            exact hg) hnew

set_option maxRecDepth 100000 in
theorem table_head : CustomObjectProperties[0]? = some (Property.mk "value" "any") := rfl

theorem typed_ne_nil (env : Env) (w : World) (h : Typed env w) : w.global_entries ≠ [] := by
  intro hnil
  have h0 := h 0 _ table_head
  rw [hnil] at h0
  simp at h0

theorem new_typed (env : Env) (is_singleton : Bool) (w w1 : World) (a : Nat)
    (hw : w.global_entries = [] ∨ Typed env w)
    (h : custom_object_callable.new env is_singleton w = Except.ok (a, w1)) : Typed env w1 :=
  construct_typed env _ is_singleton w w1 a hw
    (fun wg p w2 hg hc => by
      rcases instance_typed env wg w2 p (Or.inr hg) hc with h1 | h1
      · exact absurd h1 (instance_keys env wg w2 p (typed_ne_nil env wg hg) hc).2
      · exact h1) h

theorem step_typed (env : Env) (w w1 : World) (op : Op)
    (hw : w.global_entries = [] ∨ Typed env w) (h : step env w op = Except.ok w1) :
    w1.global_entries = [] ∨ Typed env w1 := by
  cases op with
  | create b =>
    simp only [step] at h
    split at h
    · cases h
    · rename_i a w2 hnew
      simp only [Except.ok.injEq] at h
      subst h
      exact Or.inr (new_typed env b w w2 a hw hnew)
  | get_instance =>
    simp only [step] at h
    split at h
    · cases h
    · rename_i a w2 hnew
      simp only [Except.ok.injEq] at h
      subst h
      exact instance_typed env w w2 a hw hnew
  | set_object_type self type =>
    simp only [step, Except.ok.injEq] at h
    subst h
    exact hw
  | add_property self id type =>
    simp only [step, Except.ok.injEq] at h
    subst h
    exact hw

theorem typed_of_reachable (env : Env) (w : World) (hr : Reachable env w) :
    w.global_entries = [] ∨ Typed env w := by
  obtain ⟨ops, hops⟩ := hr
  have key : ∀ (ops : List Op) (w0 : World), (w0.global_entries = [] ∨ Typed env w0) →
      run env ops w0 = Except.ok w → (w.global_entries = [] ∨ Typed env w) := by
    intro ops
    induction ops with
    | nil =>
      intro w0 h0 h
      simp only [run, Except.ok.injEq] at h
      rw [← h]
      exact h0
    | cons op ops ih =>
      intro w0 h0 h
      simp only [run] at h
      split at h
      · cases h
      · rename_i w2 hstep
        exact ih w2 (step_typed env w0 w2 op h0 hstep) h
  exact key ops World.init (Or.inl rfl) hops


/-! ## A freshly constructed schema -/

theorem getElem?_append_length {α : Type} (l : List α) (x : α) (r : List α) :
    (l ++ x :: r)[l.length]? = some x := by
  induction l with
  | nil => simp
  | cons y ys ih => simpa using ih

theorem new_object (env : Env) (is_singleton : Bool) (w w1 : World) (a : Nat)
    (hw : Inv w)
    (h : custom_object_callable.new env is_singleton w = Except.ok (a, w1)) :
    Populated w1 ∧ ∃ o, w1.heap[a]? = some o ∧ o.properties_ = [] ∧
      o.entries_ = w1.global_entries := by
  obtain ⟨hp, ha, o, added, hheap, -, hprops, hent, -⟩ :=
    new_spec env is_singleton w w1 a (populated_or_empty_of_inv w hw) h
  refine ⟨hp, o, ?_, hprops, hent⟩
  rw [hheap, ha]
  exact getElem?_append_length w.heap o added

set_option maxRecDepth 100000 in
theorem table_me : CustomObjectProperties[CUSTOM_OBJECT_ME]? = some (Property.mk "me" "any") :=
  rfl

set_option maxRecDepth 100000 in
theorem table_self :
    CustomObjectProperties[CUSTOM_OBJECT_SELF]? = some (Property.mk "self" "any") := rfl

set_option maxRecDepth 100000 in
theorem table_level :
    CustomObjectProperties[CUSTOM_OBJECT_LEVEL]? = some (Property.mk "level" "any") := rfl

set_option maxRecDepth 100000 in
theorem table_parent :
    CustomObjectProperties[CUSTOM_OBJECT_PARENT]? =
      some (Property.mk "parent" "null|custom_obj") := rfl

/-- C14: with the slot constants `CUSTOM_OBJECT_ME`, `_SELF` and `_LEVEL` the
rows named "me", "self" and "level" (each declared "any" in the table), a
schema as a construction leaves it has, for every row `i` of the table, an
entry `i` with the id of the row whose type is: the custom-object type of
`variant_type::get_custom_object()` for "me" and "self", not the parsed
"any"; the builtin type registered as "level" for "level"; and the parsed
type string of row `i` for every other row. -/
theorem fresh_schema_types (env : Env) (w : World) (hr : Reachable env w)
    (is_singleton : Bool) (a : Nat) (w1 : World)
    (hnew : custom_object_callable.new env is_singleton w = Except.ok (a, w1)) :
    CustomObjectProperties[CUSTOM_OBJECT_ME]? = some (Property.mk "me" "any") ∧
    CustomObjectProperties[CUSTOM_OBJECT_SELF]? = some (Property.mk "self" "any") ∧
    CustomObjectProperties[CUSTOM_OBJECT_LEVEL]? = some (Property.mk "level" "any") ∧
    ∃ o, w1.heap[a]? = some o ∧
      ∀ i p, CustomObjectProperties[i]? = some p →
        ∃ e, o.entries_[i]? = some e ∧ e.id = p.id ∧
          e.variant_type =
            if i = CUSTOM_OBJECT_ME ∨ i = CUSTOM_OBJECT_SELF then env.get_custom_object
            else if i = CUSTOM_OBJECT_LEVEL then env.get_builtin "level"
            else env.parse_variant_type p.type := by
  refine ⟨table_me, table_self, table_level, ?_⟩
  obtain ⟨hp, o, ho, -, hent⟩ :=
    new_object env is_singleton w w1 a (inv_of_reachable env w hr) hnew
  have ht := new_typed env is_singleton w w1 a (typed_of_reachable env w hr) hnew
  refine ⟨o, ho, ?_⟩
  intro i p hip
  have hty := ht i p hip
  obtain ⟨e, he, hev⟩ := Option.map_eq_some'.mp hty
  have hid : w1.global_entries[i]?.map entry.id = some p.id := by
    rw [← List.getElem?_map, hp.1]
    simp [base_ids, List.getElem?_map, hip]
  rw [he] at hid
  refine ⟨e, by rw [hent]; exact he, by simpa using hid, ?_⟩
  rw [hev]
  rfl

set_option maxRecDepth 100000 in
theorem first_new :
    custom_object_callable.new sample_env false World.init = Except.ok (0, first_world) := rfl

set_option maxRecDepth 100000 in
/-- C14, witness: the first schema ever constructed, in the sample
environment: "x" has the parsed type of "int", "me" the custom-object type. -/
theorem fresh_schema_types_witness :
    ∃ o, first_world.heap[0]? = some o ∧
      (∃ e, o.entries_[16]? = some e ∧ e.id = "x" ∧
        e.variant_type = sample_env.parse_variant_type "int") ∧
      (∃ e, o.entries_[CUSTOM_OBJECT_ME]? = some e ∧ e.id = "me" ∧
        e.variant_type = sample_env.get_custom_object) := by
  obtain ⟨-, -, -, o, ho, h⟩ :=
    fresh_schema_types sample_env World.init ⟨[], rfl⟩ false 0 first_world first_new
  have h16 := h 16 (Property.mk "x" "int") (by decide)
  rw [if_neg (by decide), if_neg (by decide)] at h16
  have hme := h CUSTOM_OBJECT_ME _ table_me
  rw [if_pos (Or.inl rfl)] at hme
  exact ⟨o, ho, h16, hme⟩

set_option maxRecDepth 100000 in
/-- C16, counterexample: the table has 148 rows, not 169; a freshly
constructed schema has 148 entries and slot 148, below 169, is already out of
range. -/
theorem table_has_not_169_rows :
    CustomObjectProperties.length ≠ 169 ∧
    sample_schema.properties_ = [] ∧
    sample_schema.entries_.length ≠ 169 ∧
    sample_schema.get_entry 148 = none ∧
    sample_schema.get_entry 168 = none := by
  refine ⟨by decide, rfl, by decide, by decide, by decide⟩

/-- C16, amended: the built-in table `CustomObjectProperties` has exactly 148
(name, type-string) rows, so a schema as a construction leaves it has exactly
148 entries: slot 147 is the last one in range and `get_entry(148)` is the
first out-of-range slot. -/
theorem fresh_schema_has_148_entries (env : Env) (w : World) (hr : Reachable env w)
    (is_singleton : Bool) (a : Nat) (w1 : World)
    (hnew : custom_object_callable.new env is_singleton w = Except.ok (a, w1)) :
    CustomObjectProperties.length = 148 ∧
    ∃ o, w1.heap[a]? = some o ∧ o.entries_.length = 148 ∧
      (∃ e, o.get_entry 147 = some e) ∧ o.get_entry 148 = none := by
  refine ⟨length_table, ?_⟩
  obtain ⟨hp, o, ho, -, hent⟩ :=
    new_object env is_singleton w w1 a (inv_of_reachable env w hr) hnew
  have hlen : o.entries_.length = 148 := by
    rw [hent]
    have := congrArg List.length hp.1
    simpa [length_base_ids] using this
  refine ⟨o, ho, hlen, ?_, ?_⟩
  · have h1 := get_entry_ofNat o 147
    rw [List.getElem?_eq_getElem (by omega)] at h1
    exact ⟨_, h1⟩
  · have h1 := get_entry_ofNat o 148
    rw [List.getElem?_eq_none (by omega)] at h1
    exact h1

set_option maxRecDepth 100000 in
/-- C16, amended, witness: a construction after the sample history. -/
theorem fresh_schema_has_148_entries_witness :
    ∃ a w1, custom_object_callable.new sample_env true sample_world = Except.ok (a, w1) ∧
      ∃ o, w1.heap[a]? = some o ∧ o.entries_.length = 148 ∧
        (∃ e, o.get_entry 147 = some e) ∧ o.get_entry 148 = none := by
  refine ⟨_, _, rfl, ?_⟩
  exact (fresh_schema_has_148_entries sample_env sample_world sample_reachable true _ _ rfl).2


/-! ## Uniqueness of ids -/

set_option maxRecDepth 100000 in
/-- C15, counterexample: after `add_property("x", null)` on the first schema
of the sample history, a state a client can bring about, the entries at
slots 16 and 148 of that schema both have the id "x". -/
theorem duplicate_id_after_add_property :
    run sample_env (sample_ops ++ [Op.add_property 0 "x" none]) World.init =
      Except.ok shadowed_world ∧
    shadowed_world.heap[0]? = some shadowing_schema ∧
    shadowing_schema.entries_[16]?.map entry.id = some "x" ∧
    shadowing_schema.entries_[148]?.map entry.id = some "x" ∧
    ¬ (shadowing_schema.entries_.map entry.id).Nodup := by
  refine ⟨rfl, rfl, rfl, rfl, ?_⟩
  intro h
  have h1 : shadowing_schema.entries_.map entry.id =
      (sample_schema.entries_.map entry.id) ++ ["x"] := rfl
  rw [h1] at h
  have h2 := (List.nodup_append.mp h).2.2
  have h3 : "x" ∈ sample_schema.entries_.map entry.id :=
    List.mem_iff_getElem?.mpr ⟨16, rfl⟩
  exact h2 h3 (by simp)

/-- C15, amended: in every process state a client can bring about, the ids
of the built-in entries of a schema (its first 148 slots) are pairwise
distinct, and the ids of the whole slot table are unique exactly when the ids
of the entries added by `add_property` are pairwise distinct and none of them
is the name of a built-in row. `add_property(name, T)` does not check the
name: the ids are unique after it exactly when they were unique before it and
`name` was not yet the id of an entry of the schema. -/
theorem ids_unique_unless_readded (env : Env) (w : World) (hr : Reachable env w) (a : Nat)
    (o : custom_object_callable) (ho : w.heap[a]? = some o) :
    ((o.entries_.take CustomObjectProperties.length).map entry.id).Nodup ∧
    ((o.entries_.map entry.id).Nodup ↔
      ((o.entries_.drop CustomObjectProperties.length).map entry.id).Nodup ∧
      ∀ name ∈ (o.entries_.drop CustomObjectProperties.length).map entry.id,
        name ∉ CustomObjectProperties.map Property.id) ∧
    (∀ name T, ((o.add_property name T).entries_.map entry.id).Nodup ↔
      (o.entries_.map entry.id).Nodup ∧ name ∉ o.entries_.map entry.id) := by
  obtain ⟨-, rest, hrest⟩ := baseFirst_of_reachable env w hr a o ho
  have hlen : base_ids.length = CustomObjectProperties.length := by
    rw [length_base_ids, length_table]
  have htake : (o.entries_.take CustomObjectProperties.length).map entry.id = base_ids := by
    rw [List.map_take, hrest, ← hlen, List.take_left]
  have hdrop : (o.entries_.drop CustomObjectProperties.length).map entry.id = rest := by
    rw [List.map_drop, hrest, ← hlen, List.drop_left]
  refine ⟨by rw [htake]; exact base_ids_nodup, ?_, ?_⟩
  · rw [hdrop, hrest, List.nodup_append]
    constructor
    · rintro ⟨-, h2, h3⟩
      exact ⟨h2, fun name hn hb => h3 hb hn⟩
    · rintro ⟨h2, h3⟩
      exact ⟨base_ids_nodup, h2, fun name hb hn => h3 name hn hb⟩
  · intro name T
    rw [add_property_entries, List.map_append, List.nodup_append]
    constructor
    · rintro ⟨h1, -, h2⟩
      exact ⟨h1, fun hm => h2 hm (List.mem_singleton.mpr rfl)⟩
    · rintro ⟨h1, h2⟩
      refine ⟨h1, List.nodup_singleton _, ?_⟩
      intro x hx hx2
      rw [List.mem_singleton.mp hx2] at hx
      exact h2 hx

set_option maxRecDepth 100000 in
/-- C15, amended, witness: the first schema of the sample history, which has
no custom property, has unique ids. -/
theorem ids_unique_unless_readded_witness :
    (sample_schema.entries_.map entry.id).Nodup ∧
    ¬ ((sample_schema.add_property "x" none).entries_.map entry.id).Nodup := by
  obtain ⟨-, h2, h3⟩ := ids_unique_unless_readded sample_env sample_world sample_reachable 0
    sample_schema sample_schema_at
  have hn : (sample_schema.entries_.map entry.id).Nodup :=
    h2.mpr ⟨by decide, by decide⟩
  refine ⟨hn, ?_⟩
  intro h
  exact ((h3 "x" none).mp h).2 (List.mem_iff_getElem?.mpr ⟨16, rfl⟩)


/-! ## Repeated rebinding -/

theorem apply_ops_entries_of_no_set (a : Nat) (ops : List Op)
    (hops : ∀ T, Op.set_object_type a T ∉ ops) (o : custom_object_callable) (k : Nat)
    (e : entry) (hk : o.entries_[k]? = some e) :
    (apply_ops a ops o).entries_[k]? = some e := by
  induction ops generalizing o with
  | nil => exact hk
  | cons op ops ih =>
    simp only [apply_ops]
    apply ih (fun T h => hops T (List.mem_cons_of_mem _ h))
    cases op with
    | create b => exact hk
    | get_instance => exact hk
    | set_object_type self type =>
      simp only [apply_op]
      split
      · rename_i hs
        exfalso
        apply hops type
        rw [← hs]
        exact List.mem_cons_self _ _
      · exact hk
    | add_property self id type =>
      simp only [apply_op]
      split
      · rw [add_property_entries]
        exact getElem?_append_of_some _ _ _ _ hk
      · exact hk

set_option maxRecDepth 100000 in
/-- C20, counterexample: on the first schema of the sample history, after
`set_object_type(frog)` the "me" and "self" entries have type frog, and a
second `set_object_type(toad)` changes their type to toad. -/
theorem second_set_object_type_rebinds :
    run sample_env
      [Op.set_object_type 0 (some (variant_type.nominal "frog")),
        Op.set_object_type 0 (some (variant_type.nominal "toad"))] sample_world =
      Except.ok rebound_world ∧
    rebound_world.heap[0]? = some rebound_schema ∧
    rebound_schema = (sample_schema.set_object_type (some (variant_type.nominal "frog"))
      ).set_object_type (some (variant_type.nominal "toad")) ∧
    ((sample_schema.set_object_type (some (variant_type.nominal "frog"))).get_entry
      (Int.ofNat CUSTOM_OBJECT_ME)).map entry.variant_type =
        some (some (variant_type.nominal "frog")) ∧
    (rebound_schema.get_entry (Int.ofNat CUSTOM_OBJECT_ME)).map entry.variant_type =
      some (some (variant_type.nominal "toad")) ∧
    ((sample_schema.set_object_type (some (variant_type.nominal "frog"))).get_entry
      (Int.ofNat CUSTOM_OBJECT_SELF)).map entry.variant_type =
        some (some (variant_type.nominal "frog")) ∧
    (rebound_schema.get_entry (Int.ofNat CUSTOM_OBJECT_SELF)).map entry.variant_type =
      some (some (variant_type.nominal "toad")) := by
  refine ⟨rfl, rfl, rfl, by decide, by decide, by decide, by decide⟩

/-- C20, amended: the type of a schema's "me" and "self" entries is replaced
by every `set_object_type` call, not only by the first. After
`set_object_type(T1)` and any further calls other than `set_object_type` on
the same schema both entries have type `T1`; a later `set_object_type(T2)` on
the schema goes through and leaves both entries with type `T2`. -/
theorem set_object_type_last_call_wins (env : Env) (w : World) (hr : Reachable env w)
    (a : Nat) (o : custom_object_callable) (ho : w.heap[a]? = some o)
    (T1 T2 : variant_type_ptr) (ops : List Op)
    (hops : ∀ T, Op.set_object_type a T ∉ ops) (w2 : World)
    (hrun : run env (Op.set_object_type a T1 :: ops) w = Except.ok w2) :
    ∃ o2, w2.heap[a]? = some o2 ∧
      (∃ e, o2.get_entry (Int.ofNat CUSTOM_OBJECT_ME) = some e ∧ e.id = "me" ∧
        e.variant_type = T1) ∧
      (∃ e, o2.get_entry (Int.ofNat CUSTOM_OBJECT_SELF) = some e ∧ e.id = "self" ∧
        e.variant_type = T1) ∧
      ∃ w3 o3, step env w2 (Op.set_object_type a T2) = Except.ok w3 ∧
        w3.heap[a]? = some o3 ∧
        (∃ e, o3.get_entry (Int.ofNat CUSTOM_OBJECT_ME) = some e ∧ e.id = "me" ∧
          e.variant_type = T2) ∧
        (∃ e, o3.get_entry (Int.ofNat CUSTOM_OBJECT_SELF) = some e ∧ e.id = "self" ∧
          e.variant_type = T2) := by
  have hinv := inv_of_reachable env w hr
  have hb := (populated_of_inv w hinv a o ho).2
  have hheap := run_heap env _ w w2 hinv hrun a o ho
  have hinv2 := run_inv env _ w w2 hinv hrun
  simp only [apply_ops, apply_op, if_true] at hheap
  have hb2 := (populated_of_inv w2 hinv2 a _ hheap).2
  obtain ⟨e1, he1, hid1, hty1⟩ :=
    set_object_type_entry o hb T1 _ "me" (Or.inl rfl) base_ids_me
  obtain ⟨e2, he2, hid2, hty2⟩ :=
    set_object_type_entry o hb T1 _ "self" (Or.inr rfl) base_ids_self
  rw [get_entry_ofNat] at he1 he2
  obtain ⟨w3, hstep, hheap3, -⟩ := step_set_object_type env w2 a T2 _ hheap
  refine ⟨_, hheap, ⟨e1, ?_, hid1, hty1⟩, ⟨e2, ?_, hid2, hty2⟩, w3, _, hstep, hheap3,
    set_object_type_entry _ hb2 T2 _ "me" (Or.inl rfl) base_ids_me,
    set_object_type_entry _ hb2 T2 _ "self" (Or.inr rfl) base_ids_self⟩
  · rw [get_entry_ofNat]
    exact apply_ops_entries_of_no_set a ops hops _ _ _ he1
  · rw [get_entry_ofNat]
    exact apply_ops_entries_of_no_set a ops hops _ _ _ he2

/-- C20, amended, witness: `set_object_type`, an `add_property` and a
construction on the sample history, then a second `set_object_type`. -/
theorem set_object_type_last_call_wins_witness :
    ∃ w2, run sample_env
        [Op.set_object_type 0 (some (variant_type.nominal "frog")),
          Op.add_property 0 "custom_field" none, Op.set_object_type 2 none] sample_world =
        Except.ok w2 ∧
      ∃ w3 o3, step sample_env w2
          (Op.set_object_type 0 (some (variant_type.nominal "toad"))) = Except.ok w3 ∧
        w3.heap[0]? = some o3 ∧
        (∃ e, o3.get_entry (Int.ofNat CUSTOM_OBJECT_ME) = some e ∧ e.id = "me" ∧
          e.variant_type = some (variant_type.nominal "toad")) ∧
        (∃ e, o3.get_entry (Int.ofNat CUSTOM_OBJECT_SELF) = some e ∧ e.id = "self" ∧
          e.variant_type = some (variant_type.nominal "toad")) := by
  refine ⟨_, rfl, ?_⟩
  obtain ⟨o2, -, -, -, h⟩ := set_object_type_last_call_wins sample_env sample_world
    sample_reachable 0 sample_schema sample_schema_at (some (variant_type.nominal "frog"))
    (some (variant_type.nominal "toad"))
    [Op.add_property 0 "custom_field" none, Op.set_object_type 2 none]
    (by intro T; simp) _ rfl
  exact h


/-! ## The count check -/

theorem construct_count_mismatch (env : Env)
    (get_instance : World → Except Fatal (Nat × World)) (is_singleton : Bool) (w : World)
    (h : env.NUM_CUSTOM_OBJECT_PROPERTIES ≠ CustomObjectProperties.length) :
    custom_object_callable.construct env get_instance is_singleton w =
      Except.error Fatal.count_mismatch := by
  rw [construct_unfold, if_pos h]

theorem construct_error (env : Env) (get_instance : World → Except Fatal (Nat × World))
    (is_singleton : Bool) (w : World) (f : Fatal)
    (hnum : env.NUM_CUSTOM_OBJECT_PROPERTIES = CustomObjectProperties.length)
    (hcall : ∀ wg f1, get_instance wg = Except.error f1 → ∃ s, f1 = Fatal.malformed_type s)
    (h : custom_object_callable.construct env get_instance is_singleton w = Except.error f) :
    ∃ s, f = Fatal.malformed_type s := by
  rw [construct_unfold, if_neg (by simpa using hnum)] at h
  split at h
  · rename_i f1 hf1
    simp only [Except.error.injEq] at h
    subst h
    exact populate_globals_error env _ _ hf1
  · rename_i wg hwg
    split at h
    · rename_i f1 hf1
      simp only [Except.error.injEq] at h
      subst h
      cases is_singleton with
      | true => simp at hf1
      | false =>
        simp only [Bool.false_eq_true, if_false] at hf1
        exact hcall _ _ hf1
    · cases h

theorem instance_error (env : Env) (w : World) (f : Fatal)
    (hnum : env.NUM_CUSTOM_OBJECT_PROPERTIES = CustomObjectProperties.length)
    (h : custom_object_callable.instance_ env w = Except.error f) :
    ∃ s, f = Fatal.malformed_type s := by
  unfold custom_object_callable.instance_ at h
  split at h
  · cases h
  · split at h
    · cases h
    · split at h
      · rename_i f1 hf1
        simp only [Except.error.injEq] at h
        subst h
        exact construct_error env _ true w _ hnum (fun _ _ hc => by cases hc) hf1
      · cases h

theorem construct_total (env : Env) (get_instance : World → Except Fatal (Nat × World))
    (is_singleton : Bool) (w : World) (henv : env.consistent)
    (hcall : ∀ wg, ∃ r, get_instance wg = Except.ok r) :
    ∃ a w1, custom_object_callable.construct env get_instance is_singleton w =
      Except.ok (a, w1) := by
  rw [construct_unfold, if_neg (by simpa using henv.1)]
  obtain ⟨wg, hwg⟩ := populate_globals_ok env (construct_begin is_singleton w) henv
  rw [hwg]
  cases is_singleton with
  | true => exact ⟨_, _, rfl⟩
  | false =>
    obtain ⟨⟨p, w2⟩, hr⟩ := hcall wg
    simp only [Bool.false_eq_true, if_false, hr]
    exact ⟨_, _, rfl⟩

theorem instance_total (env : Env) (w : World) (henv : env.consistent) :
    ∃ r, custom_object_callable.instance_ env w = Except.ok r := by
  unfold custom_object_callable.instance_
  split
  · exact ⟨_, rfl⟩
  · split
    · exact ⟨_, rfl⟩
    · obtain ⟨o, w3, hr⟩ := construct_total env (fun w1 => Except.ok (w1.heap.length, w1))
        true w henv (fun _ => ⟨_, rfl⟩)
      unfold custom_object_callable.new_singleton
      rw [hr]
      exact ⟨_, rfl⟩

set_option maxRecDepth 100000 in
/-- C17, counterexample: with the type parser that accepts exactly the
declared grammar the enumerator agrees with the table, 148 rows, and the
first construction still fails, with either value of the flag, on the type
string of the row "is_standing_on_platform". -/
theorem construction_fails_with_equal_counts :
    spec_env.NUM_CUSTOM_OBJECT_PROPERTIES = CustomObjectProperties.length ∧
    custom_object_callable.new spec_env false World.init =
      Except.error (Fatal.malformed_type "null|bool|custom_obj") ∧
    custom_object_callable.new spec_env true World.init =
      Except.error (Fatal.malformed_type "null|bool|custom_obj") :=
  ⟨rfl, rfl, rfl⟩

/-- C17, amended: a construction `new custom_object_callable(is_singleton)`,
in any process state and for either value of the flag, fails with the count
mismatch if and only if the enumerator `NUM_CUSTOM_OBJECT_PROPERTIES` differs
from the number of rows of the table. The check comes before the registry is
populated: when the counts differ this is the outcome whatever the parser
would say about the type strings and whether or not the registry is already
populated. When the counts agree, the only failure left is a type string the
parser rejects, and with a parser that accepts the type string of every row
the construction goes through. -/
theorem count_check_guards_construction (env : Env) (is_singleton : Bool) (w : World) :
    (custom_object_callable.new env is_singleton w = Except.error Fatal.count_mismatch ↔
      env.NUM_CUSTOM_OBJECT_PROPERTIES ≠ CustomObjectProperties.length) ∧
    (∀ f, env.NUM_CUSTOM_OBJECT_PROPERTIES = CustomObjectProperties.length →
      custom_object_callable.new env is_singleton w = Except.error f →
      ∃ s, f = Fatal.malformed_type s) ∧
    (env.NUM_CUSTOM_OBJECT_PROPERTIES = CustomObjectProperties.length →
      (∀ p ∈ CustomObjectProperties, ∃ t, env.parse_variant_type p.type = some t) →
      ∃ a w1, custom_object_callable.new env is_singleton w = Except.ok (a, w1)) := by
  have herr : ∀ f, env.NUM_CUSTOM_OBJECT_PROPERTIES = CustomObjectProperties.length →
      custom_object_callable.new env is_singleton w = Except.error f →
      ∃ s, f = Fatal.malformed_type s := fun f hnum h =>
    construct_error env _ is_singleton w f hnum
      (fun wg f1 hf1 => instance_error env wg f1 hnum hf1) h
  refine ⟨⟨?_, ?_⟩, herr, ?_⟩
  · intro h hnum
    obtain ⟨s, hs⟩ := herr _ hnum h
    cases hs
  · intro h
    exact construct_count_mismatch env _ is_singleton w h
  · intro hnum hparse
    exact construct_total env _ is_singleton w ⟨hnum, hparse⟩
      (fun wg => instance_total env wg ⟨hnum, hparse⟩)

set_option maxRecDepth 100000 in
/-- C17, amended, witness: with the enumerator at 169 a construction fails on the
count, also on a populated registry; in the sample environment, where the
enumerator is 148, the first construction goes through. -/
theorem count_check_guards_construction_witness :
    custom_object_callable.new stale_env true sample_world =
      Except.error Fatal.count_mismatch ∧
    custom_object_callable.new stale_env false World.init =
      Except.error Fatal.count_mismatch ∧
    ∃ a w1, custom_object_callable.new sample_env false World.init = Except.ok (a, w1) :=
  ⟨(count_check_guards_construction stale_env true sample_world).1.mpr (by decide),
    (count_check_guards_construction stale_env false World.init).1.mpr (by decide),
    (count_check_guards_construction sample_env false World.init).2.2 rfl
      sample_env_consistent.2⟩


/-! ## The singleton pointers -/

theorem isSingleton_append (heap added : List custom_object_callable) (p : Nat)
    (h : IsSingleton heap p) : IsSingleton (heap ++ added) p := by
  obtain ⟨o, ho, hn⟩ := h
  exact ⟨o, getElem?_append_of_some _ _ _ _ ho, hn⟩

theorem isSingleton_update_at (heap : List custom_object_callable) (i p : Nat)
    (f : custom_object_callable → custom_object_callable)
    (hf : ∀ o, o.type_name = "custom_obj" → (f o).type_name = "custom_obj")
    (h : IsSingleton heap p) : IsSingleton (update_at heap i f) p := by
  obtain ⟨o, ho, hn⟩ := h
  rw [IsSingleton, getElem?_update_at, ho]
  split
  · exact ⟨f o, rfl, hf o hn⟩
  · exact ⟨o, rfl, hn⟩

theorem pointersOk_congr (w w1 : World) (hh : w1.heap = w.heap)
    (hi : w1.instance_ptr = w.instance_ptr) (ho : w1.obj = w.obj) (h : PointersOk w) :
    PointersOk w1 := by
  unfold PointersOk
  rw [hh, hi, ho]
  exact h

theorem construct_begin_pointers (is_singleton : Bool) (w : World) (h : PointersOk w) :
    PointersOk (construct_begin is_singleton w) := by
  cases is_singleton with
  | false =>
    refine ⟨fun p hp => ?_, fun p hp => ?_⟩
    · exact isSingleton_append _ _ _ (h.1 p hp)
    · exact ⟨isSingleton_append _ _ _ (h.2 p hp).1, (h.2 p hp).2⟩
  | true =>
    refine ⟨fun p hp => ?_, fun p hp => ?_⟩
    · have hp2 : w.heap.length = p := by
        simpa [construct_begin] using hp
      subst hp2
      refine ⟨{ type_name := "custom_obj" }, ?_, rfl⟩
      simp only [construct_begin, if_true]
      rw [update_at_append_length]
      exact getElem?_append_length _ _ _
    · refine ⟨?_, _, rfl⟩
      simp only [construct_begin, if_true]
      exact isSingleton_update_at _ _ _ _ (fun _ _ => rfl)
        (isSingleton_append _ _ _ (h.2 p hp).1)

theorem construct_end_pointers (env : Env) (this_ parent : Nat) (w : World)
    (h : PointersOk w) : PointersOk (construct_end env this_ parent w) := by
  refine ⟨fun p hp => ?_, fun p hp => ?_⟩
  · exact isSingleton_update_at _ _ _ _ (fun _ ho => ho) (h.1 p hp)
  · exact ⟨isSingleton_update_at _ _ _ _ (fun _ ho => ho) (h.2 p hp).1, (h.2 p hp).2⟩

theorem populate_globals_pointers (env : Env) (w w1 : World) (h : PointersOk w)
    (hpop : populate_globals env w = Except.ok w1) : PointersOk w1 := by
  obtain ⟨h1, h2, h3⟩ := populate_globals_frame env w w1 hpop
  exact pointersOk_congr w w1 h1 h2 h3 h

theorem construct_pointers (env : Env) (get_instance : World → Except Fatal (Nat × World))
    (is_singleton : Bool) (w w1 : World) (a : Nat) (hw : PointersOk w)
    (hcall : ∀ wg p w2, PointersOk wg → get_instance wg = Except.ok (p, w2) → PointersOk w2)
    (h : custom_object_callable.construct env get_instance is_singleton w = Except.ok (a, w1)) :
    PointersOk w1 ∧ (is_singleton = true → w1.instance_ptr = some a) := by
  obtain ⟨-, ha, wg, parent, w2, hwg, hcallres, hw1⟩ :=
    construct_phases env get_instance is_singleton w w1 a h
  have hg := populate_globals_pointers env _ wg (construct_begin_pointers is_singleton w hw) hwg
  subst hw1
  cases is_singleton with
  | true =>
    simp only [if_true, Except.ok.injEq, Prod.mk.injEq] at hcallres
    obtain ⟨-, h2⟩ := hcallres
    subst h2
    refine ⟨construct_end_pointers env _ _ _ hg, fun _ => ?_⟩
    rw [ha]
    exact (populate_globals_frame env _ _ hwg).2.1
  | false =>
    simp only [Bool.false_eq_true, if_false] at hcallres
    refine ⟨construct_end_pointers env _ _ _ (hcall _ _ _ hg hcallres), fun hc => ?_⟩
    cases hc

theorem instance_of_ptr (env : Env) (w : World) (p : Nat) (h : w.instance_ptr = some p) :
    custom_object_callable.instance_ env w = Except.ok (p, w) := by
  unfold custom_object_callable.instance_
  rw [h]

theorem instance_pointers (env : Env) (w w1 : World) (p : Nat) (hw : PointersOk w)
    (h : custom_object_callable.instance_ env w = Except.ok (p, w1)) :
    PointersOk w1 ∧ w1.instance_ptr = some p := by
  unfold custom_object_callable.instance_ at h
  split at h
  · rename_i q hq
    simp only [Except.ok.injEq, Prod.mk.injEq] at h
    obtain ⟨h1, h2⟩ := h
    subst h1 h2
    exact ⟨hw, hq⟩
  · rename_i hnone
    split at h
    · rename_i o ho
      obtain ⟨q, hq⟩ := (hw.2 o ho).2
      rw [hq] at hnone
      cases hnone
    · split at h
      · cases h
      · rename_i o w3 hnew
        simp only [Except.ok.injEq, Prod.mk.injEq] at h
        obtain ⟨h1, h2⟩ := h
        subst h1 h2
        obtain ⟨hp3, hi3⟩ := construct_pointers env _ true w w3 o hw
          (fun wg p w2 hg hc => by
            simp only [Except.ok.injEq, Prod.mk.injEq] at hc
            rw [← hc.2]
            exact hg) hnew
        have hi := hi3 rfl
        refine ⟨⟨fun q hq => hp3.1 q hq, fun q hq => ?_⟩, hi⟩
        have hq2 : o = q := by simpa using hq
        subst hq2
        exact ⟨hp3.1 o hi, o, hi⟩

theorem new_pointers (env : Env) (is_singleton : Bool) (w w1 : World) (a : Nat)
    (hw : PointersOk w)
    (h : custom_object_callable.new env is_singleton w = Except.ok (a, w1)) :
    PointersOk w1 ∧ (is_singleton = true → w1.instance_ptr = some a) :=
  construct_pointers env _ is_singleton w w1 a hw
    (fun wg p w2 hg hc => (instance_pointers env wg w2 p hg hc).1) h

theorem step_pointers (env : Env) (w w1 : World) (op : Op) (hw : PointersOk w)
    (h : step env w op = Except.ok w1) : PointersOk w1 := by
  cases op with
  | create b =>
    simp only [step] at h
    split at h
    · cases h
    · rename_i a w2 hnew
      simp only [Except.ok.injEq] at h
      subst h
      exact (new_pointers env b w w2 a hw hnew).1
  | get_instance =>
    simp only [step] at h
    split at h
    · cases h
    · rename_i a w2 hnew
      simp only [Except.ok.injEq] at h
      subst h
      exact (instance_pointers env w w2 a hw hnew).1
  | set_object_type self type =>
    simp only [step, Except.ok.injEq] at h
    subst h
    exact ⟨fun p hp => isSingleton_update_at _ _ _ _ (fun _ ho => ho) (hw.1 p hp),
      fun p hp => ⟨isSingleton_update_at _ _ _ _ (fun _ ho => ho) (hw.2 p hp).1,
        (hw.2 p hp).2⟩⟩
  | add_property self id type =>
    simp only [step, Except.ok.injEq] at h
    subst h
    exact ⟨fun p hp => isSingleton_update_at _ _ _ _ (fun _ ho => ho) (hw.1 p hp),
      fun p hp => ⟨isSingleton_update_at _ _ _ _ (fun _ ho => ho) (hw.2 p hp).1,
        (hw.2 p hp).2⟩⟩

theorem pointers_init : PointersOk World.init :=
  ⟨fun p hp => (by cases hp), fun p hp => (by cases hp)⟩

theorem run_pointers (env : Env) (ops : List Op) (w w1 : World) (hw : PointersOk w)
    (h : run env ops w = Except.ok w1) : PointersOk w1 := by
  induction ops generalizing w with
  | nil =>
    simp only [run, Except.ok.injEq] at h
    rw [← h]
    exact hw
  | cons op ops ih =>
    simp only [run] at h
    split at h
    · cases h
    · rename_i w2 hstep
      exact ih w2 (step_pointers env w w2 op hw hstep) h

theorem pointers_of_reachable (env : Env) (w : World) (h : Reachable env w) :
    PointersOk w := by
  obtain ⟨ops, hops⟩ := h
  exact run_pointers env ops World.init w pointers_init hops

theorem step_instance_ptr (env : Env) (w w1 : World) (op : Op) (p : Nat)
    (hp : w.instance_ptr = some p) (hop : op ≠ Op.create true)
    (h : step env w op = Except.ok w1) : w1.instance_ptr = some p := by
  cases op with
  | create b =>
    cases b with
    | true => exact absurd rfl hop
    | false =>
      simp only [step] at h
      split at h
      · cases h
      · rename_i a w2 hnew
        simp only [Except.ok.injEq] at h
        subst h
        obtain ⟨-, -, wg, parent, w3, hwg, hcallres, hw1⟩ :=
          construct_phases env _ false w w2 a hnew
        simp only [Bool.false_eq_true, if_false] at hcallres
        have hg : wg.instance_ptr = some p :=
          (populate_globals_frame env _ _ hwg).2.1.trans hp
        rw [instance_of_ptr env wg p hg] at hcallres
        simp only [Except.ok.injEq, Prod.mk.injEq] at hcallres
        rw [hw1, ← hcallres.2]
        exact hg
  | get_instance =>
    simp only [step] at h
    rw [instance_of_ptr env w p hp] at h
    simp only [Except.ok.injEq] at h
    rw [← h]
    exact hp
  | set_object_type self type =>
    simp only [step, Except.ok.injEq] at h
    rw [← h]
    exact hp
  | add_property self id type =>
    simp only [step, Except.ok.injEq] at h
    rw [← h]
    exact hp

theorem run_instance_ptr (env : Env) (ops : List Op) (w w1 : World) (p : Nat)
    (hp : w.instance_ptr = some p) (hops : Op.create true ∉ ops)
    (h : run env ops w = Except.ok w1) : w1.instance_ptr = some p := by
  induction ops generalizing w with
  | nil =>
    simp only [run, Except.ok.injEq] at h
    rw [← h]
    exact hp
  | cons op ops ih =>
    simp only [run] at h
    split at h
    · cases h
    · rename_i w2 hstep
      simp only [List.mem_cons, not_or] at hops
      exact ih w2 (step_instance_ptr env w w2 op p hp (fun e => hops.1 e.symm) hstep) hops.2 h


/-- C18: `instance()` is idempotent. In every process state a client can
bring about, `instance()` returns a schema (given an environment in which
constructions go through); a second call right after it returns the same
schema and changes nothing; the schema returned is one that was constructed
as the singleton and is the one `instance_ptr` points to; and every later
call returns it again as long as no further schema is constructed with
`is_singleton` set in between. -/
theorem instance_idempotent (env : Env) (w : World) (hr : Reachable env w) :
    (env.consistent → ∃ p w1, custom_object_callable.instance_ env w = Except.ok (p, w1)) ∧
    ∀ p w1, custom_object_callable.instance_ env w = Except.ok (p, w1) →
      custom_object_callable.instance_ env w1 = Except.ok (p, w1) ∧
      w1.instance_ptr = some p ∧
      (∃ o, w1.heap[p]? = some o ∧ o.type_name = "custom_obj") ∧
      ∀ ops w2, Op.create true ∉ ops → run env ops w1 = Except.ok w2 →
        custom_object_callable.instance_ env w2 = Except.ok (p, w2) := by
  refine ⟨fun henv => ?_, fun p w1 h => ?_⟩
  · obtain ⟨⟨p, w1⟩, hr1⟩ := instance_total env w henv
    exact ⟨p, w1, hr1⟩
  · obtain ⟨hp1, hi1⟩ := instance_pointers env w w1 p (pointers_of_reachable env w hr) h
    exact ⟨instance_of_ptr env w1 p hi1, hi1, hp1.1 p hi1, fun ops w2 hops hrun =>
      instance_of_ptr env w2 p (run_instance_ptr env ops w1 w2 p hi1 hops hrun)⟩

set_option maxRecDepth 100000 in
/-- C18, witness: after the sample history `instance()` returns the schema at
address 1, the singleton the first construction brought about. -/
theorem instance_idempotent_witness :
    custom_object_callable.instance_ sample_env sample_world = Except.ok (1, sample_world) ∧
    sample_world.instance_ptr = some 1 ∧
    (∃ o, sample_world.heap[1]? = some o ∧ o.type_name = "custom_obj") ∧
    ∀ ops w2, Op.create true ∉ ops → run sample_env ops sample_world = Except.ok w2 →
      custom_object_callable.instance_ sample_env w2 = Except.ok (1, w2) :=
  (instance_idempotent sample_env sample_world sample_reachable).2 1 sample_world rfl

set_option maxRecDepth 100000 in
theorem base_ids_parent : base_ids[CUSTOM_OBJECT_PARENT]? = some "parent" := rfl

/-- C19: for every construction `new custom_object_callable(is_singleton)`,
in every process state a client can bring about (whatever the order in which
singleton and other schemas were created before): the "parent" entry of the
new schema has its nested definition pointing at the schema `instance()`
returns after the construction. With `is_singleton` set that schema is the
new schema itself; otherwise it is another schema, one that was constructed as
the singleton. -/
theorem parent_points_to_singleton (env : Env) (w : World) (hr : Reachable env w)
    (is_singleton : Bool) (a : Nat) (w1 : World)
    (hnew : custom_object_callable.new env is_singleton w = Except.ok (a, w1)) :
    ∃ o e p, w1.heap[a]? = some o ∧ o.entries_[CUSTOM_OBJECT_PARENT]? = some e ∧
      e.id = "parent" ∧ e.type_definition = definition_ptr.callable p ∧
      custom_object_callable.instance_ env w1 = Except.ok (p, w1) ∧
      (is_singleton = true → p = a) ∧
      (is_singleton = false →
        p ≠ a ∧ ∃ s, w1.heap[p]? = some s ∧ s.type_name = "custom_obj") := by
  have hinv := inv_of_reachable env w hr
  have hptr := pointers_of_reachable env w hr
  obtain ⟨hp1, o, ho, -, hent⟩ := new_object env is_singleton w w1 a hinv hnew
  obtain ⟨hptr1, hsing⟩ := new_pointers env is_singleton w w1 a hptr hnew
  obtain ⟨-, ha, wg, parent, w2, hwg, hcallres, hw1⟩ :=
    construct_phases env _ is_singleton w w1 a hnew
  have hpar : w1.global_entries[CUSTOM_OBJECT_PARENT]? =
      w2.global_entries[CUSTOM_OBJECT_PARENT]?.map
        (fun e => { e with type_definition := definition_ptr.callable parent }) := by
    rw [hw1]
    simp only [construct_end]
    rw [getElem?_update_at_ne _ _ _ _ (by decide), getElem?_update_at_self]
  have hid : w1.global_entries[CUSTOM_OBJECT_PARENT]?.map entry.id = some "parent" := by
    rw [← List.getElem?_map, hp1.1]
    exact base_ids_parent
  obtain ⟨e, he, hei⟩ := Option.map_eq_some'.mp hid
  have hdef : e.type_definition = definition_ptr.callable parent := by
    rw [hpar] at he
    obtain ⟨g, -, hg⟩ := Option.map_eq_some'.mp he
    rw [← hg]
  have hi2 : w1.instance_ptr = w2.instance_ptr := by rw [hw1]; rfl
  cases is_singleton with
  | true =>
    simp only [if_true, Except.ok.injEq, Prod.mk.injEq] at hcallres
    have hpa : parent = a := by rw [ha]; exact hcallres.1.symm
    refine ⟨o, e, parent, ho, by rw [hent]; exact he, hei, hdef, ?_, fun _ => hpa,
      fun hc => (by cases hc)⟩
    rw [hpa]
    exact instance_of_ptr env w1 a (hsing rfl)
  | false =>
    simp only [Bool.false_eq_true, if_false] at hcallres
    have hptrg := populate_globals_pointers env _ wg (construct_begin_pointers false w hptr) hwg
    obtain ⟨-, hi⟩ := instance_pointers env wg w2 parent hptrg hcallres
    have hi1 : w1.instance_ptr = some parent := hi2.trans hi
    obtain ⟨s, hs, hsn⟩ := hptr1.1 parent hi1
    refine ⟨o, e, parent, ho, by rw [hent]; exact he, hei, hdef,
      instance_of_ptr env w1 parent hi1, fun hc => (by cases hc), fun _ => ⟨?_, s, hs, hsn⟩⟩
    intro hpa
    obtain ⟨hpop, hheapg, -, -⟩ := populate_globals_spec env _ wg
      (by simpa [construct_begin] using populated_or_empty_of_inv w hinv) hwg
    obtain ⟨-, added, hadd, -⟩ := instance_spec env wg w2 parent (Or.inr hpop) hcallres
    have h2heap : w2.heap = w.heap ++ ({} : custom_object_callable) :: added := by
      rw [hadd, hheapg]
      simp [construct_begin]
    have hblank : w1.heap[a]?.map custom_object_callable.type_name = some "" := by
      rw [hw1, ha]
      simp only [construct_end]
      rw [h2heap, update_at_append_length, getElem?_append_length]
      rfl
    rw [← hpa, hs] at hblank
    simp only [Option.map_some', Option.some.injEq] at hblank
    rw [hsn] at hblank
    exact absurd hblank (by decide)

set_option maxRecDepth 100000 in
/-- C19, witness: the first construction ever, of a schema that is not the
singleton: its "parent" entry points at the singleton at address 1, which
`instance()` returns. -/
theorem parent_points_to_singleton_witness :
    ∃ o e, first_world.heap[0]? = some o ∧ o.entries_[CUSTOM_OBJECT_PARENT]? = some e ∧
      e.id = "parent" ∧ e.type_definition = definition_ptr.callable 1 ∧
      custom_object_callable.instance_ sample_env first_world = Except.ok (1, first_world) := by
  obtain ⟨o, e, p, h1, h2, h3, h4, h5, -, -⟩ :=
    parent_points_to_singleton sample_env World.init ⟨[], rfl⟩ false 0 first_world first_new
  have hp : p = 1 := by
    have h6 : custom_object_callable.instance_ sample_env first_world =
        Except.ok (1, first_world) := rfl
    rw [h6] at h5
    simp only [Except.ok.injEq, Prod.mk.injEq, and_true] at h5
    exact h5.symm
  subst hp
  exact ⟨o, e, h1, h2, h3, h4, h5⟩


/-! ## The base registry after population -/

theorem sameBase_refl (l : List entry) : SameBase l l := ⟨rfl, rfl, fun _ _ _ => rfl⟩

theorem sameBase_trans (a b c : List entry) (h1 : SameBase a b) (h2 : SameBase b c) :
    SameBase a c :=
  ⟨h2.1.trans h1.1, h2.2.1.trans h1.2.1, fun j hp hl => (h2.2.2 j hp hl).trans (h1.2.2 j hp hl)⟩

theorem construct_end_sameBase (env : Env) (this_ parent : Nat) (w : World) :
    SameBase w.global_entries (construct_end env this_ parent w).global_entries := by
  refine ⟨?_, ?_, ?_⟩
  · have h1 := map_update_at entry.id
      (fun e : entry => { e with type_definition := definition_ptr.callable parent })
      (fun _ => rfl) w.global_entries CUSTOM_OBJECT_PARENT
    have h2 := map_update_at entry.id
      (fun e : entry => { e with type_definition := env.get_library_definition })
      (fun _ => rfl) (update_at w.global_entries CUSTOM_OBJECT_PARENT
        (fun e => { e with type_definition := definition_ptr.callable parent }))
      CUSTOM_OBJECT_LIB
    exact h2.trans h1
  · have h1 := map_update_at entry.variant_type
      (fun e : entry => { e with type_definition := definition_ptr.callable parent })
      (fun _ => rfl) w.global_entries CUSTOM_OBJECT_PARENT
    have h2 := map_update_at entry.variant_type
      (fun e : entry => { e with type_definition := env.get_library_definition })
      (fun _ => rfl) (update_at w.global_entries CUSTOM_OBJECT_PARENT
        (fun e => { e with type_definition := definition_ptr.callable parent }))
      CUSTOM_OBJECT_LIB
    exact h2.trans h1
  · intro j hp hl
    simp only [construct_end]
    rw [getElem?_update_at_ne _ _ _ _ hl, getElem?_update_at_ne _ _ _ _ hp]

theorem sameBase_ne_nil (a b : List entry) (h : SameBase a b) (ha : a ≠ []) : b ≠ [] := by
  intro hb
  have := congrArg List.length h.1
  rw [hb] at this
  simp only [List.map_nil, List.length_nil, List.length_map] at this
  exact ha (List.length_eq_zero.mp this.symm)

theorem construct_sameBase (env : Env) (get_instance : World → Except Fatal (Nat × World))
    (is_singleton : Bool) (w w1 : World) (a : Nat) (hne : w.global_entries ≠ [])
    (hcall : ∀ wg p w2, wg.global_entries ≠ [] → get_instance wg = Except.ok (p, w2) →
      SameBase wg.global_entries w2.global_entries)
    (h : custom_object_callable.construct env get_instance is_singleton w = Except.ok (a, w1)) :
    SameBase w.global_entries w1.global_entries := by
  obtain ⟨-, -, wg, parent, w2, hwg, hcallres, hw1⟩ :=
    construct_phases env get_instance is_singleton w w1 a h
  have hb := construct_begin_globals is_singleton w
  have hne0 : (construct_begin is_singleton w).global_entries ≠ [] := by
    rw [hb.1]
    exact hne
  rw [populate_globals_of_ne_nil env _ hne0] at hwg
  simp only [Except.ok.injEq] at hwg
  subst hwg
  have key : SameBase w.global_entries w2.global_entries := by
    cases is_singleton with
    | true =>
      simp only [if_true, Except.ok.injEq, Prod.mk.injEq] at hcallres
      rw [← hcallres.2, hb.1]
      exact sameBase_refl _
    | false =>
      simp only [Bool.false_eq_true, if_false] at hcallres
      have := hcall _ _ _ hne0 hcallres
      rw [hb.1] at this
      exact this
  subst hw1
  exact sameBase_trans _ _ _ key (construct_end_sameBase env _ _ w2)

theorem instance_sameBase (env : Env) (w w1 : World) (p : Nat) (hne : w.global_entries ≠ [])
    (h : custom_object_callable.instance_ env w = Except.ok (p, w1)) :
    SameBase w.global_entries w1.global_entries := by
  unfold custom_object_callable.instance_ at h
  split at h
  · simp only [Except.ok.injEq, Prod.mk.injEq] at h
    rw [← h.2]
    exact sameBase_refl _
  · split at h
    · simp only [Except.ok.injEq, Prod.mk.injEq] at h
      rw [← h.2]
      exact sameBase_refl _
    · split at h
      · cases h
      · rename_i o w3 hnew
        simp only [Except.ok.injEq, Prod.mk.injEq] at h
        rw [← h.2]
        exact construct_sameBase env _ true w w3 o hne
          (fun wg p w2 _ hc => by
            simp only [Except.ok.injEq, Prod.mk.injEq] at hc
            rw [← hc.2]
            exact sameBase_refl _) hnew

theorem step_sameBase (env : Env) (w w1 : World) (op : Op) (hne : w.global_entries ≠ [])
    (h : step env w op = Except.ok w1) : SameBase w.global_entries w1.global_entries := by
  cases op with
  | create b =>
    simp only [step] at h
    split at h
    · cases h
    · rename_i a w2 hnew
      simp only [Except.ok.injEq] at h
      subst h
      exact construct_sameBase env _ b w w2 a hne
        (fun wg p w3 hg hc => instance_sameBase env wg w3 p hg hc) hnew
  | get_instance =>
    simp only [step] at h
    split at h
    · cases h
    · rename_i a w2 hnew
      simp only [Except.ok.injEq] at h
      subst h
      exact instance_sameBase env w w2 a hne hnew
  | set_object_type self type =>
    simp only [step, Except.ok.injEq] at h
    subst h
    exact sameBase_refl _
  | add_property self id type =>
    simp only [step, Except.ok.injEq] at h
    subst h
    exact sameBase_refl _

set_option maxRecDepth 100000 in
theorem resingled_new :
    custom_object_callable.new sample_env true sample_world = Except.ok (3, resingled_world) :=
  rfl

set_option maxRecDepth 100000 in
/-- C21, counterexample: after the sample history the base registry is
populated and its "parent" entry points at the schema at address 1;
constructing another schema with `is_singleton` set rewrites that entry of
the base registry to point at the new schema, at address 3. -/
theorem base_registry_parent_rewritten :
    sample_world.global_entries ≠ [] ∧
    step sample_env sample_world (Op.create true) = Except.ok resingled_world ∧
    sample_world.global_entries[CUSTOM_OBJECT_PARENT]?.map entry.type_definition =
      some (definition_ptr.callable 1) ∧
    resingled_world.global_entries[CUSTOM_OBJECT_PARENT]?.map entry.type_definition =
      some (definition_ptr.callable 3) ∧
    resingled_world.global_entries ≠ sample_world.global_entries := by
  refine ⟨by decide, rfl, rfl, rfl, ?_⟩
  intro h
  have h1 : resingled_world.global_entries[CUSTOM_OBJECT_PARENT]?.map entry.type_definition =
      some (definition_ptr.callable 3) := rfl
  rw [h] at h1
  have h2 : sample_world.global_entries[CUSTOM_OBJECT_PARENT]?.map entry.type_definition =
      some (definition_ptr.callable 1) := rfl
  rw [h2] at h1
  exact absurd h1 (by decide)

/-- A populated base registry keeps the id and the type of every entry, and
every entry other than "parent" and "lib", through every sequence of calls;
`set_object_type` and `add_property` leave it as it is. -/
theorem run_base_registry (env : Env) (w : World)
    (hne : w.global_entries ≠ []) (ops : List Op) (w2 : World)
    (hrun : run env ops w = Except.ok w2) :
    w2.global_entries.map entry.id = w.global_entries.map entry.id ∧
    w2.global_entries.map entry.variant_type = w.global_entries.map entry.variant_type ∧
    (∀ j, j ≠ CUSTOM_OBJECT_PARENT → j ≠ CUSTOM_OBJECT_LIB →
      w2.global_entries[j]? = w.global_entries[j]?) ∧
    ((∀ b, Op.create b ∉ ops) → Op.get_instance ∉ ops →
      w2.global_entries = w.global_entries) := by
  induction ops generalizing w with
  | nil =>
    simp only [run, Except.ok.injEq] at hrun
    subst hrun
    exact ⟨rfl, rfl, fun _ _ _ => rfl, fun _ _ => rfl⟩
  | cons op ops ih =>
    simp only [run] at hrun
    split at hrun
    · cases hrun
    · rename_i w1 hstep
      have hs := step_sameBase env w w1 op hne hstep
      obtain ⟨h1, h2, h3, h4⟩ := ih w1 (sameBase_ne_nil _ _ hs hne) hrun
      refine ⟨h1.trans hs.1, h2.trans hs.2.1,
        fun j hp hl => (h3 j hp hl).trans (hs.2.2 j hp hl), ?_⟩
      intro hc hg
      have hc2 : ∀ b, Op.create b ∉ ops := fun b hb => hc b (List.mem_cons_of_mem _ hb)
      have hg2 : Op.get_instance ∉ ops := fun hb => hg (List.mem_cons_of_mem _ hb)
      rw [h4 hc2 hg2]
      cases op with
      | create b => exact absurd (List.mem_cons_self _ _) (hc b)
      | get_instance => exact absurd (List.mem_cons_self _ _) hg
      | set_object_type self type =>
        simp only [step, Except.ok.injEq] at hstep
        rw [← hstep]
      | add_property self id type =>
        simp only [step, Except.ok.injEq] at hstep
        rw [← hstep]

/-- What a construction writes into the base registry: the nested definition
of its "parent" entry is the schema `instance()` returns afterwards, the new
schema itself when `is_singleton` is set and another schema otherwise, and
the nested definition of its "lib" entry is the library definition. -/
theorem new_registry_refs (env : Env) (w : World) (hinv : Inv w) (hptr : PointersOk w)
    (is_singleton : Bool) (a : Nat) (w1 : World)
    (hnew : custom_object_callable.new env is_singleton w = Except.ok (a, w1)) :
    ∃ p, w1.global_entries[CUSTOM_OBJECT_PARENT]?.map entry.type_definition =
        some (definition_ptr.callable p) ∧
      w1.global_entries[CUSTOM_OBJECT_LIB]?.map entry.type_definition =
        some env.get_library_definition ∧
      custom_object_callable.instance_ env w1 = Except.ok (p, w1) ∧
      (is_singleton = true → p = a) ∧ (is_singleton = false → p ≠ a) := by
  obtain ⟨hp1, o, ho, -, hent⟩ := new_object env is_singleton w w1 a hinv hnew
  obtain ⟨hptr1, hsing⟩ := new_pointers env is_singleton w w1 a hptr hnew
  obtain ⟨-, ha, wg, parent, w2, hwg, hcallres, hw1⟩ :=
    construct_phases env _ is_singleton w w1 a hnew
  have hlen : w1.global_entries.length = base_ids.length := by
    rw [← hp1.1, List.length_map]
  rw [length_base_ids] at hlen
  have hw2len : w2.global_entries.length = 148 := by
    rw [← hlen, hw1]
    simp only [construct_end, length_update_at]
  have hpar : w1.global_entries[CUSTOM_OBJECT_PARENT]?.map entry.type_definition =
      some (definition_ptr.callable parent) := by
    rw [hw1]
    simp only [construct_end]
    rw [getElem?_update_at_ne _ _ _ _ (by decide), getElem?_update_at_self,
      List.getElem?_eq_getElem (by rw [hw2len]; decide)]
    rfl
  have hlib : w1.global_entries[CUSTOM_OBJECT_LIB]?.map entry.type_definition =
      some env.get_library_definition := by
    rw [hw1]
    simp only [construct_end]
    rw [getElem?_update_at_self,
      List.getElem?_eq_getElem (by rw [length_update_at, hw2len]; decide)]
    rfl
  have hi2 : w1.instance_ptr = w2.instance_ptr := by rw [hw1]; rfl
  cases is_singleton with
  | true =>
    simp only [if_true, Except.ok.injEq, Prod.mk.injEq] at hcallres
    have hpa : parent = a := by rw [ha]; exact hcallres.1.symm
    refine ⟨parent, hpar, hlib, ?_, fun _ => hpa, fun hc => (by cases hc)⟩
    rw [hpa]
    exact instance_of_ptr env w1 a (hsing rfl)
  | false =>
    simp only [Bool.false_eq_true, if_false] at hcallres
    have hptrg := populate_globals_pointers env _ wg (construct_begin_pointers false w hptr) hwg
    obtain ⟨-, hi⟩ := instance_pointers env wg w2 parent hptrg hcallres
    have hi1 : w1.instance_ptr = some parent := hi2.trans hi
    obtain ⟨s, hs, hsn⟩ := hptr1.1 parent hi1
    refine ⟨parent, hpar, hlib, instance_of_ptr env w1 parent hi1, fun hc => (by cases hc),
      fun _ => ?_⟩
    intro hpa
    obtain ⟨hpop, hheapg, -, -⟩ := populate_globals_spec env _ wg
      (by simpa [construct_begin] using populated_or_empty_of_inv w hinv) hwg
    obtain ⟨-, added, hadd, -⟩ := instance_spec env wg w2 parent (Or.inr hpop) hcallres
    have h2heap : w2.heap = w.heap ++ ({} : custom_object_callable) :: added := by
      rw [hadd, hheapg]
      simp [construct_begin]
    have hblank : w1.heap[a]?.map custom_object_callable.type_name = some "" := by
      rw [hw1, ha]
      simp only [construct_end]
      rw [h2heap, update_at_append_length, getElem?_append_length]
      rfl
    rw [← hpa, hs] at hblank
    simp only [Option.map_some', Option.some.injEq] at hblank
    rw [hsn] at hblank
    exact absurd hblank (by decide)

/-- C21, amended: in every process state a client can bring about in which
the base registry is populated, every later sequence of calls leaves the id
and the type of every base entry, and every base entry other than "parent" and
"lib", as they were. `set_object_type` and `add_property` leave the whole
registry as it is. A construction, with `is_singleton` set or not, sets the
nested definition of the registry's "parent" entry to the schema `instance()`
returns after it (the new schema itself when `is_singleton` is set, another
schema otherwise) and the nested definition of its "lib" entry to the library
definition. -/
theorem base_registry_changes_only_refs (env : Env) (w : World) (hr : Reachable env w)
    (hne : w.global_entries ≠ []) (ops : List Op) (w2 : World)
    (hrun : run env ops w = Except.ok w2) :
    w2.global_entries.map entry.id = w.global_entries.map entry.id ∧
    w2.global_entries.map entry.variant_type = w.global_entries.map entry.variant_type ∧
    (∀ j, j ≠ CUSTOM_OBJECT_PARENT → j ≠ CUSTOM_OBJECT_LIB →
      w2.global_entries[j]? = w.global_entries[j]?) ∧
    ((∀ b, Op.create b ∉ ops) → Op.get_instance ∉ ops →
      w2.global_entries = w.global_entries) ∧
    (∀ is_singleton a w3,
      custom_object_callable.new env is_singleton w2 = Except.ok (a, w3) →
      ∃ p, w3.global_entries[CUSTOM_OBJECT_PARENT]?.map entry.type_definition =
          some (definition_ptr.callable p) ∧
        w3.global_entries[CUSTOM_OBJECT_LIB]?.map entry.type_definition =
          some env.get_library_definition ∧
        custom_object_callable.instance_ env w3 = Except.ok (p, w3) ∧
        (is_singleton = true → p = a) ∧ (is_singleton = false → p ≠ a)) := by
  obtain ⟨h1, h2, h3, h4⟩ := run_base_registry env w hne ops w2 hrun
  refine ⟨h1, h2, h3, h4, fun is_singleton a w3 hnew => ?_⟩
  have hinv := run_inv env ops w w2 (inv_of_reachable env w hr) hrun
  have hptr := run_pointers env ops w w2 (pointers_of_reachable env w hr) hrun
  exact new_registry_refs env w2 hinv hptr is_singleton a w3 hnew

set_option maxRecDepth 100000 in
/-- C21, amended, witness: calls of every kind after the sample history, and
one more construction after them, of the schema at address 4, which becomes
the singleton. -/
theorem base_registry_changes_only_refs_witness :
    ∃ w2, run sample_env
        [Op.create true, Op.add_property 0 "x" none, Op.set_object_type 2 none]
        sample_world = Except.ok w2 ∧
      w2.global_entries.map entry.id = sample_world.global_entries.map entry.id ∧
      w2.global_entries.map entry.variant_type =
        sample_world.global_entries.map entry.variant_type ∧
      ∃ w3, custom_object_callable.new sample_env true w2 = Except.ok (4, w3) ∧
        w3.global_entries[CUSTOM_OBJECT_PARENT]?.map entry.type_definition =
          some (definition_ptr.callable 4) := by
  refine ⟨_, rfl, ?_⟩
  obtain ⟨h1, h2, -, -, h5⟩ := base_registry_changes_only_refs sample_env sample_world
    sample_reachable (by decide)
    [Op.create true, Op.add_property 0 "x" none, Op.set_object_type 2 none] _ rfl
  refine ⟨h1, h2, _, rfl, ?_⟩
  obtain ⟨p, hp, -, -, hpa, -⟩ := h5 true 4 _ rfl
  rw [hp, hpa rfl]


/-! ## The overlay map -/

theorem overlaySound_of_nil (o : custom_object_callable) (h : o.properties_ = []) :
    OverlaySound o := by
  intro key v hv
  rw [h] at hv
  simp [map_find] at hv

theorem overlaySound_set_object_type (o : custom_object_callable) (type : variant_type_ptr)
    (h : OverlaySound o) : OverlaySound (o.set_object_type type) := by
  intro key v hv
  obtain ⟨i, hi, hn, hid⟩ := h key v hv
  refine ⟨i, hi, hn, ?_⟩
  rw [← List.getElem?_map, set_object_type_ids, List.getElem?_map]
  exact hid

theorem overlaySound_add_property (o : custom_object_callable) (id : String)
    (type : variant_type_ptr) (hb : BaseFirst o) (h : OverlaySound o) :
    OverlaySound (o.add_property id type) := by
  intro key v hv
  rw [add_property_properties, map_find_assign] at hv
  split at hv
  · rename_i hk
    simp only [Option.some.injEq] at hv
    refine ⟨o.entries_.length, hv.symm, baseFirst_length o hb, ?_⟩
    rw [getElem?_add_property_new, hk]
    rfl
  · obtain ⟨i, hi, hn, hid⟩ := h key v hv
    obtain ⟨e, he, hei⟩ := Option.map_eq_some'.mp hid
    refine ⟨i, hi, hn, ?_⟩
    rw [add_property_entries, getElem?_append_of_some _ _ _ _ he]
    simp [hei]

theorem step_overlay (env : Env) (w w1 : World) (op : Op) (hw : Inv w)
    (hs : ∀ o ∈ w.heap, OverlaySound o) (h : step env w op = Except.ok w1) :
    ∀ o ∈ w1.heap, OverlaySound o := by
  have hbase : ∀ o ∈ w.heap, BaseFirst o := by
    rcases hw with ⟨-, -, h3⟩ | ⟨-, h3⟩
    · rw [h3]
      simp
    · exact h3
  cases op with
  | create b =>
    simp only [step] at h
    split at h
    · cases h
    · rename_i a w2 hnew
      simp only [Except.ok.injEq] at h
      subst h
      obtain ⟨-, -, o1, added, hheap, -, hprops, -, hgood⟩ :=
        new_spec env b w w2 a (populated_or_empty_of_inv w hw) hnew
      intro x hx
      rw [hheap] at hx
      rcases List.mem_append.mp hx with hx | hx
      · exact hs x hx
      · rcases List.mem_cons.mp hx with hx | hx
        · rw [hx]
          exact overlaySound_of_nil o1 hprops
        · exact overlaySound_of_nil x (hgood x hx).2
  | get_instance =>
    simp only [step] at h
    split at h
    · cases h
    · rename_i a w2 hnew
      simp only [Except.ok.injEq] at h
      subst h
      obtain ⟨-, added, hheap, hgood⟩ :=
        instance_spec env w w2 a (populated_or_empty_of_inv w hw) hnew
      intro x hx
      rw [hheap] at hx
      rcases List.mem_append.mp hx with hx | hx
      · exact hs x hx
      · exact overlaySound_of_nil x (hgood x hx).2
  | set_object_type self type =>
    simp only [step, Except.ok.injEq] at h
    subst h
    intro x hx
    rcases mem_update_at _ _ _ _ hx with hx | ⟨y, hy, hxy⟩
    · exact hs x hx
    · rw [hxy]
      exact overlaySound_set_object_type y type (hs y hy)
  | add_property self id type =>
    simp only [step, Except.ok.injEq] at h
    subst h
    intro x hx
    rcases mem_update_at _ _ _ _ hx with hx | ⟨y, hy, hxy⟩
    · exact hs x hx
    · rw [hxy]
      exact overlaySound_add_property y id type (hbase y hy) (hs y hy)

theorem run_overlay (env : Env) (ops : List Op) (w w1 : World) (hw : Inv w)
    (hs : ∀ o ∈ w.heap, OverlaySound o) (h : run env ops w = Except.ok w1) :
    ∀ o ∈ w1.heap, OverlaySound o := by
  induction ops generalizing w with
  | nil =>
    simp only [run, Except.ok.injEq] at h
    rw [← h]
    exact hs
  | cons op ops ih =>
    simp only [run] at h
    split at h
    · cases h
    · rename_i w2 hstep
      exact ih w2 (step_inv env w w2 op hw hstep) (step_overlay env w w2 op hw hs hstep) h

theorem overlaySound_of_reachable (env : Env) (w : World) (hr : Reachable env w) (a : Nat)
    (o : custom_object_callable) (ho : w.heap[a]? = some o) : OverlaySound o := by
  obtain ⟨ops, hops⟩ := hr
  exact run_overlay env ops World.init w inv_init (fun o h => by simp [World.init] at h) hops
    o (List.getElem?_mem ho)

theorem base_keys_find (name : String) (v : Int) (h : map_find base_keys name = some v) :
    ∃ i p, CustomObjectProperties[i]? = some p ∧ p.id = name ∧ v = Int.ofNat i := by
  have hmem : name ∈ base_ids := by
    by_contra hc
    rw [base_keys_not_mem name hc] at h
    cases h
  obtain ⟨i, hi⟩ := List.mem_iff_getElem?.mp hmem
  simp only [base_ids, List.getElem?_map] at hi
  obtain ⟨p, hp, hpid⟩ := Option.map_eq_some'.mp hi
  have := base_keys_getElem i p hp
  rw [hpid, h] at this
  simp only [Option.some.injEq] at this
  exact ⟨i, p, hp, hpid, this⟩

/-- C23: resolution is sound. In every process state a client can bring
about, for every schema and every name: if `get_slot(name)` returns a slot
`s >= 0`, then `get_entry(s)` returns an entry, and the id of that entry is
`name`. -/
theorem get_slot_sound (env : Env) (w : World) (hr : Reachable env w) (a : Nat)
    (o : custom_object_callable) (ho : w.heap[a]? = some o) (name : String) (s : Int)
    (hs : o.get_slot w name = s) (hs0 : 0 ≤ s) :
    ∃ e, o.get_entry s = some e ∧ e.id = name := by
  obtain ⟨hp, hb⟩ := baseFirst_of_reachable env w hr a o ho
  have hsound := overlaySound_of_reachable env w hr a o ho
  unfold custom_object_callable.get_slot at hs
  cases hfind : map_find o.properties_ name with
  | some v =>
    rw [hfind] at hs
    simp only at hs
    subst hs
    obtain ⟨i, hi, -, hid⟩ := hsound name v hfind
    obtain ⟨e, he, hei⟩ := Option.map_eq_some'.mp hid
    exact ⟨e, by rw [hi, get_entry_ofNat]; exact he, hei⟩
  | none =>
    rw [hfind] at hs
    simp only at hs
    unfold get_key_slot at hs
    rw [hp.2] at hs
    cases hk : map_find base_keys name with
    | none =>
      rw [hk] at hs
      simp only at hs
      omega
    | some v =>
      rw [hk] at hs
      simp only at hs
      subst hs
      obtain ⟨i, p, hip, hpid, hv⟩ := base_keys_find name v hk
      have hlt : i < CustomObjectProperties.length := by
        by_contra hc
        rw [List.getElem?_eq_none (by omega)] at hip
        cases hip
      have h1 := baseFirst_getElem? o hb i hlt
      have h2 : base_ids[i]? = some name := by
        simp [base_ids, List.getElem?_map, hip, hpid]
      rw [h2] at h1
      obtain ⟨e, he, hei⟩ := Option.map_eq_some'.mp h1
      exact ⟨e, by rw [hv, get_entry_ofNat]; exact he, hei⟩

set_option maxRecDepth 100000 in
/-- C23, witness: on the schema of the sample history that has "x" as a
custom property, "x" resolves to slot 148 and "me" to slot 74. -/
theorem get_slot_sound_witness :
    (∃ e, shadowing_schema.get_entry 148 = some e ∧ e.id = "x") ∧
    (∃ e, shadowing_schema.get_entry 74 = some e ∧ e.id = "me") :=
  ⟨get_slot_sound sample_env shadowed_world ⟨sample_ops ++ [Op.add_property 0 "x" none], rfl⟩
      0 shadowing_schema rfl "x" 148 (by decide) (by decide),
    get_slot_sound sample_env shadowed_world ⟨sample_ops ++ [Op.add_property 0 "x" none], rfl⟩
      0 shadowing_schema rfl "me" 74 (by decide) (by decide)⟩

/-- C24: the overlay invariant. In every process state a client can bring
about, every value `v` stored in a schema's overlay map satisfies
`N <= v < entries_.size()` (`N` the number of built-in rows); the overlay map
is injective, two different custom names never resolve to the same slot; and
no custom name resolves to a slot that `get_key_slot` gives a name, a
built-in slot. -/
theorem overlay_invariant (env : Env) (w : World) (hr : Reachable env w) (a : Nat)
    (o : custom_object_callable) (ho : w.heap[a]? = some o) :
    (∀ key v, map_find o.properties_ key = some v →
      Int.ofNat CustomObjectProperties.length ≤ v ∧ v < Int.ofNat o.entries_.length ∧
      o.get_slot w key = v) ∧
    (∀ k1 k2 v, map_find o.properties_ k1 = some v → map_find o.properties_ k2 = some v →
      k1 = k2) ∧
    (∀ key v, map_find o.properties_ key = some v → ∀ name, get_key_slot w name ≠ v) := by
  obtain ⟨hp, -⟩ := baseFirst_of_reachable env w hr a o ho
  have hsound := overlaySound_of_reachable env w hr a o ho
  refine ⟨?_, ?_, ?_⟩
  · intro key v hv
    obtain ⟨i, hi, hn, hid⟩ := hsound key v hv
    obtain ⟨e, he, -⟩ := Option.map_eq_some'.mp hid
    have hlt : i < o.entries_.length := by
      by_contra hc
      rw [List.getElem?_eq_none (by omega)] at he
      cases he
    refine ⟨?_, ?_, ?_⟩
    · rw [hi]
      exact Int.ofNat_le.mpr hn
    · rw [hi]
      exact Int.ofNat_lt.mpr hlt
    · unfold custom_object_callable.get_slot
      rw [hv]
  · intro k1 k2 v h1 h2
    obtain ⟨i, hi, -, hid⟩ := hsound k1 v h1
    obtain ⟨j, hj, -, hjd⟩ := hsound k2 v h2
    have hij : i = j := by
      rw [hi] at hj
      exact Int.ofNat.inj hj
    rw [hij, hjd] at hid
    simp only [Option.some.injEq] at hid
    exact hid.symm
  · intro key v hv name hc
    obtain ⟨i, hi, hn, -⟩ := hsound key v hv
    have hlt := get_key_slot_lt w hp name
    rw [hc, hi] at hlt
    have := Int.ofNat_lt.mp hlt
    omega

set_option maxRecDepth 100000 in
/-- C24, witness: the schema of the sample history that has "x" as a custom
property. -/
theorem overlay_invariant_witness :
    map_find shadowing_schema.properties_ "x" = some 148 ∧
    Int.ofNat CustomObjectProperties.length ≤ 148 ∧
    (148 : Int) < Int.ofNat shadowing_schema.entries_.length ∧
    ∀ name, get_key_slot shadowed_world name ≠ 148 := by
  have h0 : map_find shadowing_schema.properties_ "x" = some 148 := by decide
  obtain ⟨h1, -, h3⟩ := overlay_invariant sample_env shadowed_world
    ⟨sample_ops ++ [Op.add_property 0 "x" none], rfl⟩ 0 shadowing_schema rfl
  exact ⟨h0, (h1 "x" 148 h0).1, (h1 "x" 148 h0).2.1, h3 "x" 148 h0⟩


/-! ## The grammar of type strings -/

theorem primitive_of_mem (s : List Char) (t : variant_type) (h : primitive_of s = some t) :
    (s, t) ∈ primitive_types := by
  unfold primitive_of at h
  obtain ⟨p, hp, hpt⟩ := Option.map_eq_some'.mp h
  have h1 := List.find?_some hp
  have h2 := List.mem_of_find?_eq_some hp
  have h3 : p.1 = s := by simpa using h1
  rw [← h3, ← hpt]
  exact h2

theorem primitive_of_isSome (s : List Char) (t : variant_type)
    (h : (s, t) ∈ primitive_types) : ∃ t1, primitive_of s = some t1 := by
  unfold primitive_of
  cases hf : primitive_types.find? (fun p => p.1 == s) with
  | some p => exact ⟨p.2, rfl⟩
  | none =>
    have := List.find?_eq_none.mp hf (s, t) h
    simp at this

theorem inside_brackets_eq (s inner : List Char) (h : inside_brackets s = some inner) :
    s = '[' :: (inner ++ [']']) := by
  cases s with
  | nil => simp [inside_brackets] at h
  | cons c rest =>
    simp only [inside_brackets] at h
    split at h
    · rename_i hc
      simp only [Option.some.injEq] at h
      rw [hc.1, ← h, List.dropLast_append_getLast? _ hc.2]
    · cases h

theorem inside_brackets_of (inner : List Char) :
    inside_brackets ('[' :: (inner ++ [']'])) = some inner := by
  simp [inside_brackets]

theorem after_null_eq (s inner : List Char) (h : after_null s = some inner) :
    s = 'n' :: 'u' :: 'l' :: 'l' :: '|' :: inner := by
  unfold after_null at h
  split at h
  · split at h
    · rename_i hc
      simp only [Option.some.injEq] at h
      obtain ⟨h1, h2, h3, h4, h5⟩ := hc
      rw [h1, h2, h3, h4, h5, h]
    · cases h
  · cases h

theorem parse_chars_sound (fuel : Nat) (s : List Char) (t : variant_type)
    (h : parse_chars fuel s = some t) : Derivable s := by
  induction fuel generalizing s t with
  | zero => simp [parse_chars] at h
  | succ n ih =>
    simp only [parse_chars] at h
    split at h
    · rename_i t1 ht1
      exact Derivable.primitive s t1 (primitive_of_mem s t1 ht1)
    · split at h
      · rename_i inner hin
        obtain ⟨t2, ht2, -⟩ := Option.map_eq_some'.mp h
        rw [inside_brackets_eq s inner hin]
        exact Derivable.sequence inner (ih inner t2 ht2)
      · split at h
        · rename_i inner hin
          obtain ⟨t2, ht2, -⟩ := Option.map_eq_some'.mp h
          rw [after_null_eq s inner hin]
          exact Derivable.nullable inner (ih inner t2 ht2)
        · split at h
          · rename_i hid
            exact Derivable.nominal s hid
          · cases h

theorem primitive_of_bracket (rest : List Char) : primitive_of ('[' :: rest) = none := by
  simp [primitive_of, primitive_types, List.find?]

theorem primitive_of_null (inner : List Char) :
    primitive_of ('n' :: 'u' :: 'l' :: 'l' :: '|' :: inner) = none := by
  simp [primitive_of, primitive_types, List.find?]

theorem is_identifier_null (inner : List Char) :
    is_identifier ('n' :: 'u' :: 'l' :: 'l' :: '|' :: inner) = false := by
  have h : ('|'.isAlphanum || '|' == '_') = false := by decide
  simp [is_identifier, List.all, h]

theorem inside_brackets_identifier (s : List Char) (h : is_identifier s = true) :
    inside_brackets s = none := by
  cases s with
  | nil => rfl
  | cons c rest =>
    simp only [inside_brackets]
    rw [if_neg]
    rintro ⟨hc, -⟩
    rw [hc] at h
    have h2 : ('['.isAlpha || '[' == '_') = false := by decide
    simp [is_identifier, h2] at h

theorem after_null_identifier (s : List Char) (h : is_identifier s = true) :
    after_null s = none := by
  cases hn : after_null s with
  | none => rfl
  | some inner =>
    rw [after_null_eq s inner hn, is_identifier_null] at h
    cases h

theorem parse_chars_complete (s : List Char) (h : Derivable s) :
    ∀ fuel, s.length < fuel → ∃ t, parse_chars fuel s = some t := by
  induction h with
  | primitive s t hmem =>
    intro fuel hf
    obtain ⟨n, rfl⟩ : ∃ n, fuel = n + 1 := ⟨fuel - 1, by omega⟩
    obtain ⟨t1, ht1⟩ := primitive_of_isSome s t hmem
    exact ⟨t1, by simp only [parse_chars, ht1]⟩
  | sequence inner _ ih =>
    intro fuel hf
    obtain ⟨n, rfl⟩ : ∃ n, fuel = n + 1 := ⟨fuel - 1, by omega⟩
    obtain ⟨t, ht⟩ := ih n (by simp only [List.length_cons, List.length_append,
      List.length_singleton] at hf; omega)
    exact ⟨variant_type.list_of t,
      by simp only [parse_chars, primitive_of_bracket, inside_brackets_of, ht, Option.map_some']⟩
  | nullable inner _ ih =>
    intro fuel hf
    obtain ⟨n, rfl⟩ : ∃ n, fuel = n + 1 := ⟨fuel - 1, by omega⟩
    obtain ⟨t, ht⟩ := ih n (by simp only [List.length_cons] at hf; omega)
    have hb : inside_brackets ('n' :: 'u' :: 'l' :: 'l' :: '|' :: inner) = none := by
      simp [inside_brackets]
    have ha : after_null ('n' :: 'u' :: 'l' :: 'l' :: '|' :: inner) = some inner := by
      simp [after_null]
    exact ⟨variant_type.null_or t,
      by simp only [parse_chars, primitive_of_null, hb, ha, ht, Option.map_some']⟩
  | nominal s hid =>
    intro fuel hf
    obtain ⟨n, rfl⟩ : ∃ n, fuel = n + 1 := ⟨fuel - 1, by omega⟩
    cases hp : primitive_of s with
    | some t => exact ⟨t, by simp only [parse_chars, hp]⟩
    | none =>
      exact ⟨variant_type.nominal (String.mk s),
        by simp only [parse_chars, hp, inside_brackets_identifier s hid,
          after_null_identifier s hid, hid, if_true]⟩

/-- The parser modelled from the spec accepts exactly the strings of the
declared grammar. -/
theorem parse_type_string_iff (s : String) :
    (∃ t, parse_type_string s = some t) ↔ Derivable s.toList := by
  constructor
  · rintro ⟨t, ht⟩
    exact parse_chars_sound _ _ t ht
  · intro h
    exact parse_chars_complete s.toList h (s.length + 1) (by
      simp only [String.length, String.toList]
      omega)


set_option maxRecDepth 100000 in
theorem table_types_parse :
    CustomObjectProperties.all (fun p =>
      p.type == "null|bool|custom_obj" || (parse_type_string p.type).isSome) = true := by
  decide

set_option maxRecDepth 100000 in
/-- C22, counterexample: the type string of the row "is_standing_on_platform",
"null|bool|custom_obj", is not derivable from the declared grammar (after
`null|` comes `bool|custom_obj`, which is no primitive name, no bracketed
type, no `null|` type and no identifier); with a parser that accepts exactly
the grammar the first construction fails on it. -/
theorem union_type_string_not_derivable :
    Property.mk "is_standing_on_platform" "null|bool|custom_obj" ∈ CustomObjectProperties ∧
    ¬ Derivable "null|bool|custom_obj".toList ∧
    parse_type_string "null|bool|custom_obj" = none ∧
    custom_object_callable.new spec_env false World.init =
      Except.error (Fatal.malformed_type "null|bool|custom_obj") := by
  refine ⟨by decide, ?_, by decide, rfl⟩
  intro h
  obtain ⟨t, ht⟩ := (parse_type_string_iff "null|bool|custom_obj").mpr h
  have hn : parse_type_string "null|bool|custom_obj" = none := by decide
  rw [hn] at ht
  cases ht

/-- C22, amended: every type string in the built-in definition table other
than "null|bool|custom_obj" is derivable from the declared type grammar, so
populating the base registry cannot fail on a type string when the parser
accepts, besides the strings of the grammar, that one union of three
alternatives: every construction then goes through. -/
theorem table_types_derivable_but_one :
    (∀ p ∈ CustomObjectProperties, p.type ≠ "null|bool|custom_obj" →
      Derivable p.type.toList) ∧
    ∀ env : Env, env.NUM_CUSTOM_OBJECT_PROPERTIES = CustomObjectProperties.length →
      (∀ s : String, Derivable s.toList → ∃ t, env.parse_variant_type s = some t) →
      (∃ t, env.parse_variant_type "null|bool|custom_obj" = some t) →
      ∀ (is_singleton : Bool) (w : World),
        ∃ a w1, custom_object_callable.new env is_singleton w = Except.ok (a, w1) := by
  have hrows : ∀ p ∈ CustomObjectProperties, p.type ≠ "null|bool|custom_obj" →
      Derivable p.type.toList := by
    intro p hp hne
    have h := List.all_eq_true.mp table_types_parse p hp
    simp only [Bool.or_eq_true, beq_iff_eq] at h
    rcases h with h | h
    · exact absurd h hne
    · obtain ⟨t, ht⟩ := Option.isSome_iff_exists.mp h
      exact (parse_type_string_iff p.type).mp ⟨t, ht⟩
  refine ⟨hrows, ?_⟩
  intro env hnum hgram hunion is_singleton w
  have henv : env.consistent := by
    refine ⟨hnum, fun p hp => ?_⟩
    by_cases hne : p.type = "null|bool|custom_obj"
    · rw [hne]
      exact hunion
    · exact hgram p.type (hrows p hp hne)
  exact construct_total env _ is_singleton w henv (fun wg => instance_total env wg henv)

set_option maxRecDepth 100000 in
/-- C22, amended, witness: the row "x" has a derivable type string, and the
sample environment, whose parser accepts every string, populates the
registry. -/
theorem table_types_derivable_but_one_witness :
    Derivable "int".toList ∧
    ∃ a w1, custom_object_callable.new sample_env false World.init = Except.ok (a, w1) :=
  ⟨table_types_derivable_but_one.1 (Property.mk "x" "int") (by decide) (by decide),
    table_types_derivable_but_one.2 sample_env rfl (fun s _ => sample_parse_total s)
      (sample_parse_total _) false World.init⟩


/-! ## The perspective views of the voxel editor -/

/-- C27: for a `perspective_renderer` whose `facing_` is 0, 1 or 2 and all
positions `q` and `p`: `normalize_pos(denormalize_pos(q))` is
`(q[0], q[1], 0)`, `denormalize_pos(q)` has coordinate `facing_` equal to 0,
and `denormalize_pos(normalize_pos(p))` is `p` with its coordinate `facing_`
replaced by 0. -/
theorem normalize_denormalize (r : perspective_renderer)
    (hf : r.facing_ = 0 ∨ r.facing_ = 1 ∨ r.facing_ = 2) (q p : VoxelPos) :
    r.normalize_pos (r.denormalize_pos q) = VoxelPos.mk (q.get 0) (q.get 1) 0 ∧
    (r.denormalize_pos q).get r.facing_ = 0 ∧
    r.denormalize_pos (r.normalize_pos p) = p.set r.facing_ 0 := by
  obtain ⟨qx, qy, qz⟩ := q
  obtain ⟨px, py, pz⟩ := p
  rcases hf with h | h | h <;>
    simp [perspective_renderer.normalize_pos, perspective_renderer.denormalize_pos, h,
      List.foldl, VoxelPos.set, VoxelPos.get]

/-- C27, witness: the view along the x axis. -/
theorem normalize_denormalize_witness :
    (perspective_renderer.create (widget_area.mk 0 0 400 300) 0 1 0 0).normalize_pos
      ((perspective_renderer.create (widget_area.mk 0 0 400 300) 0 1 0 0).denormalize_pos
        (VoxelPos.mk 10 20 30)) = VoxelPos.mk 10 20 0 ∧
    (perspective_renderer.create (widget_area.mk 0 0 400 300) 0 1 0 0).denormalize_pos
      (VoxelPos.mk 10 20 30) = VoxelPos.mk 0 20 10 := by
  obtain ⟨h1, -, -⟩ := normalize_denormalize
    (perspective_renderer.create (widget_area.mk 0 0 400 300) 0 1 0 0) (Or.inl rfl)
    (VoxelPos.mk 10 20 30) (VoxelPos.mk 10 20 30)
  exact ⟨h1, by decide⟩

theorem zoom_in_width (r : perspective_renderer)
    (h : r.voxel_width_ ∈ [(5 : Int), 10, 20, 40, 80]) :
    r.zoom_in.voxel_width_ ∈ [(5 : Int), 10, 20, 40, 80] := by
  simp only [List.mem_cons, List.mem_singleton, List.not_mem_nil, or_false] at h
  unfold perspective_renderer.zoom_in
  rcases h with h | h | h | h | h <;> simp [h, wrap32]

theorem zoom_out_width (r : perspective_renderer)
    (h : r.voxel_width_ ∈ [(5 : Int), 10, 20, 40, 80]) :
    r.zoom_out.voxel_width_ ∈ [(5 : Int), 10, 20, 40, 80] := by
  simp only [List.mem_cons, List.mem_singleton, List.not_mem_nil, or_false] at h
  unfold perspective_renderer.zoom_out
  rcases h with h | h | h | h | h <;> simp [h, Int.tdiv]

theorem apply_zoom_calls_width (calls : List ZoomCall) (r : perspective_renderer)
    (h : r.voxel_width_ ∈ [(5 : Int), 10, 20, 40, 80]) :
    (apply_zoom_calls calls r).voxel_width_ ∈ [(5 : Int), 10, 20, 40, 80] := by
  induction calls generalizing r with
  | nil => exact h
  | cons c calls ih =>
    cases c with
    | zoom_in => exact ih _ (zoom_in_width r h)
    | zoom_out => exact ih _ (zoom_out_width r h)

theorem int_div_isSome (a b : Int) (h : b ∈ [(5 : Int), 10, 20, 40, 80]) :
    ∃ c, int_div a b = some c := by
  simp only [List.mem_cons, List.mem_singleton, List.not_mem_nil, or_false] at h
  unfold int_div
  rw [if_neg]
  · exact ⟨_, rfl⟩
  · rintro (hb | ⟨-, hb⟩) <;> omega

theorem get_mouse_pos_isSome (r : perspective_renderer)
    (h : r.voxel_width_ ∈ [(5 : Int), 10, 20, 40, 80]) (mousex mousey : Int) :
    ∃ pos, r.get_mouse_pos mousex mousey = some pos := by
  unfold perspective_renderer.get_mouse_pos
  simp only []
  generalize (if wrap32 (mousex - wrap32 (r.area.x + Int.tdiv r.area.width 2)) < 0 then _
    else _ : Int) = a
  generalize (if wrap32 (mousey - wrap32 (r.area.y + Int.tdiv r.area.height 2)) > 0 then _
    else _ : Int) = b
  obtain ⟨c1, hc1⟩ := int_div_isSome a _ h
  obtain ⟨c2, hc2⟩ := int_div_isSome b _ h
  rw [hc1, hc2]
  exact ⟨_, rfl⟩

/-- C28: for every sequence of `zoom_in()` and `zoom_out()` calls on a newly
constructed `perspective_renderer`, `voxel_width_` is one of 5, 10, 20, 40
and 80; it is never zero, and `get_mouse_pos`, which divides by it twice,
returns a position for every mouse position. -/
theorem voxel_width_stays_in_range (area : widget_area) (indeterminate xdir ydir zdir : Int)
    (calls : List ZoomCall) :
    (apply_zoom_calls calls
        (perspective_renderer.create area indeterminate xdir ydir zdir)).voxel_width_ ∈
      [(5 : Int), 10, 20, 40, 80] ∧
    (apply_zoom_calls calls
        (perspective_renderer.create area indeterminate xdir ydir zdir)).voxel_width_ ≠ 0 ∧
    ∀ mousex mousey, ∃ pos,
      (apply_zoom_calls calls
        (perspective_renderer.create area indeterminate xdir ydir zdir)).get_mouse_pos
          mousex mousey = some pos := by
  have h := apply_zoom_calls_width calls
    (perspective_renderer.create area indeterminate xdir ydir zdir)
    (by simp [perspective_renderer.create])
  refine ⟨h, ?_, ?_⟩
  · intro h0
    rw [h0] at h
    simp at h
  · exact get_mouse_pos_isSome _ h


/-! ## The voxel editor: commands, undo and redo -/

theorem update_at_update_at {α : Type} (l : List α) (i : Nat) (f g : α → α) :
    update_at (update_at l i f) i g = update_at l i (fun x => g (f x)) := by
  induction l generalizing i with
  | nil => simp [update_at]
  | cons x xs ih =>
    cases i with
    | zero => simp [update_at]
    | succ n => simp [update_at, ih]

theorem update_at_eq_self {α : Type} (l : List α) (i : Nat) (f : α → α)
    (h : ∀ x, l[i]? = some x → f x = x) : update_at l i f = l := by
  induction l generalizing i with
  | nil => simp [update_at]
  | cons x xs ih =>
    cases i with
    | zero => simpa [update_at] using h
    | succ n =>
      simp only [update_at, List.cons.injEq, true_and]
      exact ih n (fun y hy => h y (by simpa using hy))

theorem vmap_assign_assign (m : VoxelMap) (pos : VoxelPos) (a b : Voxel) :
    vmap_assign (vmap_assign m pos a) pos b = vmap_assign m pos b := by
  induction m with
  | nil => simp [vmap_assign]
  | cons p rest ih =>
    obtain ⟨k, v⟩ := p
    by_cases hk : k = pos
    · simp [vmap_assign, hk]
    · simp [vmap_assign, hk, ih]

theorem vmap_assign_find_self (m : VoxelMap) (pos : VoxelPos) (old : Voxel)
    (h : vmap_find m pos = some old) : vmap_assign m pos old = m := by
  induction m with
  | nil => simp [vmap_find] at h
  | cons p rest ih =>
    obtain ⟨k, v⟩ := p
    by_cases hk : k = pos
    · simp [vmap_find, hk] at h
      simp [vmap_assign, hk, h]
    · simp [vmap_find, hk] at h
      simp [vmap_assign, hk, ih h]

theorem vmap_erase_assign (m : VoxelMap) (pos : VoxelPos) (v : Voxel)
    (h : vmap_find m pos = none) : vmap_erase (vmap_assign m pos v) pos = m := by
  induction m with
  | nil => simp [vmap_assign, vmap_erase]
  | cons p rest ih =>
    obtain ⟨k, w⟩ := p
    by_cases hk : k = pos
    · simp [vmap_find, hk] at h
    · simp [vmap_find, hk] at h
      have := ih h
      simp only [vmap_erase] at this
      simp [vmap_assign, vmap_erase, hk, this]

theorem vmap_find_assign_self (m : VoxelMap) (pos : VoxelPos) (v : Voxel) :
    vmap_find (vmap_assign m pos v) pos = some v := by
  induction m with
  | nil => simp [vmap_assign, vmap_find]
  | cons p rest ih =>
    obtain ⟨k, w⟩ := p
    by_cases hk : k = pos
    · simp [vmap_assign, vmap_find, hk]
    · simp [vmap_assign, vmap_find, hk, ih]

/-- With a current layer, a write through `layer()` rewrites the map of the
layer at index `current_layer_`. -/
theorem with_layer_map_eq (d : EditorData) (L : Layer) (hl : d.layer = some L)
    (f : VoxelMap → VoxelMap) :
    d.with_layer_map f = some (EditorData.mk d.current_layer_
      (update_at d.layers_ d.current_layer_.toNat (fun l => { l with map := f l.map }))
      d.voxels_ d.cursor_ d.symmetric_) := by
  unfold EditorData.layer at hl
  unfold EditorData.with_layer_map
  split at hl
  · rename_i h
    rw [if_pos h]
  · cases hl

theorem layer_update_at (d : EditorData) (L : Layer) (hl : d.layer = some L)
    (f : Layer → Layer) (voxels : VoxelMap) :
    EditorData.layer (EditorData.mk d.current_layer_
      (update_at d.layers_ d.current_layer_.toNat f) voxels d.cursor_ d.symmetric_) =
      some (f L) := by
  unfold EditorData.layer at hl ⊢
  split at hl
  · rename_i h
    simp only [length_update_at]
    rw [if_pos h, getElem?_update_at_self, hl]
    rfl
  · cases hl

theorem set_voxel_eq (d : EditorData) (L : Layer) (hl : d.layer = some L)
    (hs : d.symmetric_ = false) (pos : VoxelPos) (voxel : Voxel) :
    d.set_voxel pos voxel = some (EditorData.mk d.current_layer_
      (update_at d.layers_ d.current_layer_.toNat
        (fun l => { l with map := vmap_assign l.map pos voxel }))
      (insert_layers (update_at d.layers_ d.current_layer_.toNat
        (fun l => { l with map := vmap_assign l.map pos voxel })) 0 [])
      d.cursor_ d.symmetric_) := by
  unfold EditorData.set_voxel
  rw [with_layer_map_eq d L hl]
  simp [hs, EditorData.build_voxels]

theorem delete_voxel_eq (d : EditorData) (L : Layer) (hl : d.layer = some L)
    (hs : d.symmetric_ = false) (pos : VoxelPos) :
    d.delete_voxel pos = some (EditorData.mk d.current_layer_
      (update_at d.layers_ d.current_layer_.toNat
        (fun l => { l with map := vmap_erase l.map pos }))
      (insert_layers (update_at d.layers_ d.current_layer_.toNat
        (fun l => { l with map := vmap_erase l.map pos })) 0 [])
      d.cursor_ d.symmetric_) := by
  unfold EditorData.delete_voxel
  rw [with_layer_map_eq d L hl]
  simp [hs, EditorData.build_voxels]


theorem layer_getElem (d : EditorData) (L : Layer) (hl : d.layer = some L) :
    d.layers_[d.current_layer_.toNat]? = some L := by
  unfold EditorData.layer at hl
  split at hl
  · exact hl
  · cases hl

theorem undo_concat (d : EditorData) (pre redo_ : List Command) (cmd : Command) :
    (voxel_editor.mk d (pre ++ [cmd]) redo_).undo =
      (cmd.undo d).map (fun d1 => voxel_editor.mk d1 pre (redo_ ++ [cmd])) := by
  unfold voxel_editor.undo
  simp only [List.getLast?_concat, List.dropLast_concat]
  cases cmd.undo d <;> rfl

theorem redo_concat (d : EditorData) (undo_ pre : List Command) (cmd : Command) :
    (voxel_editor.mk d undo_ (pre ++ [cmd])).redo =
      (cmd.redo d).map (fun d1 => voxel_editor.mk d1 (undo_ ++ [cmd]) pre) := by
  unfold voxel_editor.redo
  simp only [List.getLast?_concat, List.dropLast_concat]
  cases cmd.redo d <;> rfl

theorem undo_of_command (d d1 : EditorData) (pre redo_ : List Command) (cmd : Command)
    (h : cmd.undo d = some d1) :
    (voxel_editor.mk d (pre ++ [cmd]) redo_).undo =
      some (voxel_editor.mk d1 pre (redo_ ++ [cmd])) := by
  rw [undo_concat, h]
  rfl

/-- C26: with symmetric mode off, a cursor set and a current layer `L`,
`pencil_voxel()` returns, having written the pencil voxel at the cursor of the
current layer, and the `undo()` that follows returns and leaves the current
layer equal to `L` (its map as it was before, the previous voxel at the cursor
restored or the position erased), in a list of layers equal to the one before
`pencil_voxel()`. -/
theorem pencil_then_undo (blank : Voxel) (current_color : Nat) (e : voxel_editor)
    (L : Layer) (cursor : VoxelPos)
    (hs : e.data.symmetric_ = false) (hc : e.data.cursor_ = some cursor)
    (hl : e.data.layer = some L) :
    ∃ e1 e2 L1, pencil_voxel blank current_color e = some e1 ∧
      e1.data.layer = some L1 ∧
      vmap_find L1.map cursor = some { blank with color := current_color } ∧
      e1.undo = some e2 ∧
      e2.data.layer = some L ∧ e2.data.layers_ = e.data.layers_ := by
  obtain ⟨v, hv⟩ : ∃ v : Voxel, v = { blank with color := current_color } := ⟨_, rfl⟩
  obtain ⟨f, hf⟩ : ∃ f : Layer → Layer, f = fun l => Layer.mk l.name (vmap_assign l.map cursor v) :=
    ⟨_, rfl⟩
  have hL := layer_getElem e.data L hl
  have h1 := set_voxel_eq e.data L hl hs cursor v
  have hl1 := layer_update_at e.data L hl f (insert_layers
    (update_at e.data.layers_ e.data.current_layer_.toNat f) 0 [])
  have h2 := set_voxel_eq _ _ hl1 hs cursor v
  simp only [← hf, update_at_update_at] at h1 h2
  have hl2 := layer_update_at e.data L hl (fun x => f (f x)) (insert_layers
    (update_at e.data.layers_ e.data.current_layer_.toNat (fun x => f (f x))) 0 [])
  have hffL : (f (f L)).map = vmap_assign L.map cursor v := by
    rw [hf]
    simp [vmap_assign_assign]
  unfold pencil_voxel
  rw [hc]
  simp only [hl, voxel_editor.execute_command, ← hv, h1, h2]
  rcases hfind : vmap_find L.map cursor with _ | old
  · -- no voxel at the cursor: the undo closure erases the position
    have h3 := delete_voxel_eq _ _ hl2 hs cursor
    simp only [update_at_update_at] at h3
    have hback : update_at e.data.layers_ e.data.current_layer_.toNat
        (fun x => Layer.mk (f (f x)).name (vmap_erase (f (f x)).map cursor)) = e.data.layers_ := by
      apply update_at_eq_self
      intro x hx
      rw [hL] at hx
      cases hx
      rw [hffL, vmap_erase_assign _ _ _ hfind]
      rw [hf]
    rw [hback] at h3
    refine ⟨_, _, _, rfl, hl2, ?_, undo_of_command _ (EditorData.mk e.data.current_layer_
      e.data.layers_ (insert_layers e.data.layers_ 0 []) e.data.cursor_ e.data.symmetric_)
      _ _ _ ?_, ?_, rfl⟩
    · rw [hffL]
      exact vmap_find_assign_self _ _ _
    · simpa using h3
    · unfold EditorData.layer at hl ⊢
      exact hl
  · -- a voxel at the cursor: the undo closure writes it back
    have h3 := set_voxel_eq _ _ hl2 hs cursor old
    simp only [update_at_update_at] at h3
    have hback : update_at e.data.layers_ e.data.current_layer_.toNat
        (fun x => Layer.mk (f (f x)).name (vmap_assign (f (f x)).map cursor old)) =
          e.data.layers_ := by
      apply update_at_eq_self
      intro x hx
      rw [hL] at hx
      cases hx
      rw [hffL, vmap_assign_assign, vmap_assign_find_self _ _ _ hfind]
      rw [hf]
    rw [hback] at h3
    refine ⟨_, _, _, rfl, hl2, ?_, undo_of_command _ (EditorData.mk e.data.current_layer_
      e.data.layers_ (insert_layers e.data.layers_ 0 []) e.data.cursor_ e.data.symmetric_)
      _ _ _ ?_, ?_, rfl⟩
    · rw [hffL]
      exact vmap_find_assign_self _ _ _
    · simpa using h3
    · unfold EditorData.layer at hl ⊢
      exact hl

/-- C26, witness: drawing over the voxel under the cursor of `sample_editor`
and undoing it. -/
theorem pencil_then_undo_witness :
    sample_editor.data.symmetric_ = false ∧
    ∃ e1 e2 L1, pencil_voxel (Voxel.mk 0 0) 9 sample_editor = some e1 ∧
      e1.data.layer = some L1 ∧
      vmap_find L1.map (VoxelPos.mk 1 2 3) = some (Voxel.mk 9 0) ∧
      e1.undo = some e2 ∧
      e2.data.layer = some (Layer.mk "default" [(VoxelPos.mk 1 2 3, Voxel.mk 7 0)]) ∧
      e2.data.layers_ = sample_editor.data.layers_ :=
  ⟨rfl, pencil_then_undo (Voxel.mk 0 0) 9 sample_editor
    (Layer.mk "default" [(VoxelPos.mk 1 2 3, Voxel.mk 7 0)]) (VoxelPos.mk 1 2 3) rfl rfl rfl⟩

/-- C25: `execute_command(c)` runs `c.redo`, pushes `c` on the undo stack
and empties the redo stack; `undo()` on an empty undo stack and `redo()` on an
empty redo stack change nothing; with `cmd` on top of the undo stack `undo()`
runs `cmd.undo` and moves `cmd` to the redo stack, and the `redo()` that
follows runs `cmd.redo` and leaves both stacks as they were before the
`undo()`; `redo()` moves the top of the redo stack likewise; `undo()` and
`redo()` each preserve the number of commands on the two stacks together. -/
theorem undo_redo_stack_discipline (e : voxel_editor) (c : Command) :
    e.execute_command c =
      (c.redo e.data).map (fun d => voxel_editor.mk d (e.undo_ ++ [c]) []) ∧
    (e.undo_ = [] → e.undo = some e) ∧
    (e.redo_ = [] → e.redo = some e) ∧
    (∀ pre cmd, e.undo_ = pre ++ [cmd] →
      e.undo = (cmd.undo e.data).map (fun d => voxel_editor.mk d pre (e.redo_ ++ [cmd])) ∧
      e.undo.bind voxel_editor.redo =
        (cmd.undo e.data).bind (fun d =>
          (cmd.redo d).map (fun d1 => voxel_editor.mk d1 e.undo_ e.redo_))) ∧
    (∀ pre cmd, e.redo_ = pre ++ [cmd] →
      e.redo = (cmd.redo e.data).map (fun d => voxel_editor.mk d (e.undo_ ++ [cmd]) pre)) ∧
    (∀ e1, e.undo = some e1 →
      e1.undo_.length + e1.redo_.length = e.undo_.length + e.redo_.length) ∧
    (∀ e1, e.redo = some e1 →
      e1.undo_.length + e1.redo_.length = e.undo_.length + e.redo_.length) := by
  obtain ⟨d, us, rs⟩ := e
  refine ⟨?_, ?_, ?_, ?_, ?_, ?_, ?_⟩
  · unfold voxel_editor.execute_command
    cases c.redo d <;> rfl
  · intro h
    simp only at h
    subst h
    rfl
  · intro h
    simp only at h
    subst h
    rfl
  · intro pre cmd h
    simp only at h
    subst h
    refine ⟨undo_concat _ _ _ _, ?_⟩
    rw [undo_concat]
    cases cmd.undo d with
    | none => rfl
    | some d1 =>
      simp only [Option.map_some', Option.some_bind]
      rw [redo_concat]
  · intro pre cmd h
    simp only at h
    subst h
    exact redo_concat _ _ _ _
  · intro e1 h
    rcases List.eq_nil_or_concat us with hu | ⟨pre, cmd, hu⟩
    · subst hu
      cases h
      rfl
    · rw [List.concat_eq_append] at hu
      subst hu
      rw [undo_concat] at h
      cases hc : cmd.undo d with
      | none => rw [hc] at h; cases h
      | some d1 =>
        rw [hc] at h
        cases h
        simp only [List.length_append, List.length_singleton]
        omega
  · intro e1 h
    rcases List.eq_nil_or_concat rs with hu | ⟨pre, cmd, hu⟩
    · subst hu
      cases h
      rfl
    · rw [List.concat_eq_append] at hu
      subst hu
      rw [redo_concat] at h
      cases hc : cmd.redo d with
      | none => rw [hc] at h; cases h
      | some d1 =>
        rw [hc] at h
        cases h
        simp only [List.length_append, List.length_singleton]
        omega

/-- C25, witness: on `drawn_editor`, whose undo stack holds `sample_command`,
`undo()` leaves the stacks with 0 and 1 commands and the `redo()` that follows
leaves them with 1 and 0 commands and the data as before the `undo()`. -/
theorem undo_redo_stack_discipline_witness :
    drawn_editor.undo_ = [] ++ [sample_command] ∧
    drawn_editor.undo.map (fun e => (e.undo_.length, e.redo_.length)) = some (0, 1) ∧
    (drawn_editor.undo.bind voxel_editor.redo).map
      (fun e => (e.data, e.undo_.length, e.redo_.length)) = some (drawn_editor.data, 1, 0) := by
  obtain ⟨h1, h2⟩ := (undo_redo_stack_discipline drawn_editor sample_command).2.2.2.1
    [] sample_command rfl
  refine ⟨rfl, ?_, ?_⟩
  · rw [h1]
    rfl
  · rw [h2]
    rfl


/-! ## The voxel editor: `get_selected_voxel` -/

theorem is_equal_iff (pos : VoxelPos) (facing : Int) (q : VoxelPos) :
    is_equal pos facing q = true ↔ agrees_off_facing pos facing q := by
  unfold is_equal agrees_off_facing
  constructor
  · intro h n hn hne
    simp only [List.all_cons, List.all_nil, Bool.and_true, Bool.and_eq_true,
      Bool.not_eq_true', Bool.and_eq_false_imp, bne_iff_ne, ne_eq, bne_eq_false_iff_eq] at h
    rcases hn with rfl | rfl | rfl
    · exact h.1 hne
    · exact h.2.1 hne
    · exact h.2.2 hne
  · intro h
    simp only [List.all_cons, List.all_nil, Bool.and_true, Bool.and_eq_true,
      Bool.not_eq_true', Bool.and_eq_false_imp, bne_iff_ne, ne_eq, bne_eq_false_iff_eq]
    exact ⟨h 0 (Or.inl rfl), h 1 (Or.inr (Or.inl rfl)), h 2 (Or.inr (Or.inr rfl))⟩

theorem wrap32_of_range (n : Int) (h1 : INT_MIN ≤ n) (h2 : n ≤ INT_MAX) : wrap32 n = n := by
  unfold INT_MIN at h1
  unfold INT_MAX at h2
  unfold wrap32
  omega

/-- The loop of `get_selected_voxel` over the voxels `l`, where no product
`flip * p.first[facing]` of an agreeing voxel leaves the range of `int`:
while nothing is found the result is `pos` and no voxel agreed; afterwards the
result is the position of an agreeing voxel of `l` and `best_value`, its
flipped facing coordinate, is the greatest among the agreeing voxels. -/
theorem selected_voxel_fold (pos : VoxelPos) (facing flip : Int) (l : VoxelMap)
    (hr : ∀ p ∈ l, agrees_off_facing pos facing p.1 →
      INT_MIN ≤ flip * p.1.get facing ∧ flip * p.1.get facing ≤ INT_MAX) :
    ((l.foldl (selected_voxel_step pos facing flip) (pos, false, 0)).2.1 = false →
      (l.foldl (selected_voxel_step pos facing flip) (pos, false, 0)).1 = pos ∧
      ∀ p ∈ l, ¬ agrees_off_facing pos facing p.1) ∧
    ((l.foldl (selected_voxel_step pos facing flip) (pos, false, 0)).2.1 = true →
      (∃ p ∈ l, p.1 = (l.foldl (selected_voxel_step pos facing flip) (pos, false, 0)).1) ∧
      agrees_off_facing pos facing
        (l.foldl (selected_voxel_step pos facing flip) (pos, false, 0)).1 ∧
      (l.foldl (selected_voxel_step pos facing flip) (pos, false, 0)).2.2 =
        flip * (l.foldl (selected_voxel_step pos facing flip) (pos, false, 0)).1.get facing ∧
      ∀ q ∈ l, agrees_off_facing pos facing q.1 →
        flip * q.1.get facing ≤
          (l.foldl (selected_voxel_step pos facing flip) (pos, false, 0)).2.2) := by
  induction l using List.reverseRecOn with
  | nil =>
    refine ⟨fun _ => ⟨rfl, ?_⟩, fun h => ?_⟩
    · intro p hp
      cases hp
    · cases h
  | append_singleton l a ih =>
    have ih := ih (fun p hp => hr p (List.mem_append_left _ hp))
    have hra := hr a (List.mem_append_right _ (List.mem_singleton_self a))
    rw [List.foldl_append]
    simp only [List.foldl_cons, List.foldl_nil]
    generalize l.foldl (selected_voxel_step pos facing flip) (pos, false, 0) = st at ih ⊢
    obtain ⟨res, found, best⟩ := st
    simp only at ih
    unfold selected_voxel_step
    cases heq : is_equal pos facing a.1
    · -- the voxel does not agree with `pos`: `continue`
      have hna : ¬ agrees_off_facing pos facing a.1 := by
        rw [← is_equal_iff, heq]
        simp
      simp only [Bool.not_false, if_true]
      refine ⟨fun hf => ?_, fun hf => ?_⟩
      · obtain ⟨h1, h2⟩ := ih.1 hf
        refine ⟨h1, fun p hp => ?_⟩
        rcases List.mem_append.mp hp with hp | hp
        · exact h2 p hp
        · rw [List.mem_singleton.mp hp]
          exact hna
      · obtain ⟨⟨p, hp, hpe⟩, h2, h3, h4⟩ := ih.2 hf
        refine ⟨⟨p, List.mem_append_left _ hp, hpe⟩, h2, h3, fun q hq hag => ?_⟩
        rcases List.mem_append.mp hq with hq | hq
        · exact h4 q hq hag
        · rw [List.mem_singleton.mp hq] at hag
          exact absurd hag hna
    · have hag : agrees_off_facing pos facing a.1 := (is_equal_iff _ _ _).mp heq
      obtain ⟨hlo, hhi⟩ := hra hag
      have hw : wrap32 (flip * a.1.get facing) = flip * a.1.get facing :=
        wrap32_of_range _ hlo hhi
      simp only [Bool.not_true, Bool.false_eq_true, if_false, hw]
      by_cases hc : ((found == false) || decide (flip * a.1.get facing ≥ best)) = true
      · rw [if_pos hc]
        refine ⟨fun hf => (by cases hf), fun _ => ?_⟩
        refine ⟨⟨a, List.mem_append_right _ (List.mem_singleton_self a), rfl⟩, hag, rfl,
          fun q hq hqa => ?_⟩
        rcases List.mem_append.mp hq with hq | hq
        · cases found with
          | false => exact absurd hqa ((ih.1 rfl).2 q hq)
          | true =>
            have h4 := (ih.2 rfl).2.2.2 q hq hqa
            simp at hc
            exact le_trans h4 hc
        · rw [List.mem_singleton.mp hq]
      · rw [if_neg hc]
        simp only [Bool.or_eq_true, beq_iff_eq, decide_eq_true_eq, not_or, not_le] at hc
        obtain ⟨hfound, hlt⟩ := hc
        have hf : found = true := by
          cases found
          · exact absurd rfl hfound
          · rfl
        refine ⟨fun h => ?_, fun _ => ?_⟩
        · rw [hf] at h
          cases h
        · obtain ⟨⟨p, hp, hpe⟩, h2, h3, h4⟩ := ih.2 hf
          refine ⟨⟨p, List.mem_append_left _ hp, hpe⟩, h2, h3, fun q hq hqa => ?_⟩
          rcases List.mem_append.mp hq with hq | hq
          · exact h4 q hq hqa
          · rw [List.mem_singleton.mp hq]
            exact le_of_lt hlt

/-- C29, the failing input: with `reverse` true and the voxels `deep_voxels`,
which both agree with (0, 0, 0) off the z axis, `get_selected_voxel` returns
(0, 0, 5), although the voxel at (0, 0, -2147483648) has the lesser z
coordinate: `flip * p.first[facing]` is -1 * -2147483648, which is no `int`.
With `reverse` false the same loop returns (0, 0, 5) on these voxels, the
greatest z coordinate, as it should. -/
theorem selected_voxel_not_minimum :
    get_selected_voxel deep_voxels (VoxelPos.mk 0 0 0) 2 true = VoxelPos.mk 0 0 5 ∧
    (VoxelPos.mk 0 0 (-2147483648), Voxel.mk 1 0) ∈ deep_voxels ∧
    agrees_off_facing (VoxelPos.mk 0 0 0) 2 (VoxelPos.mk 0 0 (-2147483648)) ∧
    (VoxelPos.mk 0 0 (-2147483648)).get 2 <
      (get_selected_voxel deep_voxels (VoxelPos.mk 0 0 0) 2 true).get 2 ∧
    get_selected_voxel deep_voxels (VoxelPos.mk 0 0 0) 2 false = VoxelPos.mk 0 0 5 := by
  refine ⟨by decide, by decide, ?_, by decide, by decide⟩
  intro n hn hne
  rcases hn with rfl | rfl | rfl
  · rfl
  · rfl
  · exact absurd rfl hne

/-- Away from the overflow `get_selected_voxel` selects the extremum: for
every voxel map, position `pos`, facing in {0, 1, 2} and flag `reverse`, where
the facing coordinate of every voxel that agrees with `pos` on the two other
coordinates is an `int` and, when `reverse` is
true, not the least `int`: `get_selected_voxel(pos, facing, reverse)` returns
`pos` when no voxel of the map agrees with `pos` on the two non-facing
coordinates; otherwise it returns the position of a voxel of the map that
agrees with `pos` on them and whose facing coordinate is the greatest among
such voxels (the least when `reverse` is true). -/
theorem get_selected_voxel_extremum (voxels_ : VoxelMap) (pos : VoxelPos) (facing : Int)
    (reverse : Bool) (_hf : facing = 0 ∨ facing = 1 ∨ facing = 2)
    (hr : ∀ p ∈ voxels_, agrees_off_facing pos facing p.1 →
      INT_MIN ≤ p.1.get facing ∧ p.1.get facing ≤ INT_MAX ∧
      (reverse = true → p.1.get facing ≠ INT_MIN)) :
    ((∀ p ∈ voxels_, ¬ agrees_off_facing pos facing p.1) →
      get_selected_voxel voxels_ pos facing reverse = pos) ∧
    ((∃ p ∈ voxels_, agrees_off_facing pos facing p.1) →
      (∃ p ∈ voxels_, p.1 = get_selected_voxel voxels_ pos facing reverse) ∧
      agrees_off_facing pos facing (get_selected_voxel voxels_ pos facing reverse) ∧
      ∀ q ∈ voxels_, agrees_off_facing pos facing q.1 →
        if reverse = true then
          (get_selected_voxel voxels_ pos facing reverse).get facing ≤ q.1.get facing
        else q.1.get facing ≤ (get_selected_voxel voxels_ pos facing reverse).get facing) := by
  have hfold := selected_voxel_fold pos facing (if reverse = true then -1 else 1) voxels_
    (by
      intro p hp hag
      obtain ⟨h1, h2, h3⟩ := hr p hp hag
      unfold INT_MIN at h1 h3 ⊢
      unfold INT_MAX at h2 ⊢
      cases reverse with
      | false => simpa using ⟨h1, h2⟩
      | true =>
        have h3 := h3 rfl
        simp only [if_true]
        omega)
  unfold get_selected_voxel
  simp only []
  generalize voxels_.foldl (selected_voxel_step pos facing (if reverse = true then -1 else 1))
    (pos, false, 0) = st at hfold ⊢
  obtain ⟨res, found, best⟩ := st
  simp only at hfold ⊢
  cases found with
  | false =>
    obtain ⟨h1, h2⟩ := hfold.1 rfl
    refine ⟨fun _ => h1, fun h => ?_⟩
    obtain ⟨p, hp, hag⟩ := h
    exact absurd hag (h2 p hp)
  | true =>
    obtain ⟨⟨p, hp, hpe⟩, h2, h3, h4⟩ := hfold.2 rfl
    refine ⟨fun h => ?_, fun _ => ⟨⟨p, hp, hpe⟩, h2, fun q hq hqa => ?_⟩⟩
    · exact absurd (hpe ▸ h2) (h p hp)
    · have h5 := h4 q hq hqa
      rw [h3] at h5
      cases reverse with
      | false => simpa using h5
      | true =>
        simp only [if_true] at h5 ⊢
        omega

/-- The least voxel of the column x = 0, y = 0 of `column_voxels`. -/
theorem get_selected_voxel_extremum_witness :
    get_selected_voxel column_voxels (VoxelPos.mk 0 0 0) 2 true = VoxelPos.mk 0 0 (-3) ∧
    ∀ q ∈ column_voxels, agrees_off_facing (VoxelPos.mk 0 0 0) 2 q.1 →
      (get_selected_voxel column_voxels (VoxelPos.mk 0 0 0) 2 true).get 2 ≤ q.1.get 2 := by
  have h := (get_selected_voxel_extremum column_voxels (VoxelPos.mk 0 0 0) 2 true
    (Or.inr (Or.inr rfl))
    (by
      intro p hp _
      simp only [column_voxels, List.mem_cons, List.mem_singleton, List.not_mem_nil,
        or_false] at hp
      rcases hp with rfl | rfl | rfl <;> decide)).2
    ⟨(VoxelPos.mk 0 0 5, Voxel.mk 1 0), by decide, by
      intro n hn hne
      rcases hn with rfl | rfl | rfl
      · rfl
      · rfl
      · exact absurd rfl hne⟩
  refine ⟨by decide, fun q hq hag => ?_⟩
  simpa using h.2.2 q hq hag

end Anura
